import Mathlib

/-!
# DateTime (okano-tomoyuki/date_time, `date_time.hpp`)

A shallow embedding of the class `DateTime` and of the C++ standard library
operations it calls, followed by theorems about the embedded functions.

Conventions of the embedding
* `std::string` is a list of characters (`Str`).
* `int` is a mathematical integer; where the source narrows a wider value to
  `int` the embedding applies `toInt32` (reduction modulo `2^32`).
* A C++ exception is an `Except.error` carrying the kind of the exception.
* A `while (true)` loop is a function with an iteration budget; running out of
  budget is the distinguished outcome `Exn.no_fuel` (or `none`), and lemmas show
  the budget handed to every loop is large enough.
* `system_clock::time_point` is the count of nanoseconds since the epoch that
  the time point holds, a signed 64-bit integer in the library of the build;
  sums and differences of such counts are reduced with `toInt64` (reduction
  modulo `2^64`).
-/

set_option linter.unusedVariables false

deriving instance DecidableEq for Except

/-- A character string (`std::string`, `const char*`). -/
abbrev Str := List Char

/-- The ways in which an embedded computation can stop without a value. The
first three are the C++ exceptions that occur in the source; the last two are
outcomes of the model: an array read outside its bounds, and an exhausted
iteration budget. -/
inductive Exn where
  | runtime_error (what : Str)
  | invalid_argument
  | out_of_range
  | bad_index
  | no_fuel
deriving DecidableEq, Repr

/-- Conversion of an integer value to a 32-bit `int` (two's complement). -/
def toInt32 (x : Int) : Int := (x + 2147483648) % 4294967296 - 2147483648

/-- Conversion of an integer value to a signed 64-bit integer (two's
complement): the type `time_t` and the counts of `std::chrono` in the build. -/
def toInt64 (x : Int) : Int :=
  (x + 9223372036854775808) % 18446744073709551616 - 9223372036854775808

namespace Cpp

/-- The value `LONG_MAX` of a 64-bit `long`. -/
def LONG_MAX : Int := 9223372036854775807

/-- Search of `t` in the list `s`, whose first character has index `i`. -/
def findAt (t : Str) : Str → Nat → Option Nat
  | [], i => if t.isEmpty then some i else none
  | c :: s, i => if t.isPrefixOf (c :: s) then some i else findAt t s (i + 1)

/-- The call `s.find(t, pos)` of `std::string`: the first index `p ≥ pos` at
which `t` occurs in `s`; `none` stands for `npos`. -/
def find (s t : Str) (pos : Nat) : Option Nat :=
  if pos > s.length then none else findAt t (s.drop pos) pos

/-- The call `s.substr(pos, n)`: throws `std::out_of_range` when `pos` is
larger than the size, and otherwise returns at most `n` characters. -/
def substr (s : Str) (pos n : Nat) : Except Exn Str :=
  if pos > s.length then .error .out_of_range else .ok ((s.drop pos).take n)

/-- The call `s.replace(pos, len, count, ch)`: the characters of
`[pos, pos + len)` that exist are replaced by `count` copies of `ch`. -/
def replace (s : Str) (pos len count : Nat) (ch : Char) : Except Exn Str :=
  if pos > s.length then .error .out_of_range
  else .ok (s.take pos ++ List.replicate count ch ++ s.drop (pos + len))

/-- The predicate `isspace` of the C locale. -/
def isspace (c : Char) : Bool :=
  c == ' ' || c == '\t' || c == '\n' || c == '\x0b' || c == '\x0c' || c == '\r'

/-- The predicate `isdigit`. -/
def isdigit (c : Char) : Bool := 48 ≤ c.toNat && c.toNat ≤ 57

/-- The value of a decimal digit character. -/
def digitVal (c : Char) : Nat := c.toNat - 48

/-- The value of a string of decimal digits. -/
def digitsVal (ds : Str) : Nat := ds.foldl (fun a c => 10 * a + digitVal c) 0

/-- The digits that `std::stol(s)` reads in base 10: leading white space is
skipped, an optional sign is skipped, and the longest run of digits is taken;
what follows the digits is ignored. -/
def stolDigits (s : Str) : Str :=
  let s1 := s.dropWhile isspace
  let s2 := if s1.head? == some '-' || s1.head? == some '+' then s1.tail else s1
  s2.takeWhile isdigit

/-- The number that `std::stol(s)` reads: the value of the digits, negated after
a minus sign. -/
def stolValue (s : Str) : Int :=
  if (s.dropWhile isspace).head? == some '-' then -(digitsVal (stolDigits s) : Int)
  else (digitsVal (stolDigits s) : Int)

/-- The function `std::stol(s)` in base 10. Without a digit
`std::invalid_argument` is thrown, and `std::out_of_range` when the value does
not fit a `long`. -/
def stol (s : Str) : Except Exn Int :=
  if (stolDigits s).isEmpty then .error .invalid_argument
  else if stolValue s < -LONG_MAX - 1 ∨ stolValue s > LONG_MAX then .error .out_of_range
  else .ok (stolValue s)

/-- The function `std::to_string(int)`. -/
def to_string (v : Int) : Str :=
  if v < 0 then '-' :: Nat.toDigits 10 v.natAbs else Nat.toDigits 10 v.toNat

/-- The broken-down time `std::tm` (the fields the source reads or writes). -/
structure Tm where
  tm_year : Int
  tm_mon : Int
  tm_mday : Int
  tm_hour : Int
  tm_min : Int
  tm_sec : Int
  tm_isdst : Int
deriving DecidableEq, Repr

end Cpp

/-- The Gregorian leap-year test, written as in `from_str`. -/
def isLeap (year : Int) : Bool :=
  year % 4 == 0 && !(year % 100 == 0 && year % 400 != 0)

/-- The number of days of month `mon` (1 to 12) of `year`; 0 for another `mon`. -/
def daysInMonth (year mon : Int) : Int :=
  if mon = 2 then (if isLeap year then 29 else 28)
  else if mon = 4 ∨ mon = 6 ∨ mon = 9 ∨ mon = 11 then 30
  else if 1 ≤ mon ∧ mon ≤ 12 then 31
  else 0

namespace Cpp

/-- The lengths of the twelve months of year `y`. -/
def monthDays (y : Int) : List Int :=
  [31, if isLeap y then 29 else 28, 31, 30, 31, 30, 31, 31, 30, 31, 30, 31]

/-- The number of days of year `y`. -/
def daysInYear (y : Int) : Int := if isLeap y then 366 else 365

/-- The number of days from 1970-01-01 to the first of January of year `y`. -/
def daysBeforeYear (y : Int) : Int :=
  365 * (y - 1970) + (y - 1969) / 4 - (y - 1901) / 100 + (y - 1601) / 400

/-- Modelled from the spec: the C library function `timegm` (the calendar
arithmetic of `mktime` in a zone without offset) is not part of the repository.
The fields are taken as a proleptic Gregorian UTC date and time; a month outside
0..11 carries into the year, and days, hours, minutes and seconds outside their
ranges carry linearly, as `mktime` normalises them. -/
def timegm (tm : Tm) : Int :=
  let y := tm.tm_year + 1900 + tm.tm_mon / 12
  let m := tm.tm_mon % 12
  let days := daysBeforeYear y + ((monthDays y).take m.toNat).sum + (tm.tm_mday - 1)
  86400 * days + 3600 * tm.tm_hour + 60 * tm.tm_min + tm.tm_sec

/-- The year that holds day number `d`, counted from the first of January of
year `y`, with the number of the day within that year. -/
def yearLoop : Nat → Int → Int → Int × Int
  | 0, y, d => (y, d)
  | fuel + 1, y, d =>
    if d < 0 then yearLoop fuel (y - 1) (d + daysInYear (y - 1))
    else if d ≥ daysInYear y then yearLoop fuel (y + 1) (d - daysInYear y)
    else (y, d)

/-- The month (counted from `m`) that holds day `d` (counted from 0), given the
lengths of the months from `m` on, with the day of the month (counted from 1). -/
def monthLoop : List Int → Int → Int → Int × Int
  | [], m, d => (m, d + 1)
  | len :: rest, m, d => if d < len then (m, d + 1) else monthLoop rest (m + 1) (d - len)

/-- Modelled from the spec: the C library function `gmtime` is not part of the
repository. A count of seconds since the epoch is decomposed as a UTC calendar
date and time of the proleptic Gregorian calendar, without leap seconds. -/
def gmtime (t : Int) : Tm :=
  let days := t / 86400
  let rem := t % 86400
  let yd := yearLoop (days.natAbs / 365 + 2) 1970 days
  let md := monthLoop (monthDays yd.1) 0 yd.2
  ⟨yd.1 - 1900, md.1, md.2, rem / 3600, rem % 3600 / 60, rem % 60, 0⟩

/-- Modelled from the spec: `std::chrono::system_clock` is C++ library code
outside the repository. In the library of the build (libstdc++) a `time_point`
of this clock holds a signed 64-bit count of nanoseconds since the epoch, and
`from_time_t` multiplies the count of seconds by `10^9` in that type. -/
def from_time_t (t : Int) : Int := toInt64 (1000000000 * t)

/-- Modelled from the spec: `std::chrono::system_clock` is C++ library code
outside the repository. In the library of the build (libstdc++) `to_time_t`
casts the count of nanoseconds to seconds, truncating toward zero. -/
def to_time_t (tp : Int) : Int := Int.tdiv tp 1000000000

end Cpp

/-- The part of the C library that depends on the process: the local time zone
(`mktime`, `localtime`) and the reading of the clock (`time`). -/
structure Env where
  mktime : Cpp.Tm → Int
  localtime : Int → Cpp.Tm
  time : Int

/-- Modelled from the spec: the C library functions `mktime` and `localtime`
are not part of the repository. In a zone whose local time is always `offset`
seconds ahead of UTC, `mktime` reads the fields as local time and `localtime`
decomposes the shifted instant. -/
def Env.fixed (offset now : Int) : Env :=
  ⟨fun tm => Cpp.timegm tm - offset, fun t => Cpp.gmtime (t + offset), now⟩

/-- The units of `add` and `diff`. -/
inductive DateTimeUnit where
  | HOUR | MIN | SEC | MSEC | USEC
deriving DecidableEq, Repr

/-- The eight private members of the class. -/
structure DateTime where
  year_ : Int
  mon_ : Int
  day_ : Int
  hour_ : Int
  min_ : Int
  sec_ : Int
  msec_ : Int
  usec_ : Int
deriving DecidableEq, Repr

namespace DateTime

/-- The token strings of the template language. -/
def tok_yyyy : Str := ['y', 'y', 'y', 'y']
def tok_mm : Str := ['m', 'm']
def tok_dd : Str := ['d', 'd']
def tok_hh : Str := ['h', 'h']
def tok_nn : Str := ['n', 'n']
def tok_ss : Str := ['s', 's']
def tok_zzzzzz : Str := ['z', 'z', 'z', 'z', 'z', 'z']
def tok_zzz : Str := ['z', 'z', 'z']

/-- The loop `while(remain--) result = '0' + result;` of `zero_fill`. -/
def zero_fill_loop : Nat → Str → Str
  | 0, result => result
  | remain + 1, result => zero_fill_loop remain ('0' :: result)

/-- The method `zero_fill(str, digit)`. -/
def zero_fill (str : Str) (digit : Nat) : Str :=
  zero_fill_loop (if digit > str.length then digit - str.length else 0) str

/-- The `while(true)` loop of `dump`, with an iteration budget. The two calls
of `substr` cannot throw, `pos` being a result of `find`. -/
def dumpLoop (fmt rep : Str) : Nat → Str → Nat → Option Str
  | 0, _, _ => none
  | fuel + 1, str, pos =>
    match Cpp.find str fmt pos with
    | none => some str
    | some p =>
      let l := str.take p
      let r := str.drop (p + fmt.length)
      dumpLoop fmt rep fuel (l ++ rep ++ r) (p + rep.length)

/-- The method `dump(str, fmt, rep)`; the result is the new value of `str`. -/
def dump (str fmt rep : Str) : Option Str :=
  dumpLoop fmt rep (str.length + 1) str 0

/-- The method `to_str(format)`. -/
def to_str (d : DateTime) (format : Str) : Option Str := do
  let result := format
  let result ← dump result tok_yyyy (Cpp.to_string d.year_)
  let result ← dump result tok_mm (zero_fill (Cpp.to_string d.mon_) 2)
  let result ← dump result tok_dd (zero_fill (Cpp.to_string d.day_) 2)
  let result ← dump result tok_hh (zero_fill (Cpp.to_string d.hour_) 2)
  let result ← dump result tok_nn (zero_fill (Cpp.to_string d.min_) 2)
  let result ← dump result tok_ss (zero_fill (Cpp.to_string d.sec_) 2)
  let result ← dump result tok_zzzzzz
    (zero_fill (Cpp.to_string (toInt32 (1000 * d.msec_ + d.usec_))) 6)
  let result ← dump result tok_zzz (zero_fill (Cpp.to_string d.msec_) 3)
  pure result

/-- The variables of one call of `parse` that change in its loop. -/
structure ParseState where
  dt_str : Str
  fmt_str : Str
  pos : Nat
  val : Int
deriving DecidableEq, Repr

/-- The message of the error thrown by `parse` for a field that is not a number. -/
def convertMsg (sub fmt : Str) : Str :=
  " convert from ".toList ++ sub ++ " to ".toList ++ fmt ++ " failed".toList

/-- The message of the error thrown by `parse` for a field out of its range. -/
def rangeMsg (tmp : Int) (fmt : Str) (low_range upper_range : Int) : Str :=
  Cpp.to_string tmp ++ " is out of range for ".toList ++ fmt ++ " (".toList
    ++ Cpp.to_string low_range ++ " - ".toList ++ Cpp.to_string upper_range ++ ")".toList

/-- One turn of the `while(true)` loop of `parse`; `none` is the `break`. -/
def parseBody (fmt : Str) (low_range upper_range : Int) (s : ParseState) :
    Except Exn (Option ParseState) :=
  match Cpp.find s.fmt_str fmt s.pos with
  | none => .ok none
  | some pos =>
    match Cpp.substr s.dt_str pos fmt.length with
    | .error e => .error e
    | .ok sub =>
      match Cpp.stol sub with
      | .error .invalid_argument => .error (.runtime_error (convertMsg sub fmt))
      | .error e => .error e
      | .ok v =>
        let tmp := toInt32 v
        match Cpp.replace s.fmt_str pos fmt.length fmt.length '*' with
        | .error e => .error e
        | .ok fmt_str =>
          match Cpp.replace s.dt_str pos fmt.length fmt.length '*' with
          | .error e => .error e
          | .ok dt_str =>
            if tmp < low_range ∨ tmp > upper_range then
              .error (.runtime_error (rangeMsg tmp fmt low_range upper_range))
            else
              .ok (some ⟨dt_str, fmt_str, pos + fmt.length, tmp⟩)

/-- The `while(true)` loop of `parse`, with an iteration budget. -/
def parseLoop (fmt : Str) (low_range upper_range : Int) : Nat → ParseState → Except Exn ParseState
  | 0, _ => .error .no_fuel
  | fuel + 1, s =>
    match parseBody fmt low_range upper_range s with
    | .error e => .error e
    | .ok none => .ok s
    | .ok (some s1) => parseLoop fmt low_range upper_range fuel s1

/-- The static method `parse(dt_str, fmt_str, fmt, val, low_range, upper_range)`;
the result holds the new values of the three reference arguments. -/
def parse (dt_str fmt_str fmt : Str) (val low_range upper_range : Int) : Except Exn ParseState :=
  parseLoop fmt low_range upper_range (fmt_str.length + 1) ⟨dt_str, fmt_str, 0, val⟩

/-- The array `days_of_month` of `from_str` after the leap-year adjustment. -/
def days_of_month (year : Int) : List Int :=
  [31, if isLeap year then 29 else 28, 31, 30, 31, 30, 31, 31, 30, 31, 30, 31]

/-- The read `table[i]` of a built-in array. -/
def index (table : List Int) (i : Int) : Except Exn Int :=
  if i < 0 then .error .bad_index
  else match table.get? i.toNat with
    | some v => .ok v
    | none => .error .bad_index

/-- The message of the error that `from_str` throws in its `catch` clause. -/
def wrapMsg (date_time_str format what : Str) : Str :=
  "from_str".toList ++ " failed. ".toList ++ date_time_str ++ " couldn't parse to ".toList
    ++ format ++ ".".toList ++ what

/-- The `try` block of `from_str` with the `return` statement that follows it. -/
def from_str_try (date_time_str format : Str) : Except Exn DateTime := do
  -- year = 1970; mon = day = 1; day = hour = min = sec = msec = usec = 0;
  let year := 1970
  let mon := 1
  let day := 0
  let hour := 0
  let min := 0
  let sec := 0
  let msec := 0
  let usec := 0
  let s ← parse date_time_str format tok_yyyy year 1970 2300
  let year := s.val
  let days := days_of_month year
  let s ← parse s.dt_str s.fmt_str tok_mm mon 1 12
  let mon := s.val
  let upper ← index days (mon - 1)
  let s ← parse s.dt_str s.fmt_str tok_dd day 1 upper
  let day := s.val
  let s ← parse s.dt_str s.fmt_str tok_hh hour 0 23
  let hour := s.val
  let s ← parse s.dt_str s.fmt_str tok_nn min 0 59
  let min := s.val
  let s ← parse s.dt_str s.fmt_str tok_ss sec 0 59
  let sec := s.val
  let s ← parse s.dt_str s.fmt_str tok_zzzzzz usec 0 999999
  let usec := s.val
  let msec := Int.tdiv usec 1000
  let usec := Int.tmod usec 1000
  let s ← parse s.dt_str s.fmt_str tok_zzz msec 0 999
  let msec := s.val
  pure ⟨year, mon, day, hour, min, sec, msec, usec⟩

/-- The static method `from_str(date_time_str, format)`: a `std::runtime_error`
of the `try` block is caught and thrown again with a longer message; every
other exception passes. -/
def from_str (date_time_str format : Str) : Except Exn DateTime :=
  match from_str_try date_time_str format with
  | .error (.runtime_error what) => .error (.runtime_error (wrapMsg date_time_str format what))
  | r => r

end DateTime

namespace DateTime

/-- The constructor `DateTime(const system_clock::time_point& tp)`; `tp` is the
count of nanoseconds since the epoch that the time point holds. The casts to
microseconds and to seconds truncate toward zero, and the three `int` variables
hold their values modulo `2^32`. -/
def ofTimePoint (tp : Int) : DateTime :=
  let tt := Cpp.to_time_t tp
  let tm_ptr := Cpp.gmtime tt
  let usec_epoch := toInt32 (Int.tdiv tp 1000)
  let sec_epoch := toInt32 (1000000 * Int.tdiv tp 1000000000)
  let usec := toInt32 (usec_epoch - sec_epoch)
  ⟨tm_ptr.tm_year + 1900, tm_ptr.tm_mon + 1, tm_ptr.tm_mday,
   tm_ptr.tm_hour, tm_ptr.tm_min, tm_ptr.tm_sec,
   Int.tdiv usec 1000, Int.tmod usec 1000⟩

/-- The method `to_time_point()`; the result is the count of nanoseconds since
the epoch that the time point holds. The sum of the three `time_t` values and
the sums of the counts of the clock are formed in signed 64-bit integers. -/
def to_time_point (env : Env) (d : DateTime) : Int :=
  let tm_var : Cpp.Tm :=
    ⟨d.year_ - 1900, d.mon_ - 1, d.day_, d.hour_, d.min_, d.sec_, -1⟩
  let time_seed := env.time
  let tt := toInt64 (toInt64 (env.mktime tm_var + env.mktime (env.localtime time_seed))
    - env.mktime (Cpp.gmtime time_seed))
  let tp := toInt64 (toInt64 (Cpp.from_time_t tt + toInt64 (1000000 * d.msec_))
    + toInt64 (1000 * d.usec_))
  tp

/-- The operator `==`. -/
def eq (env : Env) (a other : DateTime) : Bool :=
  decide (to_time_point env a = to_time_point env other)

/-- The operator `!=`. -/
def ne (env : Env) (a other : DateTime) : Bool :=
  decide (to_time_point env a ≠ to_time_point env other)

/-- The operator `<`. -/
def lt (env : Env) (a other : DateTime) : Bool :=
  decide (to_time_point env a < to_time_point env other)

/-- The operator `>`. -/
def gt (env : Env) (a other : DateTime) : Bool :=
  decide (to_time_point env a > to_time_point env other)

/-- The static method `add(other, increment, unit)`, which copies `other` and
calls the member `add(increment, unit)` on the copy. The amount is converted to
nanoseconds and added to the time point in signed 64-bit integers. -/
def add (env : Env) (other : DateTime) (increment : Int) (unit : DateTimeUnit) : DateTime :=
  if unit = .HOUR then
    ofTimePoint (toInt64 (to_time_point env other + toInt64 (3600000000000 * increment)))
  else if unit = .MIN then
    ofTimePoint (toInt64 (to_time_point env other + toInt64 (60000000000 * increment)))
  else if unit = .SEC then
    ofTimePoint (toInt64 (to_time_point env other + toInt64 (1000000000 * increment)))
  else if unit = .MSEC then
    ofTimePoint (toInt64 (to_time_point env other + toInt64 (1000000 * increment)))
  else
    ofTimePoint (toInt64 (to_time_point env other + toInt64 (1000 * increment)))

/-- The static method `diff(lhs, rhs, unit)`: the two time points are
subtracted in signed 64-bit nanoseconds, the cast of the difference to the unit
truncates toward zero, and the count is returned as an `int`. -/
def diff (env : Env) (lhs rhs : DateTime) (unit : DateTimeUnit) : Int :=
  if unit = .HOUR then
    toInt32 (Int.tdiv (toInt64 (to_time_point env lhs - to_time_point env rhs)) 3600000000000)
  else if unit = .MIN then
    toInt32 (Int.tdiv (toInt64 (to_time_point env lhs - to_time_point env rhs)) 60000000000)
  else if unit = .SEC then
    toInt32 (Int.tdiv (toInt64 (to_time_point env lhs - to_time_point env rhs)) 1000000000)
  else if unit = .MSEC then
    toInt32 (Int.tdiv (toInt64 (to_time_point env lhs - to_time_point env rhs)) 1000000)
  else
    toInt32 (Int.tdiv (toInt64 (to_time_point env lhs - to_time_point env rhs)) 1000)

end DateTime

namespace DateTime

/-- The ranges of the data model for the seven fields other than the year:
month 1..12, day 1..days-in-month, hour 0..23, minute and second 0..59,
millisecond and microsecond 0..999. -/
def InRange (d : DateTime) : Prop :=
  1 ≤ d.mon_ ∧ d.mon_ ≤ 12
  ∧ 1 ≤ d.day_ ∧ d.day_ ≤ daysInMonth d.year_ d.mon_
  ∧ 0 ≤ d.hour_ ∧ d.hour_ ≤ 23
  ∧ 0 ≤ d.min_ ∧ d.min_ ≤ 59
  ∧ 0 ≤ d.sec_ ∧ d.sec_ ≤ 59
  ∧ 0 ≤ d.msec_ ∧ d.msec_ ≤ 999
  ∧ 0 ≤ d.usec_ ∧ d.usec_ ≤ 999

/-- A canonical (field-valid) value: the year in 1970..2300 and the other
fields in their ranges. -/
def Canonical (d : DateTime) : Prop :=
  1970 ≤ d.year_ ∧ d.year_ ≤ 2300 ∧ InRange d

instance (d : DateTime) : Decidable (InRange d) := by
  unfold InRange; infer_instance

instance (d : DateTime) : Decidable (Canonical d) := by
  unfold Canonical; infer_instance

end DateTime

/-! ### The execution of `from_str` as a sequence of calls of `parse` -/

namespace DateTime

/-- The eight calls of `parse` in `from_str`, each named by its token, in the
order of the source. -/
inductive Token where
  | yyyy | mm | dd | hh | nn | ss | zzzzzz | zzz
deriving DecidableEq, Repr

/-- The local variables of `from_str`. -/
structure Locals where
  dt_str : Str
  fmt_str : Str
  year : Int
  mon : Int
  day : Int
  hour : Int
  min : Int
  sec : Int
  msec : Int
  usec : Int
deriving DecidableEq, Repr

/-- The values of the local variables before the `try` block. -/
def Locals.init (date_time_str format : Str) : Locals :=
  ⟨date_time_str, format, 1970, 1, 0, 0, 0, 0, 0, 0⟩

/-- The value that `from_str` returns from its local variables. -/
def Locals.result (L : Locals) : DateTime :=
  ⟨L.year, L.mon, L.day, L.hour, L.min, L.sec, L.msec, L.usec⟩

/-- The argument `fmt` of the call. -/
def Token.fmt : Token → Str
  | .yyyy => tok_yyyy
  | .mm => tok_mm
  | .dd => tok_dd
  | .hh => tok_hh
  | .nn => tok_nn
  | .ss => tok_ss
  | .zzzzzz => tok_zzzzzz
  | .zzz => tok_zzz

/-- The argument `low_range` of the call. -/
def Token.low : Token → Int
  | .yyyy => 1970
  | .mm => 1
  | .dd => 1
  | _ => 0

/-- The argument `upper_range` of the call, read when the call is made. -/
def Token.upper (tok : Token) (L : Locals) : Except Exn Int :=
  match tok with
  | .yyyy => .ok 2300
  | .mm => .ok 12
  | .dd => index (days_of_month L.year) (L.mon - 1)
  | .hh => .ok 23
  | .nn => .ok 59
  | .ss => .ok 59
  | .zzzzzz => .ok 999999
  | .zzz => .ok 999

/-- The value of the variable passed as `val` when the call is made. -/
def Token.val (tok : Token) (L : Locals) : Int :=
  match tok with
  | .yyyy => L.year
  | .mm => L.mon
  | .dd => L.day
  | .hh => L.hour
  | .nn => L.min
  | .ss => L.sec
  | .zzzzzz => L.usec
  | .zzz => L.msec

/-- The local variables after the call has returned with loop variables `s`
and the statements up to the next call have run. -/
def Token.store (tok : Token) (L : Locals) (s : ParseState) : Locals :=
  match tok with
  | .yyyy => { L with dt_str := s.dt_str, fmt_str := s.fmt_str, year := s.val }
  | .mm => { L with dt_str := s.dt_str, fmt_str := s.fmt_str, mon := s.val }
  | .dd => { L with dt_str := s.dt_str, fmt_str := s.fmt_str, day := s.val }
  | .hh => { L with dt_str := s.dt_str, fmt_str := s.fmt_str, hour := s.val }
  | .nn => { L with dt_str := s.dt_str, fmt_str := s.fmt_str, min := s.val }
  | .ss => { L with dt_str := s.dt_str, fmt_str := s.fmt_str, sec := s.val }
  | .zzzzzz => { L with dt_str := s.dt_str, fmt_str := s.fmt_str,
                        msec := Int.tdiv s.val 1000, usec := Int.tmod s.val 1000 }
  | .zzz => { L with dt_str := s.dt_str, fmt_str := s.fmt_str, msec := s.val }

/-- The calls that follow the call of a token. -/
def Token.rest : Token → List Token
  | .yyyy => [.mm, .dd, .hh, .nn, .ss, .zzzzzz, .zzz]
  | .mm => [.dd, .hh, .nn, .ss, .zzzzzz, .zzz]
  | .dd => [.hh, .nn, .ss, .zzzzzz, .zzz]
  | .hh => [.nn, .ss, .zzzzzz, .zzz]
  | .nn => [.ss, .zzzzzz, .zzz]
  | .ss => [.zzzzzz, .zzz]
  | .zzzzzz => [.zzz]
  | .zzz => []

/-- One call of `parse` in `from_str`, as a change of the local variables. -/
def call (tok : Token) (L : Locals) : Except Exn Locals := do
  let upper ← tok.upper L
  let s ← parse L.dt_str L.fmt_str tok.fmt (tok.val L) tok.low upper
  pure (tok.store L s)

/-- A sequence of calls of `parse`. -/
def calls : List Token → Locals → Except Exn Locals
  | [], L => .ok L
  | tok :: rest, L =>
    match call tok L with
    | .error e => .error e
    | .ok L1 => calls rest L1

/-- The relation `AtLoopHead date_time_str format tok L upper s`: the execution of
`from_str(date_time_str, format)` arrives at the head of the `while` loop of the
call of `parse` for `tok`; `L` holds the local variables of `from_str` when the
call was made, `upper` is the upper bound passed to it, and `s` holds the
current values of the loop variables. The execution starts in the call for
`yyyy`; a turn of the loop that finds an acceptable occurrence leads to the next
turn; the `break` leads to the call for the next token. -/
inductive AtLoopHead (date_time_str format : Str) : Token → Locals → Int → ParseState → Prop
  | start :
    AtLoopHead date_time_str format .yyyy (Locals.init date_time_str format) 2300
      ⟨date_time_str, format, 0, 1970⟩
  | turn {tok : Token} {L : Locals} {upper : Int} {s s1 : ParseState} :
    AtLoopHead date_time_str format tok L upper s →
    parseBody tok.fmt tok.low upper s = .ok (some s1) →
    AtLoopHead date_time_str format tok L upper s1
  | next {tok tok1 : Token} {L : Locals} {upper upper1 : Int} {s : ParseState}
    {others : List Token} :
    AtLoopHead date_time_str format tok L upper s →
    parseBody tok.fmt tok.low upper s = .ok none →
    tok.rest = tok1 :: others →
    tok1.upper (tok.store L s) = .ok upper1 →
    AtLoopHead date_time_str format tok1 (tok.store L s) upper1
      ⟨(tok.store L s).dt_str, (tok.store L s).fmt_str, 0, tok1.val (tok.store L s)⟩

end DateTime

namespace DateTime

/-- The rest of the `try` block of `from_str` from the head of the loop of the
call for `tok`. -/
def continueFrom (tok : Token) (L : Locals) (upper : Int) (s : ParseState) : Except Exn DateTime :=
  match parseLoop tok.fmt tok.low upper (s.fmt_str.length + 1) s with
  | .error e => .error e
  | .ok s1 => (calls tok.rest (tok.store L s1)).map Locals.result

end DateTime

namespace DateTime

/-- The relation `Masked P a b`: the string `b` is the string `a` in which some characters
that satisfy `P` have been overwritten with the placeholder `*`. -/
def Masked (P : Char → Prop) (a b : Str) : Prop :=
  List.Forall₂ (fun x y => y = x ∨ (y = '*' ∧ P x)) a b

end DateTime

namespace DateTime

/-- The text `y-m-d` in which the year is written in decimal and the month and
the day are written with two digits at least. -/
def dateText (y m d : Int) : Str :=
  Cpp.to_string y ++ '-' :: (zero_fill (Cpp.to_string m) 2 ++ '-' :: zero_fill (Cpp.to_string d) 2)

end DateTime

namespace DateTime

/-- The relation `KeepsDigits a b`: the strings have the same length, and wherever `a` holds
a decimal digit `b` holds the same digit. -/
def KeepsDigits (a b : Str) : Prop :=
  List.Forall₂ (fun x y => Cpp.isdigit x = true → y = x) a b

/-- The relation `AgreesUnmasked fs dt text`: the three strings have the same length, and
wherever `fs` does not hold the placeholder `*`, `dt` holds the character of
`text`. -/
inductive AgreesUnmasked : Str → Str → Str → Prop
  | nil : AgreesUnmasked [] [] []
  | cons {f d t : Char} {fs dt text : Str} :
    (f ≠ '*' → d = t) → AgreesUnmasked fs dt text →
    AgreesUnmasked (f :: fs) (d :: dt) (t :: text)

end DateTime

/-! ### Notions used to state the properties of the instant bridge -/

/-- Modelled from the spec: the C library functions `mktime` and `localtime`
are not part of the repository. In a zone whose local time was `before` seconds
ahead of UTC until the instant `change` and is `after` seconds ahead of UTC
from then on, `localtime` decomposes the instant shifted by the offset in force
at that instant, and `mktime` reads the fields as a local time of the first
period when that period holds it, and as a local time of the second period
otherwise. -/
def Env.shifted (before after change now : Int) : Env :=
  ⟨fun tm => if Cpp.timegm tm - before < change then Cpp.timegm tm - before
             else Cpp.timegm tm - after,
   fun t => Cpp.gmtime (t + (if t < change then before else after)), now⟩

namespace DateTime

/-- The length of a unit of `add` and `diff`, in microseconds. -/
def unitLength : DateTimeUnit → Int
  | .HOUR => 3600000000
  | .MIN => 60000000
  | .SEC => 1000000
  | .MSEC => 1000
  | .USEC => 1

/-- The strict lexicographic order of the tuples `(year, month, day, hour,
minute, second, millisecond, microsecond)`. -/
def lexLt (a b : DateTime) : Prop :=
  a.year_ < b.year_ ∨ (a.year_ = b.year_ ∧
  (a.mon_ < b.mon_ ∨ (a.mon_ = b.mon_ ∧
  (a.day_ < b.day_ ∨ (a.day_ = b.day_ ∧
  (a.hour_ < b.hour_ ∨ (a.hour_ = b.hour_ ∧
  (a.min_ < b.min_ ∨ (a.min_ = b.min_ ∧
  (a.sec_ < b.sec_ ∨ (a.sec_ = b.sec_ ∧
  (a.msec_ < b.msec_ ∨ (a.msec_ = b.msec_ ∧ a.usec_ < b.usec_)))))))))))))

instance (a b : DateTime) : Decidable (lexLt a b) := by
  unfold lexLt; infer_instance

end DateTime

namespace DateTime

/-- The local variable `usec` of the `time_point` constructor: the difference
of the two `int` variables `usec_epoch` and `sec_epoch`. -/
def subSecond (tp : Int) : Int :=
  toInt32 (toInt32 (Int.tdiv tp 1000) - toInt32 (1000000 * Int.tdiv tp 1000000000))

/-- The instant that the fields of a value stand for, as a count of
microseconds since the epoch: the sum that `to_time_point()` forms, taken over
the integers, without the limit of the 64-bit counts. -/
def instant (env : Env) (d : DateTime) : Int :=
  1000000 * (env.mktime ⟨d.year_ - 1900, d.mon_ - 1, d.day_, d.hour_, d.min_, d.sec_, -1⟩
    + env.mktime (env.localtime env.time) - env.mktime (Cpp.gmtime env.time))
  + 1000 * d.msec_ + d.usec_

/-- The instants, as counts of microseconds since the epoch, that the clock of
the build represents: the count of nanoseconds fits a signed 64-bit integer
(from 1677-09-21T00:12:43.145225Z to 2262-04-11T23:47:16.854775Z). -/
def InClockRange (us : Int) : Prop :=
  -9223372036854775808 ≤ 1000 * us ∧ 1000 * us ≤ 9223372036854775807

instance (us : Int) : Decidable (InClockRange us) := by
  unfold InClockRange; infer_instance

/-- The last value, in the order of the fields, whose instant the clock of the
build represents: 2262-04-11 23:47:16.854775. -/
def lastOfClock : DateTime := ⟨2262, 4, 11, 23, 47, 16, 854, 775⟩

end DateTime

/-! ## Arithmetic of truncation and narrowing -/

theorem tdiv_of_nonneg (x n : Int) (hx : 0 ≤ x) (hn : 0 < n) : Int.tdiv x n = x / n :=
  Int.tdiv_eq_ediv hx (le_of_lt hn)

theorem tdiv_of_neg (x n : Int) (hx : x < 0) (hn : 0 < n) : Int.tdiv x n = -((-x) / n) := by
  have h := Int.tdiv_eq_ediv (a := -x) (b := n) (by omega) (le_of_lt hn)
  rw [Int.neg_tdiv] at h
  omega


/-! ## `std::string::find` -/

namespace Cpp

theorem isPrefixOf_take {t s : Str} (h : t.isPrefixOf s = true) : s.take t.length = t := by
  rw [List.isPrefixOf_iff_prefix] at h
  exact (List.prefix_iff_eq_take.mp h).symm

theorem isPrefixOf_length {t s : Str} (h : t.isPrefixOf s = true) : t.length ≤ s.length := by
  rw [List.isPrefixOf_iff_prefix] at h
  exact h.length_le

theorem findAt_some {t s : Str} {i p : Nat} (h : findAt t s i = some p) :
    i ≤ p ∧ p - i ≤ s.length ∧ t.isPrefixOf (s.drop (p - i)) = true := by
  induction s generalizing i with
  | nil =>
    unfold findAt at h
    split at h
    · rename_i ht
      have : t = [] := by simpa using ht
      subst this
      simp at h
      subst h
      simp
    · simp at h
  | cons c s ih =>
    unfold findAt at h
    split at h
    · rename_i hp
      simp at h
      subst h
      simpa using hp
    · obtain ⟨h1, h2, h3⟩ := ih h
      have e : p - i = (p - (i + 1)) + 1 := by omega
      refine ⟨by omega, by simp; omega, ?_⟩
      rw [e, List.drop_succ_cons]
      exact h3

theorem findAt_none {t s : Str} {i : Nat} (h : findAt t s i = none) (k : Nat) (hk : k ≤ s.length) :
    t.isPrefixOf (s.drop k) = false := by
  induction s generalizing i k with
  | nil =>
    unfold findAt at h
    split at h
    · simp at h
    · rename_i ht
      simp at hk
      subst hk
      cases t with
      | nil => simp at ht
      | cons a t => simp [List.isPrefixOf]
  | cons c s ih =>
    unfold findAt at h
    split at h
    · simp at h
    · rename_i hp
      cases k with
      | zero => simpa using Bool.eq_false_iff.mpr hp
      | succ k =>
        rw [List.drop_succ_cons]
        exact ih h k (by simpa using hk)

theorem find_some {s t : Str} {pos p : Nat} (h : find s t pos = some p) :
    pos ≤ p ∧ p + t.length ≤ s.length ∧ t.isPrefixOf (s.drop p) = true := by
  unfold find at h
  split at h
  · simp at h
  · rename_i hpos
    obtain ⟨h1, h2, h3⟩ := findAt_some h
    rw [List.drop_drop] at h3
    have e : pos + (p - pos) = p := by omega
    rw [e] at h3
    have hl := isPrefixOf_length h3
    simp at h2 hl
    exact ⟨h1, by omega, h3⟩

theorem find_some_take {s t : Str} {pos p : Nat} (h : find s t pos = some p) :
    (s.drop p).take t.length = t :=
  isPrefixOf_take (find_some h).2.2

theorem find_none {s t : Str} {pos : Nat} (h : find s t pos = none) (k : Nat)
    (hk1 : pos ≤ k) (hk2 : k ≤ s.length) : t.isPrefixOf (s.drop k) = false := by
  unfold find at h
  split at h
  · omega
  · have := findAt_none h (k - pos) (by simp; omega)
    rw [List.drop_drop] at this
    have e : pos + (k - pos) = k := by omega
    rwa [e] at this

/-- The call `s.find(t, 0)` finds an occurrence exactly when `t` is a substring
of `s`. -/
theorem find_ne_none_iff (s t : Str) : find s t 0 ≠ none ↔ t <:+: s := by
  constructor
  · intro h
    cases hf : find s t 0 with
    | none => exact absurd hf h
    | some p =>
      have hp := (find_some hf).2.2
      rw [List.isPrefixOf_iff_prefix] at hp
      exact hp.isInfix.trans (List.drop_suffix p s).isInfix
  · rintro ⟨a, b, rfl⟩ hf
    have := find_none hf a.length (Nat.zero_le _) (by simp)
    rw [List.append_assoc, List.drop_left] at this
    have hp : t.isPrefixOf (t ++ b) = true := by
      rw [List.isPrefixOf_iff_prefix]
      exact List.prefix_append t b
    rw [hp] at this
    exact absurd this (by simp)

end Cpp

/-! ## The loop of `parse` -/

namespace DateTime

theorem stol_error {s : Str} {e : Exn} (h : Cpp.stol s = .error e) :
    e = .invalid_argument ∨ e = .out_of_range := by
  unfold Cpp.stol at h
  split at h
  · left; simpa using h.symm
  · split at h
    · right; simpa using h.symm
    · simp at h

/-- The turn of the loop of `parse` at an occurrence found at `p` inside the
text. -/
theorem parseBody_found {fmt : Str} {lo hi : Int} {s : ParseState} {p : Nat}
    (hfind : Cpp.find s.fmt_str fmt s.pos = some p) (hp : p ≤ s.dt_str.length) :
    parseBody fmt lo hi s =
      match Cpp.stol ((s.dt_str.drop p).take fmt.length) with
      | .error .invalid_argument =>
        .error (.runtime_error (convertMsg ((s.dt_str.drop p).take fmt.length) fmt))
      | .error e => .error e
      | .ok v =>
        if toInt32 v < lo ∨ toInt32 v > hi then
          .error (.runtime_error (rangeMsg (toInt32 v) fmt lo hi))
        else
          .ok (some ⟨s.dt_str.take p ++ List.replicate fmt.length '*' ++ s.dt_str.drop (p + fmt.length),
                     s.fmt_str.take p ++ List.replicate fmt.length '*' ++ s.fmt_str.drop (p + fmt.length),
                     p + fmt.length, toInt32 v⟩) := by
  have hb := Cpp.find_some hfind
  have hp1 : ¬ p > s.dt_str.length := by omega
  have hp2 : ¬ p > s.fmt_str.length := by omega
  unfold parseBody
  simp only [hfind, Cpp.substr, hp1, if_false, Cpp.replace, hp2]

/-- The turn of the loop of `parse` at an occurrence found past the end of the
text. -/
theorem parseBody_past {fmt : Str} {lo hi : Int} {s : ParseState} {p : Nat}
    (hfind : Cpp.find s.fmt_str fmt s.pos = some p) (hp : s.dt_str.length < p) :
    parseBody fmt lo hi s = .error .out_of_range := by
  unfold parseBody
  simp only [hfind, Cpp.substr, hp, gt_iff_lt, if_true]

theorem parseBody_not_found {fmt : Str} {lo hi : Int} {s : ParseState}
    (hfind : Cpp.find s.fmt_str fmt s.pos = none) :
    parseBody fmt lo hi s = .ok none := by
  unfold parseBody
  simp only [hfind]

/-- What a turn of the loop of `parse` that goes on has done. -/
theorem parseBody_some {fmt : Str} {lo hi : Int} {s s1 : ParseState}
    (h : parseBody fmt lo hi s = .ok (some s1)) :
    ∃ p v, Cpp.find s.fmt_str fmt s.pos = some p ∧ p ≤ s.dt_str.length
      ∧ Cpp.stol ((s.dt_str.drop p).take fmt.length) = .ok v
      ∧ lo ≤ toInt32 v ∧ toInt32 v ≤ hi
      ∧ s1 = ⟨s.dt_str.take p ++ List.replicate fmt.length '*' ++ s.dt_str.drop (p + fmt.length),
              s.fmt_str.take p ++ List.replicate fmt.length '*' ++ s.fmt_str.drop (p + fmt.length),
              p + fmt.length, toInt32 v⟩ := by
  cases hfind : Cpp.find s.fmt_str fmt s.pos with
  | none => rw [parseBody_not_found hfind] at h; simp at h
  | some p =>
    rcases Nat.lt_or_ge s.dt_str.length p with hp | hp
    · rw [parseBody_past hfind hp] at h; simp at h
    · rw [parseBody_found hfind hp] at h
      cases hst : Cpp.stol ((s.dt_str.drop p).take fmt.length) with
      | error e => rw [hst] at h; cases e <;> simp at h
      | ok v =>
        rw [hst] at h
        simp only at h
        split at h
        · simp at h
        · simp only [Except.ok.injEq, Option.some.injEq] at h
          exact ⟨p, v, rfl, hp, hst, by omega, by omega, h.symm⟩

/-- The exceptions a turn of the loop of `parse` can throw. -/
theorem parseBody_error {fmt : Str} {lo hi : Int} {s : ParseState} {e : Exn}
    (h : parseBody fmt lo hi s = .error e) :
    e = .out_of_range ∨ ∃ what, e = .runtime_error what := by
  cases hfind : Cpp.find s.fmt_str fmt s.pos with
  | none => rw [parseBody_not_found hfind] at h; simp at h
  | some p =>
    rcases Nat.lt_or_ge s.dt_str.length p with hp | hp
    · rw [parseBody_past hfind hp] at h; left; simpa using h.symm
    · rw [parseBody_found hfind hp] at h
      cases hst : Cpp.stol ((s.dt_str.drop p).take fmt.length) with
      | error e1 =>
        rw [hst] at h
        rcases stol_error hst with rfl | rfl
        · right; exact ⟨_, by simpa using h.symm⟩
        · left; simpa using h.symm
      | ok v =>
        rw [hst] at h
        simp only at h
        split at h
        · right; exact ⟨_, by simpa using h.symm⟩
        · simp at h

theorem parseLoop_succ (fmt : Str) (lo hi : Int) (fuel : Nat) (s : ParseState) :
    parseLoop fmt lo hi (fuel + 1) s =
      match parseBody fmt lo hi s with
      | .error e => .error e
      | .ok none => .ok s
      | .ok (some s1) => parseLoop fmt lo hi fuel s1 := rfl

/-- A turn of the loop that goes on moves `pos` forward and keeps the length of
the template. -/
theorem parseBody_some_measure {fmt : Str} {lo hi : Int} {s s1 : ParseState}
    (h : parseBody fmt lo hi s = .ok (some s1)) :
    s1.fmt_str.length = s.fmt_str.length ∧ s.pos < s1.pos ∧ s1.pos ≤ s.fmt_str.length := by
  obtain ⟨p, v, hfind, hp, hst, hlo, hhi, rfl⟩ := parseBody_some h
  have hb := Cpp.find_some hfind
  have hn : 0 < fmt.length := by
    rcases Nat.eq_zero_or_pos fmt.length with h0 | h0
    · rw [h0] at hst
      simp [Cpp.stol, Cpp.stolDigits] at hst
    · exact h0
  refine ⟨?_, by simp; omega, by simp; omega⟩
  simp
  omega

/-- The result of the loop does not depend on the budget, once the budget
exceeds the number of characters of the template after `pos`. -/
theorem parseLoop_fuel (fmt : Str) (lo hi : Int) (f1 f2 : Nat) (s : ParseState)
    (h1 : s.fmt_str.length - s.pos < f1) (h2 : s.fmt_str.length - s.pos < f2) :
    parseLoop fmt lo hi f1 s = parseLoop fmt lo hi f2 s := by
  induction f1 generalizing f2 s with
  | zero => omega
  | succ n ih =>
    cases f2 with
    | zero => omega
    | succ m =>
      rw [parseLoop_succ, parseLoop_succ]
      cases hb : parseBody fmt lo hi s with
      | error e => rfl
      | ok o =>
        cases o with
        | none => rfl
        | some s1 =>
          obtain ⟨hl, hp1, hp2⟩ := parseBody_some_measure hb
          exact ih m s1 (by omega) (by omega)

/-- With a sufficient budget the loop never reports an exhausted budget. -/
theorem parseLoop_ne_no_fuel (fmt : Str) (lo hi : Int) (fuel : Nat) (s : ParseState)
    (h1 : s.fmt_str.length - s.pos < fuel) :
    parseLoop fmt lo hi fuel s ≠ .error .no_fuel := by
  induction fuel generalizing s with
  | zero => omega
  | succ n ih =>
    rw [parseLoop_succ]
    cases hb : parseBody fmt lo hi s with
    | error e =>
      rcases parseBody_error hb with rfl | ⟨w, rfl⟩ <;> simp
    | ok o =>
      cases o with
      | none => simp
      | some s1 =>
        obtain ⟨hl, hp1, hp2⟩ := parseBody_some_measure hb
        exact ih s1 (by omega)

end DateTime

/-! ## `from_str` as a sequence of calls -/

namespace DateTime

theorem from_str_try_eq_calls (date_time_str format : Str) :
    from_str_try date_time_str format
      = (calls (.yyyy :: Token.yyyy.rest) (Locals.init date_time_str format)).map Locals.result := by
  unfold from_str_try
  simp only [calls, call, Token.rest, Token.upper, Token.val, Token.low, Token.fmt, Token.store,
    Locals.init, bind, Except.bind, pure, Except.pure]
  cases parse date_time_str format tok_yyyy 1970 1970 2300 with
  | error e => rfl
  | ok s1 =>
    simp only []
    cases parse s1.dt_str s1.fmt_str tok_mm 1 1 12 with
    | error e => rfl
    | ok s2 =>
      simp only []
      cases index (days_of_month s1.val) (s2.val - 1) with
      | error e => rfl
      | ok up =>
        simp only []
        cases parse s2.dt_str s2.fmt_str tok_dd 0 1 up with
        | error e => rfl
        | ok s3 =>
          simp only []
          cases parse s3.dt_str s3.fmt_str tok_hh 0 0 23 with
          | error e => rfl
          | ok s4 =>
            simp only []
            cases parse s4.dt_str s4.fmt_str tok_nn 0 0 59 with
            | error e => rfl
            | ok s5 =>
              simp only []
              cases parse s5.dt_str s5.fmt_str tok_ss 0 0 59 with
              | error e => rfl
              | ok s6 =>
                simp only []
                cases parse s6.dt_str s6.fmt_str tok_zzzzzz 0 0 999999 with
                | error e => rfl
                | ok s7 =>
                  simp only []
                  cases parse s7.dt_str s7.fmt_str tok_zzz (Int.tdiv s7.val 1000) 0 999 with
                  | error e => rfl
                  | ok s8 => rfl

end DateTime

namespace DateTime

theorem calls_cons_continue (tok : Token) (others : List Token) (L : Locals) (upper : Int)
    (hrest : tok.rest = others) (hup : tok.upper L = .ok upper) :
    (calls (tok :: others) L).map Locals.result
      = continueFrom tok L upper ⟨L.dt_str, L.fmt_str, 0, tok.val L⟩ := by
  subst hrest
  simp only [calls, call, hup, bind, Except.bind, pure, Except.pure, continueFrom, parse]
  cases parseLoop tok.fmt tok.low upper (L.fmt_str.length + 1) ⟨L.dt_str, L.fmt_str, 0, tok.val L⟩ with
  | error e => rfl
  | ok s1 => rfl

theorem rest_rest {tok tok1 : Token} {others : List Token} (h : tok.rest = tok1 :: others) :
    tok1.rest = others := by
  cases tok <;> simp [Token.rest] at h <;> obtain ⟨rfl, rfl⟩ := h <;> rfl

/-- From a loop head that the execution reaches, the `try` block yields what
the rest of the execution yields. -/
theorem atLoopHead_continue {date_time_str format : Str} {tok : Token} {L : Locals} {upper : Int}
    {s : ParseState} (h : AtLoopHead date_time_str format tok L upper s) :
    from_str_try date_time_str format = continueFrom tok L upper s := by
  induction h with
  | start =>
    rw [from_str_try_eq_calls]
    exact calls_cons_continue .yyyy _ _ 2300 rfl rfl
  | @turn tok L upper s s1 _ hbody ih =>
    rw [ih]
    obtain ⟨hl, hp1, hp2⟩ := parseBody_some_measure hbody
    unfold continueFrom
    rw [parseLoop_succ, hbody]
    simp only []
    rw [parseLoop_fuel tok.fmt tok.low upper s.fmt_str.length (s1.fmt_str.length + 1) s1
      (by omega) (by omega)]
  | @next tok tok1 L upper upper1 s others _ hbody hrest hup ih =>
    rw [ih]
    unfold continueFrom
    rw [parseLoop_succ, hbody]
    simp only []
    rw [hrest]
    exact calls_cons_continue tok1 others _ upper1 (rest_rest hrest) hup

theorem continueFrom_error {tok : Token} {L : Locals} {upper : Int} {s : ParseState} {e : Exn}
    (h : parseBody tok.fmt tok.low upper s = .error e) :
    continueFrom tok L upper s = .error e := by
  unfold continueFrom
  rw [parseLoop_succ, h]

theorem from_str_of_try_runtime {date_time_str format what : Str}
    (h : from_str_try date_time_str format = .error (.runtime_error what)) :
    from_str date_time_str format
      = .error (.runtime_error (wrapMsg date_time_str format what)) := by
  unfold from_str
  rw [h]

theorem index_error {table : List Int} {i : Int} {e : Exn} (h : index table i = .error e) :
    e = .bad_index := by
  unfold index at h
  split at h
  · simpa using h.symm
  · split at h
    · simp at h
    · simpa using h.symm

theorem Token.upper_ne_no_fuel (tok : Token) (L : Locals) : tok.upper L ≠ .error .no_fuel := by
  intro h
  cases tok <;> simp only [Token.upper] at h <;> first
    | exact absurd (index_error h) (by simp)
    | simp at h

theorem calls_ne_no_fuel (toks : List Token) (L : Locals) : calls toks L ≠ .error .no_fuel := by
  induction toks generalizing L with
  | nil => simp [calls]
  | cons tok rest ih =>
    unfold calls
    cases hc : call tok L with
    | ok L1 => exact ih L1
    | error e =>
      simp only [ne_eq, Except.error.injEq]
      rintro rfl
      unfold call at hc
      simp only [bind, Except.bind, pure, Except.pure] at hc
      cases hu : tok.upper L with
      | error e1 =>
        rw [hu] at hc
        simp only [Except.error.injEq] at hc
        subst hc
        exact tok.upper_ne_no_fuel L hu
      | ok upper =>
        rw [hu] at hc
        simp only [] at hc
        cases hp : parse L.dt_str L.fmt_str tok.fmt (tok.val L) tok.low upper with
        | error e2 =>
          rw [hp] at hc
          simp only [Except.error.injEq] at hc
          subst hc
          exact parseLoop_ne_no_fuel _ _ _ _ _ (by simp) hp
        | ok s => rw [hp] at hc; simp at hc

/-- The budget of the loops of `from_str` is never exhausted: `from_str` ends
with an instance or with a C++ exception (or with the read outside the table
of days, which `index` reports). -/
theorem from_str_ne_no_fuel (date_time_str format : Str) :
    from_str date_time_str format ≠ .error .no_fuel := by
  have h := calls_ne_no_fuel (.yyyy :: Token.yyyy.rest) (Locals.init date_time_str format)
  unfold from_str
  rw [from_str_try_eq_calls]
  cases hc : calls (.yyyy :: Token.yyyy.rest) (Locals.init date_time_str format) with
  | ok L => simp [Except.map]
  | error e =>
    rw [hc] at h
    cases e <;> simp [Except.map] at h ⊢

end DateTime

/-! ## Numbers read by `std::stol` -/

namespace Cpp

theorem digitVal_le_of_isdigit {c : Char} (h : isdigit c = true) : digitVal c ≤ 9 := by
  unfold isdigit at h
  unfold digitVal
  simp at h
  omega

theorem foldl_digits_lt (ds : Str) (hd : ∀ c ∈ ds, isdigit c = true) (a : Nat) :
    ds.foldl (fun a c => 10 * a + digitVal c) a + 1 ≤ (a + 1) * 10 ^ ds.length := by
  induction ds generalizing a with
  | nil => simp
  | cons c ds ih =>
    have hc := digitVal_le_of_isdigit (hd c (by simp))
    have := ih (fun x hx => hd x (by simp [hx])) (10 * a + digitVal c)
    simp only [List.foldl_cons, List.length_cons]
    calc _ ≤ (10 * a + digitVal c + 1) * 10 ^ ds.length := this
      _ ≤ ((a + 1) * 10) * 10 ^ ds.length := Nat.mul_le_mul_right _ (by omega)
      _ = (a + 1) * 10 ^ (ds.length + 1) := by rw [pow_succ]; ring

theorem digitsVal_lt (ds : Str) (hd : ∀ c ∈ ds, isdigit c = true) :
    digitsVal ds < 10 ^ ds.length := by
  have := foldl_digits_lt ds hd 0
  unfold digitsVal
  omega

theorem stolDigits_isdigit (s : Str) : ∀ c ∈ stolDigits s, isdigit c = true := by
  intro c hc
  unfold stolDigits at hc
  exact (List.mem_takeWhile_imp hc)

theorem stolDigits_length (s : Str) : (stolDigits s).length ≤ s.length := by
  unfold stolDigits
  simp only []
  have h1 : (s.dropWhile isspace).length ≤ s.length := (List.dropWhile_sublist _).length_le
  have h2 : ∀ l : Str, (l.takeWhile isdigit).length ≤ l.length :=
    fun l => (List.takeWhile_sublist _).length_le
  split
  · have h3 : (s.dropWhile isspace).tail.length ≤ (s.dropWhile isspace).length := by simp
    exact le_trans (h2 _) (le_trans h3 h1)
  · exact le_trans (h2 _) h1

/-- The size of a number read from at most six characters. -/
theorem stol_bound {s : Str} {v : Int} (h : stol s = .ok v) (hs : s.length ≤ 6) :
    -1000000 < v ∧ v < 1000000 := by
  have h1 := digitsVal_lt (stolDigits s) (stolDigits_isdigit s)
  have h2 := stolDigits_length s
  have h3 : 10 ^ (stolDigits s).length ≤ 10 ^ 6 :=
    Nat.pow_le_pow_right (by norm_num) (le_trans h2 hs)
  unfold stol at h
  split at h
  · simp at h
  · split at h
    · simp at h
    · simp only [Except.ok.injEq] at h
      subst h
      unfold stolValue
      split <;> omega

theorem toInt32_of_stol {s : Str} {v : Int} (h : stol s = .ok v) (hs : s.length ≤ 6) :
    toInt32 v = v := by
  have := stol_bound h hs
  unfold toInt32
  omega

end Cpp

namespace DateTime

theorem Token.fmt_length_le (tok : Token) : tok.fmt.length ≤ 6 := by
  cases tok <;> decide

theorem atLoopHead_upper {date_time_str format : Str} {tok : Token} {L : Locals} {upper : Int}
    {s : ParseState} (h : AtLoopHead date_time_str format tok L upper s) :
    tok.upper L = .ok upper := by
  induction h with
  | start => rfl
  | turn _ _ ih => exact ih
  | next _ _ _ hup _ => exact hup

/-- A successful read of `days_of_month[mon - 1]` yields the number of days of
the month, and `mon` is then a month. -/
theorem index_days_of_month {year mon upper : Int}
    (h : index (days_of_month year) (mon - 1) = .ok upper) :
    1 ≤ mon ∧ mon ≤ 12 ∧ upper = daysInMonth year mon := by
  unfold index at h
  split at h
  · simp at h
  · rename_i h0
    have h1 : (mon - 1).toNat < 12 := by
      by_contra hge
      have : (days_of_month year).get? (mon - 1).toNat = none := by
        rw [List.get?_eq_none]
        simp [days_of_month]
        omega
      rw [this] at h
      simp at h
    obtain ⟨k, hk⟩ : ∃ k : Nat, mon = k + 1 := ⟨(mon - 1).toNat, by omega⟩
    subst hk
    have hk12 : k < 12 := by
      have : ((k : Int) + 1 - 1).toNat = k := by simp
      rw [this] at h1
      exact h1
    refine ⟨by omega, by omega, ?_⟩
    have e : ((k : Int) + 1 - 1).toNat = k := by simp
    rw [e] at h
    unfold days_of_month at h
    unfold daysInMonth
    interval_cases k <;> simp at h <;> subst h <;> simp

/-- What the substring read at an occurrence is. -/
theorem substr_ok {s sub : Str} {p n : Nat} (h : Cpp.substr s p n = .ok sub) :
    p ≤ s.length ∧ sub = (s.drop p).take n := by
  unfold Cpp.substr at h
  split at h
  · simp at h
  · simp only [Except.ok.injEq] at h
    exact ⟨by omega, h.symm⟩

/-- C3 (as stated) fails on the code: in the template `mmm` the token `mm`
occurs at offset 0 and at offset 1, and the integer at offset 1 of the text
`019` is 19, outside 1..12; `from_str` returns an instance, with month 1. The
occurrence at offset 0 is read and overwritten, and the scan goes on behind it,
so the occurrence at offset 1 is never read. -/
theorem C3_out_of_range_counterexample :
    tok_mm.isPrefixOf ("mmm".toList.drop 1) = true
    ∧ Cpp.substr "019".toList 1 2 = .ok "19".toList
    ∧ Cpp.stol "19".toList = .ok 19
    ∧ (19 : Int) > 12
    ∧ from_str "019".toList "mmm".toList = .ok ⟨1970, 1, 0, 0, 0, 0, 0, 0⟩ := by
  decide

/-- C3 (amended): if the execution of `from_str(date_time_str, format)` reaches a
turn of the loop of `parse` for a token `tok` in which `find` yields an
occurrence at `pos` (the occurrences before it were read, accepted and
overwritten), and the integer `v` read from the text at the offsets of that
occurrence lies outside the inclusive range of the token (`yyyy` 1970..2300,
`mm` 1..12, `dd` 1..days-in-month of the year and month read before, `hh`
0..23, `nn` and `ss` 0..59, `zzzzzz` 0..999999, `zzz` 0..999), then `from_str`
returns no instance: it throws the runtime error whose message is
`from_str failed. <text> couldn't parse to <template>.` followed by
`<v> is out of range for <token> (<low> - <upper>)`. The month text `13`
against the token `mm` fails with the bounds 1 and 12 in the message. -/
theorem C3_out_of_range_rejected (date_time_str format : Str) (tok : Token) (L : Locals)
    (upper : Int) (s : ParseState) (pos : Nat) (sub : Str) (v : Int)
    (hat : AtLoopHead date_time_str format tok L upper s)
    (hfind : Cpp.find s.fmt_str tok.fmt s.pos = some pos)
    (hsub : Cpp.substr s.dt_str pos tok.fmt.length = .ok sub)
    (hval : Cpp.stol sub = .ok v)
    (hout : v < tok.low ∨ v > upper) :
    ((tok = .yyyy → tok.fmt = "yyyy".toList ∧ tok.low = 1970 ∧ upper = 2300)
      ∧ (tok = .mm → tok.fmt = "mm".toList ∧ tok.low = 1 ∧ upper = 12)
      ∧ (tok = .dd → tok.fmt = "dd".toList ∧ tok.low = 1
          ∧ upper = daysInMonth L.year L.mon)
      ∧ (tok = .hh → tok.fmt = "hh".toList ∧ tok.low = 0 ∧ upper = 23)
      ∧ (tok = .nn → tok.fmt = "nn".toList ∧ tok.low = 0 ∧ upper = 59)
      ∧ (tok = .ss → tok.fmt = "ss".toList ∧ tok.low = 0 ∧ upper = 59)
      ∧ (tok = .zzzzzz → tok.fmt = "zzzzzz".toList ∧ tok.low = 0 ∧ upper = 999999)
      ∧ (tok = .zzz → tok.fmt = "zzz".toList ∧ tok.low = 0 ∧ upper = 999))
    ∧ from_str date_time_str format
        = .error (.runtime_error
            ("from_str failed. ".toList ++ date_time_str ++ " couldn't parse to ".toList
              ++ format ++ ".".toList
              ++ Cpp.to_string v ++ " is out of range for ".toList ++ tok.fmt ++ " (".toList
              ++ Cpp.to_string tok.low ++ " - ".toList ++ Cpp.to_string upper ++ ")".toList))
    ∧ from_str "13".toList "mm".toList
        = .error (.runtime_error
            "from_str failed. 13 couldn't parse to mm.13 is out of range for mm (1 - 12)".toList) := by
  have hup := atLoopHead_upper hat
  refine ⟨?_, ?_, by decide⟩
  · refine ⟨?_, ?_, ?_, ?_, ?_, ?_, ?_, ?_⟩ <;> intro htok <;> subst htok
    · simp only [Token.upper, Except.ok.injEq] at hup
      exact ⟨rfl, rfl, hup.symm⟩
    · simp only [Token.upper, Except.ok.injEq] at hup
      exact ⟨rfl, rfl, hup.symm⟩
    · exact ⟨rfl, rfl, (index_days_of_month hup).2.2⟩
    · simp only [Token.upper, Except.ok.injEq] at hup
      exact ⟨rfl, rfl, hup.symm⟩
    · simp only [Token.upper, Except.ok.injEq] at hup
      exact ⟨rfl, rfl, hup.symm⟩
    · simp only [Token.upper, Except.ok.injEq] at hup
      exact ⟨rfl, rfl, hup.symm⟩
    · simp only [Token.upper, Except.ok.injEq] at hup
      exact ⟨rfl, rfl, hup.symm⟩
    · simp only [Token.upper, Except.ok.injEq] at hup
      exact ⟨rfl, rfl, hup.symm⟩
  · obtain ⟨hp, rfl⟩ := substr_ok hsub
    have hlen : ((s.dt_str.drop pos).take tok.fmt.length).length ≤ 6 := by
      rw [List.length_take]
      exact le_trans (Nat.min_le_left _ _) tok.fmt_length_le
    have h32 := Cpp.toInt32_of_stol hval hlen
    have hmsg : "from_str failed. ".toList ++ date_time_str ++ " couldn't parse to ".toList
          ++ format ++ ".".toList
          ++ Cpp.to_string v ++ " is out of range for ".toList ++ tok.fmt ++ " (".toList
          ++ Cpp.to_string tok.low ++ " - ".toList ++ Cpp.to_string upper ++ ")".toList
        = wrapMsg date_time_str format (rangeMsg v tok.fmt tok.low upper) := by
      simp only [wrapMsg, rangeMsg, List.append_assoc]
      rfl
    rw [hmsg]
    apply from_str_of_try_runtime
    rw [atLoopHead_continue hat]
    apply continueFrom_error
    rw [parseBody_found hfind hp, hval]
    simp only [h32]
    rw [if_pos hout]

/-- A witness of `C3_out_of_range_rejected`: the day text `31` against the token
`dd` in April of 2023 fails, and the message cites the bounds 1 and 30. -/
theorem C3_out_of_range_rejected_witness :
    from_str "2023-04-31".toList "yyyy-mm-dd".toList
      = .error (.runtime_error
          ("from_str failed. 2023-04-31 couldn't parse to yyyy-mm-dd."
            ++ "31 is out of range for dd (1 - 30)").toList) :=
  (C3_out_of_range_rejected "2023-04-31".toList "yyyy-mm-dd".toList .dd
    ⟨"****-**-31".toList, "****-**-dd".toList, 2023, 4, 0, 0, 0, 0, 0, 0⟩
    30 ⟨"****-**-31".toList, "****-**-dd".toList, 0, 0⟩ 8 "31".toList 31
    (AtLoopHead.next
      (AtLoopHead.turn
        (AtLoopHead.next
          (AtLoopHead.turn AtLoopHead.start
            (show parseBody Token.yyyy.fmt Token.yyyy.low 2300
                ⟨"2023-04-31".toList, "yyyy-mm-dd".toList, 0, 1970⟩
              = .ok (some ⟨"****-04-31".toList, "****-mm-dd".toList, 4, 2023⟩) by decide))
          (by decide) rfl rfl)
        (show parseBody Token.mm.fmt Token.mm.low 12
            ⟨"****-04-31".toList, "****-mm-dd".toList, 0, 1⟩
          = .ok (some ⟨"****-**-31".toList, "****-**-dd".toList, 7, 4⟩) by decide))
      (by decide) rfl (by decide))
    (by decide) (by decide) (by decide) (by decide)).2.1.trans (by decide)

/-- C4 (as stated) fails on the code: the substring `1x` at the offsets of `hh`
is not made of decimal digits only, and `from_str` returns an instance, with
hour 1. -/
theorem C4_unparseable_counterexample :
    Cpp.find "hh".toList tok_hh 0 = some 0
    ∧ Cpp.substr "1x".toList 0 2 = .ok "1x".toList
    ∧ "1x".toList.all Cpp.isdigit = false
    ∧ from_str "1x".toList "hh".toList = .ok ⟨1970, 1, 0, 1, 0, 0, 0, 0⟩ := by
  decide

/-- C4 (amended): if the execution of `from_str(date_time_str, format)` reaches a
turn of the loop of `parse` for a token `tok` in which `find` yields an
occurrence at `pos`, and the substring of the text at the offsets of that
occurrence has no decimal digit after its leading white space and an optional
sign, then `from_str` returns no instance: it throws the runtime error whose
message is the wrapping text of `from_str` followed by the conversion message
with the substring and the token. -/
theorem C4_unparseable_rejected (date_time_str format : Str) (tok : Token) (L : Locals)
    (upper : Int) (s : ParseState) (pos : Nat) (sub : Str)
    (hat : AtLoopHead date_time_str format tok L upper s)
    (hfind : Cpp.find s.fmt_str tok.fmt s.pos = some pos)
    (hsub : Cpp.substr s.dt_str pos tok.fmt.length = .ok sub)
    (hnodigit : Cpp.stolDigits sub = []) :
    from_str date_time_str format
      = .error (.runtime_error (wrapMsg date_time_str format (convertMsg sub tok.fmt))) := by
  obtain ⟨hp, rfl⟩ := substr_ok hsub
  have hval : Cpp.stol ((s.dt_str.drop pos).take tok.fmt.length) = .error .invalid_argument := by
    unfold Cpp.stol
    rw [hnodigit]
    rfl
  apply from_str_of_try_runtime
  rw [atLoopHead_continue hat]
  apply continueFrom_error
  rw [parseBody_found hfind hp, hval]

/-- A witness of `C4_unparseable_rejected`: the text `x5` against `hh`. -/
theorem C4_unparseable_rejected_witness :
    from_str "x5".toList "hh".toList
      = .error (.runtime_error
          "from_str failed. x5 couldn't parse to hh. convert from x5 to hh failed".toList) :=
  (C4_unparseable_rejected "x5".toList "hh".toList .hh
    (Token.dd.store (Token.mm.store (Token.yyyy.store (Locals.init "x5".toList "hh".toList)
      ⟨"x5".toList, "hh".toList, 0, 1970⟩) ⟨"x5".toList, "hh".toList, 0, 1⟩)
      ⟨"x5".toList, "hh".toList, 0, 0⟩)
    23 ⟨"x5".toList, "hh".toList, 0, 0⟩ 0 "x5".toList
    (AtLoopHead.next (AtLoopHead.next (AtLoopHead.next AtLoopHead.start
      (by decide) rfl rfl) (by decide) rfl rfl) (by decide) rfl rfl)
    (by decide) (by decide) (by decide)).trans (by decide)

end DateTime

/-! ## Overwritten spans and `find` -/

namespace DateTime

theorem Masked.same (P : Char → Prop) (a : Str) : Masked P a a := by
  unfold Masked
  rw [List.forall₂_same]
  intro x _
  exact Or.inl rfl

theorem Masked.len_eq {P : Char → Prop} {a b : Str} (h : Masked P a b) :
    a.length = b.length :=
  List.Forall₂.length_eq h

theorem isPrefixOf_masked {P : Char → Prop} (tok : Str)
    (htok : ∀ c ∈ tok, ¬ P c ∧ c ≠ '*') {a b : Str} (h : Masked P a b) :
    tok.isPrefixOf a = tok.isPrefixOf b := by
  induction tok generalizing a b with
  | nil => simp
  | cons c t ih =>
    cases h with
    | nil => simp [List.isPrefixOf]
    | @cons x y a1 b1 hxy hrest =>
      rw [List.isPrefixOf_cons₂, List.isPrefixOf_cons₂]
      rw [ih (fun d hd => htok d (by simp [hd])) hrest]
      have hc := htok c (by simp)
      rcases hxy with rfl | ⟨rfl, hP⟩
      · rfl
      · have h1 : (c == x) = false := by
          simp only [beq_eq_false_iff_ne, ne_eq]
          intro hcx
          exact hc.1 (hcx ▸ hP)
        have h2 : (c == '*') = false := by
          simp only [beq_eq_false_iff_ne, ne_eq]
          exact hc.2
        rw [h1, h2]

theorem findAt_masked {P : Char → Prop} (tok : Str)
    (htok : ∀ c ∈ tok, ¬ P c ∧ c ≠ '*') {a b : Str} (h : Masked P a b) (i : Nat) :
    Cpp.findAt tok a i = Cpp.findAt tok b i := by
  induction h generalizing i with
  | nil => rfl
  | @cons x y a1 b1 hxy hrest ih =>
    have hp := isPrefixOf_masked tok htok (List.Forall₂.cons hxy hrest)
    unfold Cpp.findAt
    rw [hp, ih]

theorem find_masked {P : Char → Prop} (tok : Str)
    (htok : ∀ c ∈ tok, ¬ P c ∧ c ≠ '*') {a b : Str} (h : Masked P a b) (pos : Nat) :
    Cpp.find a tok pos = Cpp.find b tok pos := by
  unfold Cpp.find
  rw [h.len_eq]
  split
  · rfl
  · exact findAt_masked tok htok (List.forall₂_drop pos h) pos

theorem Masked.replicate {P : Char → Prop} {xs ys : Str} (h : Masked P xs ys)
    (hspan : ∀ c ∈ ys, P c) : Masked P xs (List.replicate ys.length '*') := by
  induction h with
  | nil => exact List.Forall₂.nil
  | @cons x y xs1 ys1 hxy _ ih =>
    simp only [List.length_cons, List.replicate_succ]
    refine List.Forall₂.cons (Or.inr ⟨rfl, ?_⟩) (ih (fun c hc => hspan c (by simp [hc])))
    rcases hxy with rfl | ⟨_, hP⟩
    · exact hspan y (by simp)
    · exact hP

theorem take_drop_split (a : Str) (p n : Nat) :
    a = a.take p ++ (a.drop p).take n ++ a.drop (p + n) := by
  rw [List.append_assoc, ← List.drop_drop, List.take_append_drop, List.take_append_drop]

/-- Overwriting in `b` a span that holds characters satisfying `P` keeps `b` a
masked copy of `a`. -/
theorem Masked.overwrite_span {P : Char → Prop} {a b : Str} (h : Masked P a b) (p n : Nat)
    (hspan : ∀ c ∈ (b.drop p).take n, P c) (hlen : p + n ≤ b.length) :
    Masked P a (b.take p ++ List.replicate n '*' ++ b.drop (p + n)) := by
  have hmid : Masked P ((a.drop p).take n) ((b.drop p).take n) :=
    List.forall₂_take n (List.forall₂_drop p h)
  have hl : ((b.drop p).take n).length = n := by
    rw [List.length_take, List.length_drop]; omega
  have hrep := hmid.replicate hspan
  rw [hl] at hrep
  have hd : Masked P (a.drop (p + n)) (b.drop (p + n)) := List.forall₂_drop (p + n) h
  have ht : Masked P (a.take p) (b.take p) := List.forall₂_take p h
  unfold Masked
  rw [take_drop_split a p n]
  exact List.rel_append (List.rel_append ht hrep) hd

theorem parseBody_masked {P : Char → Prop} {a : Str} {fmt : Str} {lo hi : Int}
    {s s1 : ParseState} (hfmt : ∀ c ∈ fmt, P c) (hm : Masked P a s.fmt_str)
    (h : parseBody fmt lo hi s = .ok (some s1)) : Masked P a s1.fmt_str := by
  obtain ⟨p, v, hfind, hp, hst, hlo, hhi, rfl⟩ := parseBody_some h
  have hb := Cpp.find_some hfind
  apply hm.overwrite_span p fmt.length _ hb.2.1
  rw [Cpp.find_some_take hfind]
  exact hfmt

theorem parseLoop_masked {P : Char → Prop} {a : Str} {fmt : Str} {lo hi : Int}
    (hfmt : ∀ c ∈ fmt, P c) (fuel : Nat) {s s1 : ParseState} (hm : Masked P a s.fmt_str)
    (h : parseLoop fmt lo hi fuel s = .ok s1) : Masked P a s1.fmt_str := by
  induction fuel generalizing s with
  | zero => simp [parseLoop] at h
  | succ n ih =>
    rw [parseLoop_succ] at h
    cases hb : parseBody fmt lo hi s with
    | error e => rw [hb] at h; simp at h
    | ok o =>
      rw [hb] at h
      cases o with
      | none =>
        simp only [Except.ok.injEq] at h
        subst h
        exact hm
      | some s2 => exact ih (parseBody_masked hfmt hm hb) h

theorem parse_masked {P : Char → Prop} {a : Str} {fmt : Str} {lo hi val : Int} {dt fs : Str}
    {s1 : ParseState} (hfmt : ∀ c ∈ fmt, P c) (hm : Masked P a fs)
    (h : parse dt fs fmt val lo hi = .ok s1) : Masked P a s1.fmt_str :=
  parseLoop_masked hfmt _ (s := ⟨dt, fs, 0, val⟩) hm h

/-- A call of `parse` for a token that the template does not hold changes
nothing. -/
theorem parse_not_found {fmt : Str} {lo hi val : Int} {dt fs : Str}
    (hfind : Cpp.find fs fmt 0 = none) :
    parse dt fs fmt val lo hi = .ok ⟨dt, fs, 0, val⟩ := by
  unfold parse
  rw [parseLoop_succ, parseBody_not_found hfind]

/-- The calls of `parse` of a successful `try` block. -/
theorem from_str_try_ok {date_time_str format : Str} {r : DateTime}
    (h : from_str_try date_time_str format = .ok r) :
    ∃ s1 s2 s3 s4 s5 s6 s7 s8 upper,
      parse date_time_str format tok_yyyy 1970 1970 2300 = .ok s1
      ∧ parse s1.dt_str s1.fmt_str tok_mm 1 1 12 = .ok s2
      ∧ index (days_of_month s1.val) (s2.val - 1) = .ok upper
      ∧ parse s2.dt_str s2.fmt_str tok_dd 0 1 upper = .ok s3
      ∧ parse s3.dt_str s3.fmt_str tok_hh 0 0 23 = .ok s4
      ∧ parse s4.dt_str s4.fmt_str tok_nn 0 0 59 = .ok s5
      ∧ parse s5.dt_str s5.fmt_str tok_ss 0 0 59 = .ok s6
      ∧ parse s6.dt_str s6.fmt_str tok_zzzzzz 0 0 999999 = .ok s7
      ∧ parse s7.dt_str s7.fmt_str tok_zzz (Int.tdiv s7.val 1000) 0 999 = .ok s8
      ∧ r = ⟨s1.val, s2.val, s3.val, s4.val, s5.val, s6.val, s8.val, Int.tmod s7.val 1000⟩ := by
  unfold from_str_try at h
  simp only [bind, Except.bind, pure, Except.pure] at h
  cases h1 : parse date_time_str format tok_yyyy 1970 1970 2300 with
  | error e => rw [h1] at h; simp at h
  | ok s1 =>
    rw [h1] at h; simp only [] at h
    cases h2 : parse s1.dt_str s1.fmt_str tok_mm 1 1 12 with
    | error e => rw [h2] at h; simp at h
    | ok s2 =>
      rw [h2] at h; simp only [] at h
      cases hu : index (days_of_month s1.val) (s2.val - 1) with
      | error e => rw [hu] at h; simp at h
      | ok upper =>
        rw [hu] at h; simp only [] at h
        cases h3 : parse s2.dt_str s2.fmt_str tok_dd 0 1 upper with
        | error e => rw [h3] at h; simp at h
        | ok s3 =>
          rw [h3] at h; simp only [] at h
          cases h4 : parse s3.dt_str s3.fmt_str tok_hh 0 0 23 with
          | error e => rw [h4] at h; simp at h
          | ok s4 =>
            rw [h4] at h; simp only [] at h
            cases h5 : parse s4.dt_str s4.fmt_str tok_nn 0 0 59 with
            | error e => rw [h5] at h; simp at h
            | ok s5 =>
              rw [h5] at h; simp only [] at h
              cases h6 : parse s5.dt_str s5.fmt_str tok_ss 0 0 59 with
              | error e => rw [h6] at h; simp at h
              | ok s6 =>
                rw [h6] at h; simp only [] at h
                cases h7 : parse s6.dt_str s6.fmt_str tok_zzzzzz 0 0 999999 with
                | error e => rw [h7] at h; simp at h
                | ok s7 =>
                  rw [h7] at h; simp only [] at h
                  cases h8 : parse s7.dt_str s7.fmt_str tok_zzz (Int.tdiv s7.val 1000) 0 999 with
                  | error e => rw [h8] at h; simp at h
                  | ok s8 =>
                    rw [h8] at h
                    simp only [Except.ok.injEq] at h
                    exact ⟨s1, s2, s3, s4, s5, s6, s7, s8, upper, rfl, h2, hu, h3, h4, h5, h6,
                      h7, h8, h.symm⟩

theorem from_str_ok {date_time_str format : Str} {r : DateTime}
    (h : from_str date_time_str format = .ok r) : from_str_try date_time_str format = .ok r := by
  unfold from_str at h
  split at h
  · simp at h
  · exact h

/-- The value that the loop of `parse` leaves in `val` is the one it had or an
integer within the bounds. -/
theorem parseLoop_val (fmt : Str) (lo hi : Int) (fuel : Nat) (s s1 : ParseState)
    (h : parseLoop fmt lo hi fuel s = .ok s1) :
    s1.val = s.val ∨ (lo ≤ s1.val ∧ s1.val ≤ hi) := by
  induction fuel generalizing s with
  | zero => simp [parseLoop] at h
  | succ n ih =>
    rw [parseLoop_succ] at h
    cases hb : parseBody fmt lo hi s with
    | error e => rw [hb] at h; simp at h
    | ok o =>
      rw [hb] at h
      cases o with
      | none =>
        simp only [Except.ok.injEq] at h
        subst h
        exact Or.inl rfl
      | some s2 =>
        obtain ⟨p, v, -, -, -, hlo, hhi, rfl⟩ := parseBody_some hb
        rcases ih _ h with h1 | h1
        · right
          rw [h1]
          exact ⟨hlo, hhi⟩
        · exact Or.inr h1

theorem parse_val {fmt dt fs : Str} {val lo hi : Int} {s1 : ParseState}
    (h : parse dt fs fmt val lo hi = .ok s1) : s1.val = val ∨ (lo ≤ s1.val ∧ s1.val ≤ hi) :=
  parseLoop_val fmt lo hi _ ⟨dt, fs, 0, val⟩ s1 h

end DateTime

/-! ## Tokens that the template does not hold -/

namespace DateTime

theorem parse_absent {x : Char} {format dt fs fmt : Str} {val lo hi : Int} {s : ParseState}
    (hm : Masked (fun c => c ≠ x) format fs) (hfmt : ∀ c ∈ fmt, c = x) (hx : x ≠ '*')
    (habs : Cpp.find format fmt 0 = none) (h : parse dt fs fmt val lo hi = .ok s) :
    s = ⟨dt, fs, 0, val⟩ := by
  have hf : Cpp.find fs fmt 0 = none := by
    rw [← find_masked fmt (fun c hc => ⟨by simpa using hfmt c hc, by rw [hfmt c hc]; exact hx⟩) hm]
    exact habs
  rw [parse_not_found hf] at h
  simpa using h.symm

theorem tok_yyyy_chars : ∀ c ∈ tok_yyyy, c = 'y' := by simp [tok_yyyy]
theorem tok_mm_chars : ∀ c ∈ tok_mm, c = 'm' := by simp [tok_mm]
theorem tok_dd_chars : ∀ c ∈ tok_dd, c = 'd' := by simp [tok_dd]
theorem tok_hh_chars : ∀ c ∈ tok_hh, c = 'h' := by simp [tok_hh]
theorem tok_nn_chars : ∀ c ∈ tok_nn, c = 'n' := by simp [tok_nn]
theorem tok_ss_chars : ∀ c ∈ tok_ss, c = 's' := by simp [tok_ss]
theorem tok_zzzzzz_chars : ∀ c ∈ tok_zzzzzz, c = 'z' := by simp [tok_zzzzzz]
theorem tok_zzz_chars : ∀ c ∈ tok_zzz, c = 'z' := by simp [tok_zzz]

theorem chars_ne {fmt : Str} {x y : Char} (h : ∀ c ∈ fmt, c = x) (hxy : x ≠ y) :
    ∀ c ∈ fmt, c ≠ y := fun c hc => by rw [h c hc]; exact hxy

/-- C6 (as stated) fails on the code: `from_str("", "")` returns an instance
whose month is 1, not 0, although `mm` does not occur in the template. -/
theorem C6_defaults_counterexample :
    ∃ r, from_str [] [] = .ok r ∧ Cpp.find [] tok_mm 0 = none ∧ r.mon_ ≠ 0 :=
  ⟨⟨1970, 1, 0, 0, 0, 0, 0, 0⟩, by decide, by decide, by decide⟩

/-- C6 (amended): when `from_str` returns an instance, each of the following
fields whose token does not occur in the template has its default value: the
year is 1970 without `yyyy`, the month is 1 without `mm`, the hour, the minute
and the second are 0 without `hh`, `nn` and `ss`, and the millisecond and the
microsecond are 0 when neither `zzzzzz` nor `zzz` occurs. -/
theorem C6_defaults (date_time_str format : Str) (r : DateTime)
    (h : from_str date_time_str format = .ok r) :
    (Cpp.find format tok_yyyy 0 = none → r.year_ = 1970)
    ∧ (Cpp.find format tok_mm 0 = none → r.mon_ = 1)
    ∧ (Cpp.find format tok_hh 0 = none → r.hour_ = 0)
    ∧ (Cpp.find format tok_nn 0 = none → r.min_ = 0)
    ∧ (Cpp.find format tok_ss 0 = none → r.sec_ = 0)
    ∧ (Cpp.find format tok_zzzzzz 0 = none → Cpp.find format tok_zzz 0 = none →
        r.msec_ = 0 ∧ r.usec_ = 0) := by
  obtain ⟨s1, s2, s3, s4, s5, s6, s7, s8, upper, h1, h2, hu, h3, h4, h5, h6, h7, h8, rfl⟩ :=
    from_str_try_ok (from_str_ok h)
  have m0 : ∀ x : Char, Masked (fun c => c ≠ x) format format := fun x => Masked.same _ _
  have m1 : ∀ x : Char, 'y' ≠ x → Masked (fun c => c ≠ x) format s1.fmt_str :=
    fun x hx => parse_masked (chars_ne tok_yyyy_chars hx) (m0 x) h1
  have m2 : ∀ x : Char, 'y' ≠ x → 'm' ≠ x → Masked (fun c => c ≠ x) format s2.fmt_str :=
    fun x hy hx => parse_masked (chars_ne tok_mm_chars hx) (m1 x hy) h2
  have m3 : ∀ x : Char, 'y' ≠ x → 'm' ≠ x → 'd' ≠ x →
      Masked (fun c => c ≠ x) format s3.fmt_str :=
    fun x hy hm hx => parse_masked (chars_ne tok_dd_chars hx) (m2 x hy hm) h3
  have m4 : ∀ x : Char, 'y' ≠ x → 'm' ≠ x → 'd' ≠ x → 'h' ≠ x →
      Masked (fun c => c ≠ x) format s4.fmt_str :=
    fun x hy hm hd hx => parse_masked (chars_ne tok_hh_chars hx) (m3 x hy hm hd) h4
  have m5 : ∀ x : Char, 'y' ≠ x → 'm' ≠ x → 'd' ≠ x → 'h' ≠ x → 'n' ≠ x →
      Masked (fun c => c ≠ x) format s5.fmt_str :=
    fun x hy hm hd hh hx => parse_masked (chars_ne tok_nn_chars hx) (m4 x hy hm hd hh) h5
  have m6 : ∀ x : Char, 'y' ≠ x → 'm' ≠ x → 'd' ≠ x → 'h' ≠ x → 'n' ≠ x → 's' ≠ x →
      Masked (fun c => c ≠ x) format s6.fmt_str :=
    fun x hy hm hd hh hn hx => parse_masked (chars_ne tok_ss_chars hx) (m5 x hy hm hd hh hn) h6
  refine ⟨fun ha => ?_, fun ha => ?_, fun ha => ?_, fun ha => ?_, fun ha => ?_,
    fun ha hb => ?_⟩
  · rw [parse_absent (m0 'y') tok_yyyy_chars (by decide) ha h1]
  · rw [parse_absent (m1 'm' (by decide)) tok_mm_chars (by decide) ha h2]
  · rw [parse_absent (m3 'h' (by decide) (by decide) (by decide)) tok_hh_chars (by decide) ha h4]
  · rw [parse_absent (m4 'n' (by decide) (by decide) (by decide) (by decide)) tok_nn_chars
      (by decide) ha h5]
  · rw [parse_absent (m5 's' (by decide) (by decide) (by decide) (by decide) (by decide))
      tok_ss_chars (by decide) ha h6]
  · have hm6 := m6 'z' (by decide) (by decide) (by decide) (by decide) (by decide) (by decide)
    have e7 := parse_absent hm6 tok_zzzzzz_chars (by decide) ha h7
    subst e7
    have e8 := parse_absent hm6 tok_zzz_chars (by decide) hb h8
    subst e8
    exact ⟨rfl, rfl⟩

/-- A witness of `C6_defaults`: a template with the hour and the minute only. -/
theorem C6_defaults_witness :
    from_str "12:30".toList "hh:nn".toList = .ok ⟨1970, 1, 0, 12, 30, 0, 0, 0⟩
    ∧ (⟨1970, 1, 0, 12, 30, 0, 0, 0⟩ : DateTime).year_ = 1970
    ∧ (⟨1970, 1, 0, 12, 30, 0, 0, 0⟩ : DateTime).mon_ = 1
    ∧ (⟨1970, 1, 0, 12, 30, 0, 0, 0⟩ : DateTime).sec_ = 0
    ∧ ((⟨1970, 1, 0, 12, 30, 0, 0, 0⟩ : DateTime).msec_ = 0
      ∧ (⟨1970, 1, 0, 12, 30, 0, 0, 0⟩ : DateTime).usec_ = 0) :=
  have H := C6_defaults "12:30".toList "hh:nn".toList ⟨1970, 1, 0, 12, 30, 0, 0, 0⟩ (by decide)
  ⟨by decide, H.1 (by decide), H.2.1 (by decide), H.2.2.2.2.1 (by decide),
    H.2.2.2.2.2 (by decide) (by decide)⟩

/-- C5: the code breaks the claim. For the text `2024` and the template
`yyyy-mm-dd` the offset of `mm` lies past the end of the text; the
`std::out_of_range` of `substr` is not a `std::runtime_error`, so it leaves
`from_str` as it is, without the wrapping message. -/
theorem C5_short_text_not_wrapped :
    from_str "2024".toList "yyyy-mm-dd".toList = .error .out_of_range := by
  decide

/-- C7: the code breaks the claim. For the text `12:30` and the template
`hh:nn` the result of `from_str` has day 0, which is not a day of a month. -/
theorem C7_day_zero_returned :
    from_str "12:30".toList "hh:nn".toList = .ok ⟨1970, 1, 0, 12, 30, 0, 0, 0⟩
    ∧ ¬ Canonical ⟨1970, 1, 0, 12, 30, 0, 0, 0⟩ := by
  decide

end DateTime

/-! ## Decimal rendering: `std::to_string` and `zero_fill` -/

namespace Cpp

theorem digitChar_isdigit (d : Nat) (h : d < 10) : isdigit (Nat.digitChar d) = true := by
  interval_cases d <;> decide

theorem digitChar_digitVal (d : Nat) (h : d < 10) : digitVal (Nat.digitChar d) = d := by
  interval_cases d <;> decide

theorem toDigitsCore_eq (n : Nat) : ∀ (f : Nat) (ds : List Char), n < f →
    Nat.toDigitsCore 10 f n ds = Nat.toDigitsCore 10 (n + 1) n [] ++ ds := by
  induction n using Nat.strong_induction_on with
  | _ n ih =>
    intro f ds hf
    obtain ⟨f1, rfl⟩ : ∃ f1, f = f1 + 1 := ⟨f - 1, by omega⟩
    simp only [Nat.toDigitsCore]
    by_cases h0 : n / 10 = 0
    · simp [h0]
    · simp only [h0, if_false]
      have hlt : n / 10 < n := by omega
      rw [ih (n / 10) hlt f1 _ (by omega), ih (n / 10) hlt n _ hlt]
      simp

theorem toDigits_lt_ten (n : Nat) (h : n < 10) : Nat.toDigits 10 n = [Nat.digitChar n] := by
  have h0 : n / 10 = 0 := by omega
  have h1 : n % 10 = n := by omega
  simp [Nat.toDigits, Nat.toDigitsCore, h0, h1]

theorem toDigits_ge_ten (n : Nat) (h : 10 ≤ n) :
    Nat.toDigits 10 n = Nat.toDigits 10 (n / 10) ++ [Nat.digitChar (n % 10)] := by
  have h0 : ¬ n / 10 = 0 := by omega
  have hlt : n / 10 < n := by omega
  show Nat.toDigitsCore 10 (n + 1) n [] = _
  rw [Nat.toDigitsCore]
  simp only [h0, if_false]
  rw [toDigitsCore_eq (n / 10) n _ hlt]
  rfl

theorem digitsVal_append_one (l : Str) (c : Char) :
    digitsVal (l ++ [c]) = 10 * digitsVal l + digitVal c := by
  simp [digitsVal, List.foldl_append]

theorem digitsVal_toDigits (n : Nat) : digitsVal (Nat.toDigits 10 n) = n := by
  induction n using Nat.strong_induction_on with
  | _ n ih =>
    by_cases h : n < 10
    · rw [toDigits_lt_ten n h]
      simp [digitsVal, digitChar_digitVal n h]
    · rw [toDigits_ge_ten n (by omega), digitsVal_append_one, ih (n / 10) (by omega),
        digitChar_digitVal _ (Nat.mod_lt _ (by norm_num))]
      omega

theorem toDigits_isdigit (n : Nat) : ∀ c ∈ Nat.toDigits 10 n, isdigit c = true := by
  induction n using Nat.strong_induction_on with
  | _ n ih =>
    by_cases h : n < 10
    · rw [toDigits_lt_ten n h]
      simpa using digitChar_isdigit n h
    · rw [toDigits_ge_ten n (by omega)]
      intro c hc
      rcases List.mem_append.mp hc with h1 | h1
      · exact ih (n / 10) (by omega) c h1
      · simp only [List.mem_singleton] at h1
        rw [h1]
        exact digitChar_isdigit _ (Nat.mod_lt _ (by norm_num))

theorem toDigits_length_pos (n : Nat) : 0 < (Nat.toDigits 10 n).length := by
  by_cases h : n < 10
  · rw [toDigits_lt_ten n h]; simp
  · rw [toDigits_ge_ten n (by omega)]; simp

theorem toDigits_length_le (k : Nat) : ∀ n : Nat, n < 10 ^ (k + 1) →
    (Nat.toDigits 10 n).length ≤ k + 1 := by
  induction k with
  | zero =>
    intro n hn
    rw [toDigits_lt_ten n (by simpa using hn)]
    simp
  | succ k ih =>
    intro n hn
    by_cases h : n < 10
    · rw [toDigits_lt_ten n h]; simp
    · rw [toDigits_ge_ten n (by omega)]
      have : n / 10 < 10 ^ (k + 1) := by
        rw [pow_succ] at hn
        omega
      have := ih (n / 10) this
      simp
      omega

theorem toDigits_length_four (n : Nat) (h1 : 1000 ≤ n) (h2 : n < 10000) :
    (Nat.toDigits 10 n).length = 4 := by
  rw [toDigits_ge_ten n (by omega), toDigits_ge_ten (n / 10) (by omega),
    toDigits_ge_ten (n / 10 / 10) (by omega), toDigits_lt_ten (n / 10 / 10 / 10) (by omega)]
  rfl

theorem to_string_of_nonneg (v : Int) (h : 0 ≤ v) : to_string v = Nat.toDigits 10 v.toNat := by
  unfold to_string
  rw [if_neg (by omega)]

theorem isdigit_not_space {c : Char} (h : isdigit c = true) : isspace c = false := by
  unfold isdigit at h
  simp only [Bool.and_eq_true, decide_eq_true_eq] at h
  unfold isspace
  simp only [Bool.or_eq_false_iff, beq_eq_false_iff_ne, ne_eq]
  refine ⟨⟨⟨⟨⟨?_, ?_⟩, ?_⟩, ?_⟩, ?_⟩, ?_⟩ <;>
  · intro hc
    subst hc
    revert h
    decide

theorem isdigit_not_sign {c : Char} (h : isdigit c = true) : c ≠ '-' ∧ c ≠ '+' := by
  unfold isdigit at h
  simp only [Bool.and_eq_true, decide_eq_true_eq] at h
  constructor <;>
  · intro hc
    subst hc
    revert h
    decide

theorem isdigit_not_star {c : Char} (h : isdigit c = true) : c ≠ '*' := by
  unfold isdigit at h
  simp only [Bool.and_eq_true, decide_eq_true_eq] at h
  intro hc
  subst hc
  revert h
  decide

/-- What `std::stol` reads from a string of digits. -/
theorem stol_digits (ds : Str) (hne : ds ≠ []) (hd : ∀ c ∈ ds, isdigit c = true)
    (hmax : (digitsVal ds : Int) ≤ LONG_MAX) : stol ds = .ok (digitsVal ds : Int) := by
  obtain ⟨c, t, rfl⟩ : ∃ c t, ds = c :: t := by
    cases ds with
    | nil => exact absurd rfl hne
    | cons c t => exact ⟨c, t, rfl⟩
  have hc := hd c (by simp)
  have hsp := isdigit_not_space hc
  have hsg := isdigit_not_sign hc
  have hdrop : (c :: t).dropWhile isspace = c :: t := by
    simp [List.dropWhile, hsp]
  have htw : (c :: t).takeWhile isdigit = c :: t := by
    rw [List.takeWhile_eq_self_iff]
    exact hd
  have hdig : stolDigits (c :: t) = c :: t := by
    unfold stolDigits
    simp only [hdrop, List.head?_cons]
    have h1 : (some c == some '-') = false := by simpa using hsg.1
    have h2 : (some c == some '+') = false := by simpa using hsg.2
    rw [h1, h2]
    simpa using htw
  have hval : stolValue (c :: t) = (digitsVal (c :: t) : Int) := by
    unfold stolValue
    rw [hdrop, hdig]
    have h1 : (((c :: t) : Str).head? == some '-') = false := by simpa using hsg.1
    rw [h1]
    rfl
  unfold stol
  rw [hdig, hval]
  have hnn : (0 : Int) ≤ (digitsVal (c :: t) : Int) := Int.ofNat_nonneg _
  simp only [List.isEmpty_cons, Bool.false_eq_true, if_false]
  rw [if_neg]
  unfold LONG_MAX at hmax ⊢
  omega

end Cpp

namespace DateTime

theorem zero_fill_loop_eq (n : Nat) (r : Str) :
    zero_fill_loop n r = List.replicate n '0' ++ r := by
  induction n generalizing r with
  | zero => rfl
  | succ n ih =>
    rw [zero_fill_loop, ih, List.replicate_succ']
    simp

theorem zero_fill_eq (str : Str) (digit : Nat) :
    zero_fill str digit = List.replicate (digit - str.length) '0' ++ str := by
  unfold zero_fill
  rw [zero_fill_loop_eq]
  split
  · rfl
  · have : digit - str.length = 0 := by omega
    rw [this]

theorem digitsVal_zeros (n : Nat) (ds : Str) :
    Cpp.digitsVal (List.replicate n '0' ++ ds) = Cpp.digitsVal ds := by
  induction n with
  | zero => rfl
  | succ n ih =>
    rw [List.replicate_succ, List.cons_append]
    unfold Cpp.digitsVal at ih ⊢
    rw [List.foldl_cons]
    have : 10 * 0 + Cpp.digitVal '0' = 0 := by decide
    rw [this]
    exact ih

/-- The text that `to_str` writes for a field value `v` of `k` digits at most
(`k` from 1 to 18): it has `k` characters, all digits, and `std::stol` reads `v`
from it. -/
theorem render_spec (v : Int) (k : Nat) (h0 : 0 ≤ v) (hk : v < 10 ^ (k + 1)) (hk18 : k < 18) :
    (zero_fill (Cpp.to_string v) (k + 1)).length = k + 1
    ∧ (∀ c ∈ zero_fill (Cpp.to_string v) (k + 1), Cpp.isdigit c = true)
    ∧ Cpp.stol (zero_fill (Cpp.to_string v) (k + 1)) = .ok v := by
  lift v to ℕ using h0
  have hk1 : v < 10 ^ (k + 1) := by exact_mod_cast hk
  rw [Cpp.to_string_of_nonneg _ (by omega), Int.toNat_ofNat, zero_fill_eq]
  have hlen := Cpp.toDigits_length_le k v hk1
  have hdig := Cpp.toDigits_isdigit v
  have hall : ∀ c ∈ List.replicate (k + 1 - (Nat.toDigits 10 v).length) '0' ++ Nat.toDigits 10 v,
      Cpp.isdigit c = true := by
    intro c hc
    rcases List.mem_append.mp hc with h1 | h1
    · rw [(List.mem_replicate.mp h1).2]; decide
    · exact hdig c h1
  have hval : Cpp.digitsVal
      (List.replicate (k + 1 - (Nat.toDigits 10 v).length) '0' ++ Nat.toDigits 10 v) = v := by
    rw [digitsVal_zeros, Cpp.digitsVal_toDigits]
  refine ⟨by simp; omega, hall, ?_⟩
  have hpos := Cpp.toDigits_length_pos v
  have := Cpp.stol_digits _ (by
      intro h
      have := congrArg List.length h
      rw [List.length_append, List.length_replicate, List.length_nil] at this
      omega) hall (by
      rw [hval]
      have h18 : (10 : Nat) ^ (k + 1) ≤ 10 ^ 18 := Nat.pow_le_pow_right (by norm_num) (by omega)
      unfold Cpp.LONG_MAX
      have : (v : Int) < 10 ^ 18 := by exact_mod_cast lt_of_lt_of_le hk1 h18
      omega)
  rw [this, hval]

/-- The text that `to_str` writes for a year of four digits. -/
theorem render_year (y : Int) (h1 : 1000 ≤ y) (h2 : y < 10000) :
    (Cpp.to_string y).length = 4
    ∧ (∀ c ∈ Cpp.to_string y, Cpp.isdigit c = true)
    ∧ Cpp.stol (Cpp.to_string y) = .ok y := by
  have hlen : (Cpp.to_string y).length = 4 := by
    rw [Cpp.to_string_of_nonneg y (by omega)]
    exact Cpp.toDigits_length_four _ (by omega) (by omega)
  have h := render_spec y 3 (by omega) (by norm_num; omega) (by norm_num)
  have hz : zero_fill (Cpp.to_string y) (3 + 1) = Cpp.to_string y := by
    rw [zero_fill_eq, hlen]
    rfl
  rw [hz] at h
  exact ⟨hlen, h.2.1, h.2.2⟩

end DateTime

/-! ## A call of `parse` for a token that occurs once -/

namespace DateTime

theorem parse_once {fmt dt fs : Str} {val lo hi v : Int} {p : Nat}
    (hfind : Cpp.find fs fmt 0 = some p) (hp : p ≤ dt.length)
    (hst : Cpp.stol ((dt.drop p).take fmt.length) = .ok v)
    (hlo : lo ≤ toInt32 v) (hhi : toInt32 v ≤ hi)
    (hnext : Cpp.find (fs.take p ++ List.replicate fmt.length '*' ++ fs.drop (p + fmt.length))
      fmt (p + fmt.length) = none) :
    parse dt fs fmt val lo hi
      = .ok ⟨dt.take p ++ List.replicate fmt.length '*' ++ dt.drop (p + fmt.length),
             fs.take p ++ List.replicate fmt.length '*' ++ fs.drop (p + fmt.length),
             p + fmt.length, toInt32 v⟩ := by
  have hb := Cpp.find_some hfind
  obtain ⟨k, hk⟩ : ∃ k, fs.length = k + 1 := by
    have hn : 0 < fmt.length := by
      rcases Nat.eq_zero_or_pos fmt.length with h0 | h0
      · rw [h0] at hst
        simp [Cpp.stol, Cpp.stolDigits] at hst
      · exact h0
    exact ⟨fs.length - 1, by omega⟩
  unfold parse
  rw [hk, parseLoop_succ, parseBody_found (s := ⟨dt, fs, 0, val⟩) hfind hp]
  simp only [hst]
  rw [if_neg (by omega)]
  simp only []
  rw [parseLoop_succ, parseBody_not_found (by exact hnext)]

theorem parse_once_range {fmt dt fs : Str} {val lo hi v : Int} {p : Nat}
    (hfind : Cpp.find fs fmt 0 = some p) (hp : p ≤ dt.length)
    (hst : Cpp.stol ((dt.drop p).take fmt.length) = .ok v)
    (hout : toInt32 v < lo ∨ toInt32 v > hi) :
    parse dt fs fmt val lo hi = .error (.runtime_error (rangeMsg (toInt32 v) fmt lo hi)) := by
  unfold parse
  rw [parseLoop_succ, parseBody_found (s := ⟨dt, fs, 0, val⟩) hfind hp]
  simp only [hst]
  rw [if_pos hout]

theorem list_length_two {l : Str} (h : l.length = 2) : ∃ a b, l = [a, b] := by
  match l, h with
  | [a, b], _ => exact ⟨a, b, rfl⟩

theorem list_length_four {l : Str} (h : l.length = 4) : ∃ a b c d, l = [a, b, c, d] := by
  match l, h with
  | [a, b, c, d], _ => exact ⟨a, b, c, d, rfl⟩

theorem index_days_of_month_eq (year mon : Int) (h1 : 1 ≤ mon) (h2 : mon ≤ 12) :
    index (days_of_month year) (mon - 1) = .ok (daysInMonth year mon) := by
  obtain ⟨k, rfl⟩ : ∃ k : Nat, mon = k + 1 := ⟨(mon - 1).toNat, by omega⟩
  have hk : k < 12 := by omega
  unfold index days_of_month daysInMonth
  have e : ((k : Int) + 1 - 1).toNat = k := by simp
  rw [if_neg (by omega), e]
  interval_cases k <;> simp

/-- The `try` block of `from_str` on a text of ten characters against the
template `yyyy-mm-dd`. -/
theorem from_str_try_ymd (a1 a2 a3 a4 b1 b2 c1 c2 : Char) (y m d : Int)
    (hy : Cpp.stol [a1, a2, a3, a4] = .ok y) (hm : Cpp.stol [b1, b2] = .ok m)
    (hd : Cpp.stol [c1, c2] = .ok d) (hy1 : 1970 ≤ y) (hy2 : y ≤ 2300) :
    from_str_try [a1, a2, a3, a4, '-', b1, b2, '-', c1, c2] "yyyy-mm-dd".toList
      = if m < 1 ∨ m > 12 then .error (.runtime_error (rangeMsg m tok_mm 1 12))
        else if d < 1 ∨ d > daysInMonth y m then
          .error (.runtime_error (rangeMsg d tok_dd 1 (daysInMonth y m)))
        else .ok ⟨y, m, d, 0, 0, 0, 0, 0⟩ := by
  have ey := Cpp.toInt32_of_stol hy (by simp)
  have em := Cpp.toInt32_of_stol hm (by simp)
  have ed := Cpp.toInt32_of_stol hd (by simp)
  have p1 : parse [a1, a2, a3, a4, '-', b1, b2, '-', c1, c2] "yyyy-mm-dd".toList tok_yyyy
      1970 1970 2300
      = .ok ⟨['*', '*', '*', '*', '-', b1, b2, '-', c1, c2], "****-mm-dd".toList, 4, y⟩ := by
    have := @parse_once tok_yyyy
          ([a1, a2, a3, a4, '-', b1, b2, '-', c1, c2])
          ("yyyy-mm-dd".toList) 1970 1970 2300 y 0
          (by decide) (by simp) (by simpa [tok_yyyy] using hy) (by omega) (by omega) (by decide)
    rw [this, ey]
    rfl
  unfold from_str_try
  simp only [p1, bind, Except.bind]
  by_cases hmr : m < 1 ∨ m > 12
  · have p2 := @parse_once_range tok_mm
        (['*', '*', '*', '*', '-', b1, b2, '-', c1, c2])
        ("****-mm-dd".toList) 1 1 12 m 5
          (by decide) (by simp) (by simpa [tok_mm] using hm) (by omega)
    rw [em] at p2
    simp only [p2, if_pos hmr]
  · have p2 : parse ['*', '*', '*', '*', '-', b1, b2, '-', c1, c2] "****-mm-dd".toList tok_mm
        1 1 12
        = .ok ⟨['*', '*', '*', '*', '-', '*', '*', '-', c1, c2], "****-**-dd".toList, 7, m⟩ := by
      have := @parse_once tok_mm
            (['*', '*', '*', '*', '-', b1, b2, '-', c1, c2])
            ("****-mm-dd".toList) 1 1 12 m 5
          (by decide) (by simp) (by simpa [tok_mm] using hm) (by omega) (by omega) (by decide)
      rw [this, em]
      rfl
    have hidx := index_days_of_month_eq y m (by omega) (by omega)
    simp only [p2, hidx, if_neg hmr]
    by_cases hdr : d < 1 ∨ d > daysInMonth y m
    · have p3 := @parse_once_range tok_dd
          (['*', '*', '*', '*', '-', '*', '*', '-', c1, c2])
          ("****-**-dd".toList) 0 1 (daysInMonth y m) d 8
          (by decide) (by simp) (by simpa [tok_dd] using hd) (by omega)
      rw [ed] at p3
      simp only [p3, if_pos hdr]
    · have p3 : parse ['*', '*', '*', '*', '-', '*', '*', '-', c1, c2] "****-**-dd".toList tok_dd
          0 1 (daysInMonth y m)
          = .ok ⟨['*', '*', '*', '*', '-', '*', '*', '-', '*', '*'], "****-**-**".toList,
              10, d⟩ := by
        have := @parse_once tok_dd
              (['*', '*', '*', '*', '-', '*', '*', '-', c1, c2])
              ("****-**-dd".toList) 0 1 (daysInMonth y m) d 8
          (by decide) (by simp) (by simpa [tok_dd] using hd) (by omega) (by omega)
          (by decide)
        rw [this, ed]
        rfl
      simp only [p3, if_neg hdr]
      have q : ∀ (fmt : Str) (val lo hi : Int), Cpp.find "****-**-**".toList fmt 0 = none →
          parse ['*', '*', '*', '*', '-', '*', '*', '-', '*', '*'] "****-**-**".toList fmt
            val lo hi
          = .ok ⟨['*', '*', '*', '*', '-', '*', '*', '-', '*', '*'], "****-**-**".toList,
              0, val⟩ := fun fmt val lo hi h => parse_not_found h
      simp only [q tok_hh 0 0 23 (by decide), q tok_nn 0 0 59 (by decide),
        q tok_ss 0 0 59 (by decide), q tok_zzzzzz 0 0 999999 (by decide)]
      have ez : Int.tdiv 0 1000 = 0 := by decide
      have ez2 : Int.tmod 0 1000 = 0 := by decide
      simp only [ez, ez2, q tok_zzz 0 0 999 (by decide)]
      rfl

end DateTime

namespace DateTime

/-- C2: for every year `y` in 1970..2300 and every month `m` and day `d` written
with two digits (0..99), `from_str` of the text `y-m-d` against the template
`yyyy-mm-dd` returns an instance if and only if `1 ≤ m ≤ 12` and
`1 ≤ d ≤ daysInMonth y m`, where February has 29 days exactly in the leap years
of the Gregorian rule; the instance then holds `y`, `m`, `d`. In particular
`2024-02-29` is accepted and `2023-02-29` fails with the out-of-range error for
`dd`. -/
theorem C2_calendar_validation (y m d : Int) (hy1 : 1970 ≤ y) (hy2 : y ≤ 2300)
    (hm1 : 0 ≤ m) (hm2 : m ≤ 99) (hd1 : 0 ≤ d) (hd2 : d ≤ 99) :
    ((∃ r, from_str (dateText y m d) "yyyy-mm-dd".toList = .ok r)
        ↔ (1 ≤ m ∧ m ≤ 12 ∧ 1 ≤ d ∧ d ≤ daysInMonth y m))
    ∧ (1 ≤ m ∧ m ≤ 12 ∧ 1 ≤ d ∧ d ≤ daysInMonth y m →
        from_str (dateText y m d) "yyyy-mm-dd".toList = .ok ⟨y, m, d, 0, 0, 0, 0, 0⟩)
    ∧ from_str "2024-02-29".toList "yyyy-mm-dd".toList = .ok ⟨2024, 2, 29, 0, 0, 0, 0, 0⟩
    ∧ from_str "2023-02-29".toList "yyyy-mm-dd".toList
        = .error (.runtime_error ("from_str failed. 2023-02-29 couldn't parse to yyyy-mm-dd."
            ++ "29 is out of range for dd (1 - 28)").toList) := by
  obtain ⟨hyl, -, hys⟩ := render_year y (by omega) (by omega)
  obtain ⟨hml, -, hms⟩ := render_spec m 1 hm1 (by norm_num; omega) (by norm_num)
  obtain ⟨hdl, -, hds⟩ := render_spec d 1 hd1 (by norm_num; omega) (by norm_num)
  obtain ⟨a1, a2, a3, a4, ha⟩ := list_length_four hyl
  obtain ⟨b1, b2, hb⟩ := list_length_two hml
  obtain ⟨c1, c2, hc⟩ := list_length_two hdl
  have htext : dateText y m d = [a1, a2, a3, a4, '-', b1, b2, '-', c1, c2] := by
    unfold dateText
    rw [ha]
    have hb2 : zero_fill (Cpp.to_string m) 2 = [b1, b2] := hb
    have hc2 : zero_fill (Cpp.to_string d) 2 = [c1, c2] := hc
    rw [hb2, hc2]
    rfl
  rw [ha] at hys
  rw [hb] at hms
  rw [hc] at hds
  have htry := from_str_try_ymd a1 a2 a3 a4 b1 b2 c1 c2 y m d hys hms hds hy1 hy2
  have hgood : 1 ≤ m ∧ m ≤ 12 ∧ 1 ≤ d ∧ d ≤ daysInMonth y m →
      from_str (dateText y m d) "yyyy-mm-dd".toList = .ok ⟨y, m, d, 0, 0, 0, 0, 0⟩ := by
    intro h
    unfold from_str
    rw [htext, htry, if_neg (by omega), if_neg (by omega)]
  refine ⟨⟨?_, fun h => ⟨_, hgood h⟩⟩, hgood, by decide, by decide⟩
  rintro ⟨r, hr⟩
  by_contra hcond
  unfold from_str at hr
  rw [htext, htry] at hr
  by_cases hmr : m < 1 ∨ m > 12
  · rw [if_pos hmr] at hr
    simp at hr
  · rw [if_neg hmr] at hr
    by_cases hdr : d < 1 ∨ d > daysInMonth y m
    · rw [if_pos hdr] at hr
      simp at hr
    · omega

/-- A witness of `C2_calendar_validation`: the last day of February 2000. -/
theorem C2_calendar_validation_witness :
    dateText 2000 2 29 = "2000-02-29".toList
    ∧ from_str (dateText 2000 2 29) "yyyy-mm-dd".toList = .ok ⟨2000, 2, 29, 0, 0, 0, 0, 0⟩ :=
  ⟨by decide,
   (C2_calendar_validation 2000 2 29 (by decide) (by decide) (by decide) (by decide) (by decide)
    (by decide)).2.1 (by decide)⟩

end DateTime

/-! ## The loops of `dump` and `parse` side by side -/

namespace DateTime

theorem KeepsDigits.rfl_digits (a : Str) : KeepsDigits a a := by
  unfold KeepsDigits
  rw [List.forall₂_same]
  intro x _ _
  rfl

theorem KeepsDigits.trans {a b c : Str} (h1 : KeepsDigits a b) (h2 : KeepsDigits b c) :
    KeepsDigits a c := by
  unfold KeepsDigits at *
  induction h1 generalizing c with
  | nil => cases h2; exact List.Forall₂.nil
  | @cons x y a1 b1 hxy _ ih =>
    cases h2 with
    | @cons _ z _ c1 hyz hrest =>
      refine List.Forall₂.cons (fun hx => ?_) (ih hrest)
      have hy := hxy hx
      rw [hyz (hy ▸ hx), hy]

theorem KeepsDigits.size_eq {a b : Str} (h : KeepsDigits a b) : a.length = b.length :=
  List.Forall₂.length_eq h

/-- Two strings related by `KeepsDigits` are equal where the first holds digits
only. -/
theorem KeepsDigits.eq_of_digits {a b : Str} (h : KeepsDigits a b)
    (hd : ∀ c ∈ a, Cpp.isdigit c = true) : b = a := by
  unfold KeepsDigits at h
  induction h with
  | nil => rfl
  | @cons x y a1 b1 hxy _ ih =>
    rw [hxy (hd x (by simp)), ih (fun c hc => hd c (by simp [hc]))]

/-- Replacing a span without digits keeps the digits. -/
theorem KeepsDigits.overwrite_digits (str rep : Str) (p n : Nat) (hlen : rep.length = n)
    (hp : p + n ≤ str.length)
    (hspan : ∀ c ∈ (str.drop p).take n, ¬ Cpp.isdigit c = true) :
    KeepsDigits str (str.take p ++ rep ++ str.drop (p + n)) := by
  have hmid : KeepsDigits ((str.drop p).take n) rep := by
    have hl : ((str.drop p).take n).length = rep.length := by
      rw [List.length_take, List.length_drop]; omega
    generalize (str.drop p).take n = xs at hspan hl
    clear hlen hp
    unfold KeepsDigits
    induction xs generalizing rep with
    | nil =>
      cases rep with
      | nil => exact List.Forall₂.nil
      | cons _ _ => simp at hl
    | cons x xs ih =>
      cases rep with
      | nil => simp at hl
      | cons r rs =>
        refine List.Forall₂.cons (fun hx => absurd hx (hspan x (by simp)))
          (ih rs (fun c hc => hspan c (by simp [hc])) (by simpa using hl))
  have h : KeepsDigits (str.take p ++ (str.drop p).take n ++ str.drop (p + n))
      (str.take p ++ rep ++ str.drop (p + n)) :=
    List.rel_append (List.rel_append (KeepsDigits.rfl_digits (str.take p)) hmid)
      (KeepsDigits.rfl_digits (str.drop (p + n)))
  rw [← take_drop_split str p n] at h
  exact h

theorem dumpLoop_succ (fmt rep : Str) (fuel : Nat) (str : Str) (pos : Nat) :
    dumpLoop fmt rep (fuel + 1) str pos =
      match Cpp.find str fmt pos with
      | none => some str
      | some p =>
        dumpLoop fmt rep fuel (str.take p ++ rep ++ str.drop (p + fmt.length)) (p + rep.length) :=
  rfl

/-- The loop of `dump` keeps the digits of the string when the token holds no
digit and the replacement has the width of the token. -/
theorem dumpLoop_keepsDigits (tok rep : Str) (hlen : rep.length = tok.length)
    (htok : ∀ c ∈ tok, ¬ Cpp.isdigit c = true) (fuel : Nat) (str : Str) (pos : Nat) (out : Str)
    (h : dumpLoop tok rep fuel str pos = some out) : KeepsDigits str out := by
  induction fuel generalizing str pos with
  | zero => simp [dumpLoop] at h
  | succ n ih =>
    rw [dumpLoop_succ] at h
    cases hf : Cpp.find str tok pos with
    | none =>
      rw [hf] at h
      simp only [Option.some.injEq] at h
      subst h
      exact KeepsDigits.rfl_digits _
    | some p =>
      rw [hf] at h
      simp only [] at h
      have hb := Cpp.find_some hf
      have h1 : KeepsDigits str (str.take p ++ rep ++ str.drop (p + tok.length)) :=
        KeepsDigits.overwrite_digits str rep p tok.length hlen hb.2.1
          (by rw [Cpp.find_some_take hf]; exact htok)
      exact h1.trans (ih _ _ h)

/-- The loop of `dump` ends within its budget, whatever the replacement, when
the token is not empty. -/
theorem dumpLoop_total (tok rep : Str) (hne : 0 < tok.length)
    (fuel : Nat) (str : Str) (pos : Nat) (hfuel : str.length - pos < fuel) :
    ∃ out, dumpLoop tok rep fuel str pos = some out := by
  induction fuel generalizing str pos with
  | zero => omega
  | succ n ih =>
    rw [dumpLoop_succ]
    cases hf : Cpp.find str tok pos with
    | none => exact ⟨str, rfl⟩
    | some p =>
      have hb := Cpp.find_some hf
      apply ih
      simp only [List.length_append, List.length_take, List.length_drop]
      omega

theorem dump_total (str tok rep : Str) (hne : 0 < tok.length) :
    ∃ out, dump str tok rep = some out :=
  dumpLoop_total tok rep hne _ str 0 (by omega)

/-- The method `to_str` yields a text for every value and every template: the
budget of its loops is never exhausted. -/
theorem to_str_total (d : DateTime) (format : Str) : ∃ text, to_str d format = some text := by
  obtain ⟨o1, d1⟩ := dump_total format tok_yyyy (Cpp.to_string d.year_) (by decide)
  obtain ⟨o2, d2⟩ := dump_total o1 tok_mm (zero_fill (Cpp.to_string d.mon_) 2) (by decide)
  obtain ⟨o3, d3⟩ := dump_total o2 tok_dd (zero_fill (Cpp.to_string d.day_) 2) (by decide)
  obtain ⟨o4, d4⟩ := dump_total o3 tok_hh (zero_fill (Cpp.to_string d.hour_) 2) (by decide)
  obtain ⟨o5, d5⟩ := dump_total o4 tok_nn (zero_fill (Cpp.to_string d.min_) 2) (by decide)
  obtain ⟨o6, d6⟩ := dump_total o5 tok_ss (zero_fill (Cpp.to_string d.sec_) 2) (by decide)
  obtain ⟨o7, d7⟩ := dump_total o6 tok_zzzzzz
    (zero_fill (Cpp.to_string (toInt32 (1000 * d.msec_ + d.usec_))) 6) (by decide)
  obtain ⟨o8, d8⟩ := dump_total o7 tok_zzz (zero_fill (Cpp.to_string d.msec_) 3) (by decide)
  refine ⟨o8, ?_⟩
  unfold to_str
  simp only [d1, d2, d3, d4, d5, d6, d7, d8, bind, Option.bind, pure]

theorem AgreesUnmasked.sizes_eq {fs dt text : Str} (h : AgreesUnmasked fs dt text) :
    fs.length = dt.length ∧ fs.length = text.length := by
  induction h with
  | nil => exact ⟨rfl, rfl⟩
  | cons _ _ ih => exact ⟨by simp [ih.1], by simp [ih.2]⟩

theorem AgreesUnmasked.of_same (fs text : Str) (h : fs.length = text.length) :
    AgreesUnmasked fs text text := by
  induction fs generalizing text with
  | nil =>
    cases text with
    | nil => exact AgreesUnmasked.nil
    | cons _ _ => simp at h
  | cons f fs ih =>
    cases text with
    | nil => simp at h
    | cons t text => exact AgreesUnmasked.cons (fun _ => rfl) (ih text (by simpa using h))

theorem AgreesUnmasked.take {fs dt text : Str} (h : AgreesUnmasked fs dt text) (n : Nat) :
    AgreesUnmasked (fs.take n) (dt.take n) (text.take n) := by
  induction h generalizing n with
  | nil => simpa using AgreesUnmasked.nil
  | cons hc _ ih =>
    cases n with
    | zero => simpa using AgreesUnmasked.nil
    | succ n => simpa using AgreesUnmasked.cons hc (ih n)

theorem AgreesUnmasked.drop {fs dt text : Str} (h : AgreesUnmasked fs dt text) (n : Nat) :
    AgreesUnmasked (fs.drop n) (dt.drop n) (text.drop n) := by
  induction h generalizing n with
  | nil => simpa using AgreesUnmasked.nil
  | cons hc hrest ih =>
    cases n with
    | zero => simpa using AgreesUnmasked.cons hc hrest
    | succ n => simpa using ih n

theorem AgreesUnmasked.append {fs dt text fs2 dt2 text2 : Str} (h : AgreesUnmasked fs dt text)
    (h2 : AgreesUnmasked fs2 dt2 text2) :
    AgreesUnmasked (fs ++ fs2) (dt ++ dt2) (text ++ text2) := by
  induction h with
  | nil => simpa using h2
  | cons hc _ ih => simpa using AgreesUnmasked.cons hc ih

theorem AgreesUnmasked.stars (text : Str) :
    AgreesUnmasked (List.replicate text.length '*') (List.replicate text.length '*') text := by
  induction text with
  | nil => exact AgreesUnmasked.nil
  | cons t text ih =>
    simp only [List.length_cons, List.replicate_succ]
    exact AgreesUnmasked.cons (fun h => absurd rfl h) ih

/-- Where the template holds no placeholder the text is the original one. -/
theorem AgreesUnmasked.eq_of_unmasked {fs dt text : Str} (h : AgreesUnmasked fs dt text)
    (hfs : ∀ c ∈ fs, c ≠ '*') : dt = text := by
  induction h with
  | nil => rfl
  | @cons f d t fs dt text hc _ ih =>
    rw [hc (hfs f (by simp)), ih (fun c hc => hfs c (by simp [hc]))]

theorem AgreesUnmasked.overwrite_stars {fs dt text : Str} (h : AgreesUnmasked fs dt text) (p n : Nat)
    (hp : p + n ≤ fs.length) :
    AgreesUnmasked (fs.take p ++ List.replicate n '*' ++ fs.drop (p + n))
      (dt.take p ++ List.replicate n '*' ++ dt.drop (p + n)) text := by
  have hl := h.sizes_eq
  have hmid := AgreesUnmasked.stars ((text.drop p).take n)
  have hn : ((text.drop p).take n).length = n := by
    rw [List.length_take, List.length_drop]; omega
  rw [hn] at hmid
  have := ((h.take p).append hmid).append (h.drop (p + n))
  rw [← take_drop_split text p n] at this
  exact this

/-- The replacement and the placeholders that overwrite one span. -/
theorem Masked.digits_stars (rep : Str) (hd : ∀ c ∈ rep, Cpp.isdigit c = true) :
    Masked (fun c => Cpp.isdigit c = true) rep (List.replicate rep.length '*') := by
  induction rep with
  | nil => exact List.Forall₂.nil
  | cons r rs ih =>
    simp only [List.length_cons, List.replicate_succ]
    exact List.Forall₂.cons (Or.inr ⟨rfl, hd r (by simp)⟩) (ih (fun c hc => hd c (by simp [hc])))

theorem take_drop_middle (a rep b : Str) (p n : Nat) (hp : a.length = p) (hn : rep.length = n) :
    ((a ++ rep ++ b).drop p).take n = rep := by
  subst hp hn
  rw [List.append_assoc, List.drop_left, List.take_left]

/-- The loops of `dump` and of `parse` for one token run in step: when `dump`
has written `rep`, a text of the width of the token made of digits from which
`std::stol` reads a value `v` within the bounds, the loop of `parse` on the
final text finds the same occurrences, reads `v` at each, and ends normally. -/
theorem parseLoop_dumpLoop (tok rep : Str) (v lo hi : Int) (text : Str)
    (hlen : rep.length = tok.length)
    (hrep : ∀ c ∈ rep, Cpp.isdigit c = true)
    (htok : ∀ c ∈ tok, ¬ Cpp.isdigit c = true ∧ c ≠ '*')
    (hst : Cpp.stol rep = .ok v) (hlo : lo ≤ toInt32 v) (hhi : toInt32 v ≤ hi)
    (fuel : Nat) (str : Str) (pos : Nat) (out dt fs : Str) (val : Int)
    (hdump : dumpLoop tok rep fuel str pos = some out)
    (hm : Masked (fun c => Cpp.isdigit c = true) str fs)
    (ha : AgreesUnmasked fs dt text)
    (hk : KeepsDigits out text) :
    ∃ s1, parseLoop tok lo hi fuel ⟨dt, fs, pos, val⟩ = .ok s1
      ∧ Masked (fun c => Cpp.isdigit c = true) out s1.fmt_str
      ∧ AgreesUnmasked s1.fmt_str s1.dt_str text
      ∧ (s1.val = toInt32 v ∨ (s1.val = val ∧ Cpp.find fs tok pos = none)) := by
  induction fuel generalizing str pos dt fs val with
  | zero => simp [dumpLoop] at hdump
  | succ n ih =>
    rw [dumpLoop_succ] at hdump
    have hfeq : Cpp.find str tok pos = Cpp.find fs tok pos := find_masked tok htok hm pos
    rw [parseLoop_succ]
    cases hf : Cpp.find str tok pos with
    | none =>
      rw [hf] at hdump
      simp only [Option.some.injEq] at hdump
      subst hdump
      rw [hf] at hfeq
      rw [parseBody_not_found (s := ⟨dt, fs, pos, val⟩) hfeq.symm]
      exact ⟨_, rfl, hm, ha, Or.inr ⟨rfl, hfeq.symm⟩⟩
    | some p =>
      rw [hf] at hdump hfeq
      simp only [] at hdump
      have hb := Cpp.find_some hf
      have hb2 := Cpp.find_some hfeq.symm
      have hal := ha.sizes_eq
      have hml := hm.len_eq
      -- the digits written by `dump` at this occurrence are in the final text
      have hkeep : KeepsDigits (str.take p ++ rep ++ str.drop (p + tok.length)) text :=
        (dumpLoop_keepsDigits tok rep hlen (fun c hc => (htok c hc).1) n _ _ out hdump).trans hk
      have hmidk : KeepsDigits rep ((text.drop p).take tok.length) := by
        have := List.forall₂_take tok.length (List.forall₂_drop p hkeep)
        rw [take_drop_middle _ rep _ p tok.length (by rw [List.length_take]; omega) hlen] at this
        exact this
      have htext : (text.drop p).take tok.length = rep := hmidk.eq_of_digits hrep
      -- the text that `parse` reads there is the final text
      have hsub : (dt.drop p).take tok.length = rep := by
        have h3 := (ha.drop p).take tok.length
        rw [Cpp.find_some_take hfeq.symm] at h3
        rw [h3.eq_of_unmasked (fun c hc => (htok c hc).2), htext]
      rw [parseBody_found (s := ⟨dt, fs, pos, val⟩) hfeq.symm (by show p ≤ dt.length; omega)]
      simp only [hsub, hst]
      rw [if_neg (by omega)]
      simp only []
      have hm1 : Masked (fun c => Cpp.isdigit c = true)
          (str.take p ++ rep ++ str.drop (p + tok.length))
          (fs.take p ++ List.replicate tok.length '*' ++ fs.drop (p + tok.length)) := by
        have hs := Masked.digits_stars rep hrep
        rw [hlen] at hs
        exact List.rel_append (List.rel_append (List.forall₂_take p hm) hs)
          (List.forall₂_drop (p + tok.length) hm)
      have ha1 := ha.overwrite_stars p tok.length hb2.2.1
      rw [hlen] at hdump
      obtain ⟨s1, h1, h2, h3, h4⟩ := ih _ _ _ _ (toInt32 v) hdump hm1 ha1
      refine ⟨s1, h1, h2, h3, Or.inl ?_⟩
      rcases h4 with h4 | ⟨h4, _⟩ <;> exact h4

end DateTime

namespace DateTime

/-- One stage of `to_str` and the matching call of `parse` on the final text. -/
theorem parse_dump (tok rep : Str) (v lo hi : Int) (text : Str)
    (hlen : rep.length = tok.length)
    (hrep : ∀ c ∈ rep, Cpp.isdigit c = true)
    (htok : ∀ c ∈ tok, ¬ Cpp.isdigit c = true ∧ c ≠ '*')
    (hst : Cpp.stol rep = .ok v) (hlo : lo ≤ toInt32 v) (hhi : toInt32 v ≤ hi)
    (str out dt fs : Str) (val : Int)
    (hdump : dump str tok rep = some out)
    (hm : Masked (fun c => Cpp.isdigit c = true) str fs)
    (ha : AgreesUnmasked fs dt text)
    (hk : KeepsDigits out text) :
    ∃ s1, parse dt fs tok val lo hi = .ok s1
      ∧ Masked (fun c => Cpp.isdigit c = true) out s1.fmt_str
      ∧ AgreesUnmasked s1.fmt_str s1.dt_str text
      ∧ (s1.val = toInt32 v ∨ (s1.val = val ∧ Cpp.find fs tok 0 = none)) := by
  unfold dump at hdump
  unfold parse
  rw [← hm.len_eq]
  exact parseLoop_dumpLoop tok rep v lo hi text hlen hrep htok hst hlo hhi _ str 0 out dt fs val
    hdump hm ha hk

theorem dump_keepsDigits (str tok rep out : Str) (hlen : rep.length = tok.length)
    (htok : ∀ c ∈ tok, ¬ Cpp.isdigit c = true ∧ c ≠ '*') (h : dump str tok rep = some out) :
    KeepsDigits str out :=
  dumpLoop_keepsDigits tok rep hlen (fun c hc => (htok c hc).1) _ str 0 out h

theorem daysInMonth_le (y m : Int) : daysInMonth y m ≤ 31 := by
  unfold daysInMonth
  split_ifs <;> omega

theorem toInt32_small (x : Int) (h1 : -2147483648 ≤ x) (h2 : x < 2147483648) : toInt32 x = x := by
  unfold toInt32
  omega

theorem tok_clean {tok : Str} {x : Char} (h : ∀ c ∈ tok, c = x)
    (hx : ¬ Cpp.isdigit x = true ∧ x ≠ '*') : ∀ c ∈ tok, ¬ Cpp.isdigit c = true ∧ c ≠ '*' :=
  fun c hc => by rw [h c hc]; exact hx

theorem find_unchanged {x : Char} {format fs tok : Str} (hm : Masked (fun c => c ≠ x) format fs)
    (htok : ∀ c ∈ tok, c = x) (hx : x ≠ '*') (h : Cpp.find format tok 0 ≠ none) :
    Cpp.find fs tok 0 ≠ none := by
  rw [← find_masked tok (fun c hc => ⟨by simpa using htok c hc, by rw [htok c hc]; exact hx⟩) hm]
  exact h

/-- C1: for every canonical value `d` (year 1970..2300 and the other fields in
the ranges of the data model) and every template in which each of the eight
tokens `yyyy`, `mm`, `dd`, `hh`, `nn`, `ss`, `zzzzzz` and `zzz` occurs, with any
characters around them, `to_str` yields a text, and `from_str` of that text and
the template returns an instance whose eight fields are those of `d`. -/
theorem C1_round_trip (d : DateTime) (format : Str) (hc : Canonical d)
    (h1 : Cpp.find format tok_yyyy 0 ≠ none) (h2 : Cpp.find format tok_mm 0 ≠ none)
    (h3 : Cpp.find format tok_dd 0 ≠ none) (h4 : Cpp.find format tok_hh 0 ≠ none)
    (h5 : Cpp.find format tok_nn 0 ≠ none) (h6 : Cpp.find format tok_ss 0 ≠ none)
    (h7 : Cpp.find format tok_zzzzzz 0 ≠ none) (h8 : Cpp.find format tok_zzz 0 ≠ none) :
    ∃ text, to_str d format = some text ∧ from_str text format = .ok d := by
  obtain ⟨hy1, hy2, hmo1, hmo2, hda1, hda2, hh1, hh2, hmi1, hmi2, hs1, hs2, hms1, hms2,
    hus1, hus2⟩ := hc
  have hdl := daysInMonth_le d.year_ d.mon_
  -- the texts written for the eight tokens
  obtain ⟨l1, g1, v1⟩ := render_year d.year_ (by omega) (by omega)
  obtain ⟨l2, g2, v2⟩ := render_spec d.mon_ 1 (by omega) (by norm_num; omega) (by norm_num)
  obtain ⟨l3, g3, v3⟩ := render_spec d.day_ 1 (by omega) (by norm_num; omega) (by norm_num)
  obtain ⟨l4, g4, v4⟩ := render_spec d.hour_ 1 (by omega) (by norm_num; omega) (by norm_num)
  obtain ⟨l5, g5, v5⟩ := render_spec d.min_ 1 (by omega) (by norm_num; omega) (by norm_num)
  obtain ⟨l6, g6, v6⟩ := render_spec d.sec_ 1 (by omega) (by norm_num; omega) (by norm_num)
  have e32 : toInt32 (1000 * d.msec_ + d.usec_) = 1000 * d.msec_ + d.usec_ :=
    toInt32_small _ (by omega) (by omega)
  obtain ⟨l7, g7, v7⟩ := render_spec (1000 * d.msec_ + d.usec_) 5 (by omega)
    (by norm_num; omega) (by norm_num)
  obtain ⟨l8, g8, v8⟩ := render_spec d.msec_ 2 (by omega) (by norm_num; omega) (by norm_num)
  have c1 := tok_clean tok_yyyy_chars (by decide)
  have c2 := tok_clean tok_mm_chars (by decide)
  have c3 := tok_clean tok_dd_chars (by decide)
  have c4 := tok_clean tok_hh_chars (by decide)
  have c5 := tok_clean tok_nn_chars (by decide)
  have c6 := tok_clean tok_ss_chars (by decide)
  have c7 := tok_clean tok_zzzzzz_chars (by decide)
  have c8 := tok_clean tok_zzz_chars (by decide)
  -- the eight stages of `to_str`
  obtain ⟨o1, d1⟩ := dump_total format tok_yyyy (Cpp.to_string d.year_) (by decide)
  obtain ⟨o2, d2⟩ := dump_total o1 tok_mm (zero_fill (Cpp.to_string d.mon_) 2) (by decide)
  obtain ⟨o3, d3⟩ := dump_total o2 tok_dd (zero_fill (Cpp.to_string d.day_) 2) (by decide)
  obtain ⟨o4, d4⟩ := dump_total o3 tok_hh (zero_fill (Cpp.to_string d.hour_) 2) (by decide)
  obtain ⟨o5, d5⟩ := dump_total o4 tok_nn (zero_fill (Cpp.to_string d.min_) 2) (by decide)
  obtain ⟨o6, d6⟩ := dump_total o5 tok_ss (zero_fill (Cpp.to_string d.sec_) 2) (by decide)
  obtain ⟨o7, d7⟩ := dump_total o6 tok_zzzzzz
    (zero_fill (Cpp.to_string (1000 * d.msec_ + d.usec_)) 6) (by decide)
  obtain ⟨o8, d8⟩ := dump_total o7 tok_zzz (zero_fill (Cpp.to_string d.msec_) 3) (by decide)
  have hto : to_str d format = some o8 := by
    unfold to_str
    simp only [e32, d1, d2, d3, d4, d5, d6, d7, d8, bind, Option.bind, pure]
  refine ⟨o8, hto, ?_⟩
  -- digits written at one stage stay until the end
  have k8 : KeepsDigits o8 o8 := KeepsDigits.rfl_digits _
  have k7 : KeepsDigits o7 o8 := (dump_keepsDigits _ tok_zzz _ _ l8 c8 d8).trans k8
  have k6 : KeepsDigits o6 o8 := (dump_keepsDigits _ tok_zzzzzz _ _ l7 c7 d7).trans k7
  have k5 : KeepsDigits o5 o8 := (dump_keepsDigits _ tok_ss _ _ l6 c6 d6).trans k6
  have k4 : KeepsDigits o4 o8 := (dump_keepsDigits _ tok_nn _ _ l5 c5 d5).trans k5
  have k3 : KeepsDigits o3 o8 := (dump_keepsDigits _ tok_hh _ _ l4 c4 d4).trans k4
  have k2 : KeepsDigits o2 o8 := (dump_keepsDigits _ tok_dd _ _ l3 c3 d3).trans k3
  have k1 : KeepsDigits o1 o8 := (dump_keepsDigits _ tok_mm _ _ l2 c2 d2).trans k2
  have k0 : KeepsDigits format o8 := (dump_keepsDigits _ tok_yyyy _ _ l1 c1 d1).trans k1
  have t1 : toInt32 d.year_ = d.year_ := toInt32_small _ (by omega) (by omega)
  have t2 : toInt32 d.mon_ = d.mon_ := toInt32_small _ (by omega) (by omega)
  have t3 : toInt32 d.day_ = d.day_ := toInt32_small _ (by omega) (by omega)
  have t4 : toInt32 d.hour_ = d.hour_ := toInt32_small _ (by omega) (by omega)
  have t5 : toInt32 d.min_ = d.min_ := toInt32_small _ (by omega) (by omega)
  have t6 : toInt32 d.sec_ = d.sec_ := toInt32_small _ (by omega) (by omega)
  have t8 : toInt32 d.msec_ = d.msec_ := toInt32_small _ (by omega) (by omega)
  -- the eight calls of `parse`
  have m0 : ∀ x : Char, Masked (fun c => c ≠ x) format format := fun x => Masked.same _ _
  obtain ⟨s1, p1, M1, A1, V1⟩ := parse_dump tok_yyyy _ d.year_ 1970 2300 o8 l1 g1 c1 v1
    (by omega) (by omega) format o1 o8 format 1970 d1 (Masked.same _ _)
    (AgreesUnmasked.of_same format o8 k0.size_eq) k1
  have e1 : s1.val = d.year_ := by
    rcases V1 with h | ⟨_, h⟩
    · rw [h, t1]
    · exact absurd h h1
  have m1 : ∀ x : Char, 'y' ≠ x → Masked (fun c => c ≠ x) format s1.fmt_str :=
    fun x hx => parse_masked (chars_ne tok_yyyy_chars hx) (m0 x) p1
  obtain ⟨s2, p2, M2, A2, V2⟩ := parse_dump tok_mm _ d.mon_ 1 12 o8 l2 g2 c2 v2
    (by omega) (by omega) o1 o2 s1.dt_str s1.fmt_str 1 d2 M1 A1 k2
  have e2 : s2.val = d.mon_ := by
    rcases V2 with h | ⟨_, h⟩
    · rw [h, t2]
    · exact absurd h (find_unchanged (m1 'm' (by decide)) tok_mm_chars (by decide) h2)
  have m2 : ∀ x : Char, 'y' ≠ x → 'm' ≠ x → Masked (fun c => c ≠ x) format s2.fmt_str :=
    fun x hy hx => parse_masked (chars_ne tok_mm_chars hx) (m1 x hy) p2
  obtain ⟨s3, p3, M3, A3, V3⟩ := parse_dump tok_dd _ d.day_ 1 (daysInMonth d.year_ d.mon_) o8
    l3 g3 c3 v3 (by omega) (by omega) o2 o3 s2.dt_str s2.fmt_str 0 d3 M2 A2 k3
  have e3 : s3.val = d.day_ := by
    rcases V3 with h | ⟨_, h⟩
    · rw [h, t3]
    · exact absurd h
        (find_unchanged (m2 'd' (by decide) (by decide)) tok_dd_chars (by decide) h3)
  have m3 : ∀ x : Char, 'y' ≠ x → 'm' ≠ x → 'd' ≠ x →
      Masked (fun c => c ≠ x) format s3.fmt_str :=
    fun x hy hm hx => parse_masked (chars_ne tok_dd_chars hx) (m2 x hy hm) p3
  obtain ⟨s4, p4, M4, A4, V4⟩ := parse_dump tok_hh _ d.hour_ 0 23 o8 l4 g4 c4 v4
    (by omega) (by omega) o3 o4 s3.dt_str s3.fmt_str 0 d4 M3 A3 k4
  have e4 : s4.val = d.hour_ := by
    rcases V4 with h | ⟨_, h⟩
    · rw [h, t4]
    · exact absurd h (find_unchanged (m3 'h' (by decide) (by decide) (by decide))
        tok_hh_chars (by decide) h4)
  have m4 : ∀ x : Char, 'y' ≠ x → 'm' ≠ x → 'd' ≠ x → 'h' ≠ x →
      Masked (fun c => c ≠ x) format s4.fmt_str :=
    fun x hy hm hd hx => parse_masked (chars_ne tok_hh_chars hx) (m3 x hy hm hd) p4
  obtain ⟨s5, p5, M5, A5, V5⟩ := parse_dump tok_nn _ d.min_ 0 59 o8 l5 g5 c5 v5
    (by omega) (by omega) o4 o5 s4.dt_str s4.fmt_str 0 d5 M4 A4 k5
  have e5 : s5.val = d.min_ := by
    rcases V5 with h | ⟨_, h⟩
    · rw [h, t5]
    · exact absurd h (find_unchanged (m4 'n' (by decide) (by decide) (by decide) (by decide))
        tok_nn_chars (by decide) h5)
  have m5 : ∀ x : Char, 'y' ≠ x → 'm' ≠ x → 'd' ≠ x → 'h' ≠ x → 'n' ≠ x →
      Masked (fun c => c ≠ x) format s5.fmt_str :=
    fun x hy hm hd hh hx => parse_masked (chars_ne tok_nn_chars hx) (m4 x hy hm hd hh) p5
  obtain ⟨s6, p6, M6, A6, V6⟩ := parse_dump tok_ss _ d.sec_ 0 59 o8 l6 g6 c6 v6
    (by omega) (by omega) o5 o6 s5.dt_str s5.fmt_str 0 d6 M5 A5 k6
  have e6 : s6.val = d.sec_ := by
    rcases V6 with h | ⟨_, h⟩
    · rw [h, t6]
    · exact absurd h (find_unchanged
        (m5 's' (by decide) (by decide) (by decide) (by decide) (by decide))
        tok_ss_chars (by decide) h6)
  have m6 : ∀ x : Char, 'y' ≠ x → 'm' ≠ x → 'd' ≠ x → 'h' ≠ x → 'n' ≠ x → 's' ≠ x →
      Masked (fun c => c ≠ x) format s6.fmt_str :=
    fun x hy hm hd hh hn hx => parse_masked (chars_ne tok_ss_chars hx) (m5 x hy hm hd hh hn) p6
  obtain ⟨s7, p7, M7, A7, V7⟩ := parse_dump tok_zzzzzz _ (1000 * d.msec_ + d.usec_) 0 999999 o8
    l7 g7 c7 v7 (by omega) (by omega) o6 o7 s6.dt_str s6.fmt_str 0 d7 M6 A6 k7
  have e7 : s7.val = 1000 * d.msec_ + d.usec_ := by
    rcases V7 with h | ⟨_, h⟩
    · rw [h, e32]
    · exact absurd h (find_unchanged
        (m6 'z' (by decide) (by decide) (by decide) (by decide) (by decide) (by decide))
        tok_zzzzzz_chars (by decide) h7)
  have q7 : Int.tdiv (1000 * d.msec_ + d.usec_) 1000 = d.msec_ := by
    rw [tdiv_of_nonneg _ _ (by omega) (by norm_num)]
    omega
  have r7 : Int.tmod (1000 * d.msec_ + d.usec_) 1000 = d.usec_ := by
    rw [Int.tmod_eq_emod (by omega) (by norm_num)]
    omega
  obtain ⟨s8, p8, M8, A8, V8⟩ := parse_dump tok_zzz _ d.msec_ 0 999 o8 l8 g8 c8 v8
    (by omega) (by omega) o7 o8 s7.dt_str s7.fmt_str d.msec_ d8 M7 A7 k8
  have e8 : s8.val = d.msec_ := by
    rcases V8 with h | ⟨h, _⟩
    · rw [h, t8]
    · exact h
  have hidx := index_days_of_month_eq d.year_ d.mon_ hmo1 hmo2
  have htry : from_str_try o8 format = .ok d := by
    unfold from_str_try
    simp only [bind, Except.bind, pure, Except.pure, p1, e1, p2, e2, hidx, p3, e3, p4, e4, p5,
      e5, p6, e6, p7, e7, q7, r7, p8, e8]
  unfold from_str
  rw [htry]

/-- A witness of `C1_round_trip`: the last second but one of 2024-02-29 and a
template with the eight tokens. -/
theorem C1_round_trip_witness :
    ∃ text, to_str ⟨2024, 2, 29, 23, 59, 58, 7, 8⟩ "yyyy-mm-dd hh:nn:ss.zzzzzz (zzz)".toList
        = some text
      ∧ from_str text "yyyy-mm-dd hh:nn:ss.zzzzzz (zzz)".toList
        = .ok ⟨2024, 2, 29, 23, 59, 58, 7, 8⟩ :=
  C1_round_trip ⟨2024, 2, 29, 23, 59, 58, 7, 8⟩ "yyyy-mm-dd hh:nn:ss.zzzzzz (zzz)".toList
    (by decide) (by decide) (by decide) (by decide) (by decide) (by decide) (by decide)
    (by decide) (by decide)

end DateTime

/-! ## The 64-bit counts of the clock -/

theorem toInt64_of_range (x : Int) (h1 : -9223372036854775808 ≤ x)
    (h2 : x ≤ 9223372036854775807) : toInt64 x = x := by
  unfold toInt64
  omega

theorem toInt64_range (x : Int) :
    -9223372036854775808 ≤ toInt64 x ∧ toInt64 x ≤ 9223372036854775807 := by
  unfold toInt64
  omega

/-- Truncation to seconds is truncation to microseconds followed by truncation
to seconds. -/
theorem tdiv_nano_micro (tp : Int) :
    Int.tdiv tp 1000000000 = Int.tdiv (Int.tdiv tp 1000) 1000000 := by
  rcases lt_or_le tp 0 with h | h
  · rw [tdiv_of_neg tp 1000000000 h (by norm_num), tdiv_of_neg tp 1000 h (by norm_num)]
    rcases lt_or_le (-(-tp / 1000)) 0 with h1 | h1
    · rw [tdiv_of_neg _ 1000000 h1 (by norm_num)]
      omega
    · have h0 : -(-tp / 1000) = 0 := by omega
      rw [h0]
      have : Int.tdiv 0 1000000 = 0 := by decide
      rw [this]
      omega
  · rw [tdiv_of_nonneg tp 1000000000 h (by norm_num), tdiv_of_nonneg tp 1000 h (by norm_num),
      tdiv_of_nonneg _ 1000000 (by omega) (by norm_num)]
    omega

namespace DateTime

/-- The time point that `to_time_point()` returns is the instant of the fields
in nanoseconds, reduced to 64 bits. -/
theorem to_time_point_eq (env : Env) (d : DateTime) :
    to_time_point env d = toInt64 (1000 * instant env d) := by
  unfold to_time_point instant Cpp.from_time_t
  simp only []
  generalize env.mktime ⟨d.year_ - 1900, d.mon_ - 1, d.day_, d.hour_, d.min_, d.sec_, -1⟩ = x
  generalize env.mktime (env.localtime env.time) = y
  generalize env.mktime (Cpp.gmtime env.time) = z
  unfold toInt64
  omega

/-- The time point of a value whose instant the clock represents. -/
theorem to_time_point_of_inClockRange (env : Env) (d : DateTime)
    (h : InClockRange (instant env d)) : to_time_point env d = 1000 * instant env d := by
  rw [to_time_point_eq]
  exact toInt64_of_range _ h.1 h.2

theorem add_eq (env : Env) (a : DateTime) (n : Int) (u : DateTimeUnit) :
    add env a n u = ofTimePoint (toInt64 (to_time_point env a + 1000 * (unitLength u * n))) := by
  have e : ∀ x y : Int, toInt64 (x + toInt64 y) = toInt64 (x + y) := by
    intro x y
    unfold toInt64
    omega
  cases u <;> simp only [add, unitLength, e, reduceCtorEq, if_false, if_true] <;> congr 2 <;> omega

theorem diff_eq (env : Env) (a b : DateTime) (u : DateTimeUnit) :
    diff env a b u
      = toInt32 (Int.tdiv (toInt64 (to_time_point env a - to_time_point env b))
          (1000 * unitLength u)) := by
  cases u <;> simp [diff, unitLength]

end DateTime

namespace DateTime

/-- C9 (as stated) fails on the code: two instants half a second apart compare
with `<` while their difference in seconds is truncated to 0, and two instants
130 years apart have a difference in seconds that does not fit the `int`
result, whose sign is then wrong. -/
theorem C9_lt_iff_diff_sec_counterexample :
    ¬ (lt (Env.fixed 0 0) ⟨1970, 1, 1, 0, 0, 0, 0, 0⟩ ⟨1970, 1, 1, 0, 0, 0, 500, 0⟩ = true ↔
        diff (Env.fixed 0 0) ⟨1970, 1, 1, 0, 0, 0, 0, 0⟩ ⟨1970, 1, 1, 0, 0, 0, 500, 0⟩ .SEC < 0)
    ∧ ¬ (lt (Env.fixed 0 0) ⟨1970, 1, 1, 0, 0, 0, 0, 0⟩ ⟨2100, 1, 1, 0, 0, 0, 0, 0⟩ = true ↔
        diff (Env.fixed 0 0) ⟨1970, 1, 1, 0, 0, 0, 0, 0⟩ ⟨2100, 1, 1, 0, 0, 0, 0, 0⟩ .SEC < 0) := by
  decide

/-- C9 (amended): for two instances whose time points, as `to_time_point()`
returns them, are less than `2^31` seconds apart, `diff(a, b, SEC) < 0` holds
exactly when `a` is at least one whole second earlier than `b`; hence
`diff(a, b, SEC) < 0` implies `a < b`, and `a < b` implies
`diff(a, b, SEC) ≤ 0`. The time points are counts of nanoseconds. -/
theorem C9_lt_diff_sec (env : Env) (a b : DateTime)
    (hlo : -2147483648000000000 < to_time_point env a - to_time_point env b)
    (hhi : to_time_point env a - to_time_point env b < 2147483648000000000) :
    (diff env a b .SEC < 0 ↔ to_time_point env a + 1000000000 ≤ to_time_point env b)
    ∧ (diff env a b .SEC < 0 → lt env a b = true)
    ∧ (lt env a b = true → diff env a b .SEC ≤ 0) := by
  have hd : diff env a b .SEC
      = toInt32 (Int.tdiv (toInt64 (to_time_point env a - to_time_point env b)) 1000000000) := by
    simp [diff]
  rw [hd, toInt64_of_range _ (by omega) (by omega)]
  simp only [lt, decide_eq_true_eq]
  generalize to_time_point env a = ta at hlo hhi ⊢
  generalize to_time_point env b = tb at hlo hhi ⊢
  unfold toInt32
  rcases lt_or_le (ta - tb) 0 with hneg | hpos
  · rw [tdiv_of_neg _ _ hneg (by norm_num)]
    omega
  · rw [tdiv_of_nonneg _ _ hpos (by norm_num)]
    omega

/-- A witness of `C9_lt_diff_sec`: midnight and half a second past midnight. -/
theorem C9_lt_diff_sec_witness :
    (diff (Env.fixed 0 0) ⟨1970, 1, 1, 0, 0, 0, 0, 0⟩ ⟨1970, 1, 1, 0, 0, 2, 500, 0⟩ .SEC < 0 ↔
      to_time_point (Env.fixed 0 0) ⟨1970, 1, 1, 0, 0, 0, 0, 0⟩ + 1000000000
        ≤ to_time_point (Env.fixed 0 0) ⟨1970, 1, 1, 0, 0, 2, 500, 0⟩)
    ∧ (diff (Env.fixed 0 0) ⟨1970, 1, 1, 0, 0, 0, 0, 0⟩ ⟨1970, 1, 1, 0, 0, 2, 500, 0⟩ .SEC < 0 →
      lt (Env.fixed 0 0) ⟨1970, 1, 1, 0, 0, 0, 0, 0⟩ ⟨1970, 1, 1, 0, 0, 2, 500, 0⟩ = true)
    ∧ (lt (Env.fixed 0 0) ⟨1970, 1, 1, 0, 0, 0, 0, 0⟩ ⟨1970, 1, 1, 0, 0, 2, 500, 0⟩ = true →
      diff (Env.fixed 0 0) ⟨1970, 1, 1, 0, 0, 0, 0, 0⟩ ⟨1970, 1, 1, 0, 0, 2, 500, 0⟩ .SEC ≤ 0) :=
  C9_lt_diff_sec (Env.fixed 0 0) ⟨1970, 1, 1, 0, 0, 0, 0, 0⟩ ⟨1970, 1, 1, 0, 0, 2, 500, 0⟩
    (by decide) (by decide)

/-- C10 (as stated) fails on the code: two instants exactly `2^32` microseconds
apart are different, and their difference in microseconds is 0 as an `int`. -/
theorem C10_eq_iff_diff_usec_counterexample :
    ¬ (eq (Env.fixed 0 0) ⟨1970, 1, 1, 0, 0, 0, 0, 0⟩ ⟨1970, 1, 1, 1, 11, 34, 967, 296⟩ = true ↔
        diff (Env.fixed 0 0) ⟨1970, 1, 1, 0, 0, 0, 0, 0⟩ ⟨1970, 1, 1, 1, 11, 34, 967, 296⟩ .USEC
          = 0) := by
  decide

/-- C10 (amended): `a == b` implies `diff(a, b, USEC) == 0`, and for two
instances whose instants are less than `2^32` microseconds apart `a == b` holds
if and only if `diff(a, b, USEC) == 0`. -/
theorem C10_eq_diff_usec (env : Env) (a b : DateTime) :
    (eq env a b = true → diff env a b .USEC = 0)
    ∧ (-4294967296 < instant env a - instant env b →
        instant env a - instant env b < 4294967296 →
        (eq env a b = true ↔ diff env a b .USEC = 0)) := by
  have hd : diff env a b .USEC
      = toInt32 (Int.tdiv (toInt64 (to_time_point env a - to_time_point env b)) 1000) := by
    simp [diff]
  rw [hd]
  simp only [eq, decide_eq_true_eq]
  refine ⟨fun h => ?_, fun h1 h2 => ?_⟩
  · rw [h, sub_self]
    decide
  · rw [to_time_point_eq, to_time_point_eq]
    generalize instant env a = ia at h1 h2 ⊢
    generalize instant env b = ib at h1 h2 ⊢
    have e : toInt64 (toInt64 (1000 * ia) - toInt64 (1000 * ib)) = 1000 * (ia - ib) := by
      unfold toInt64
      omega
    have k1 : toInt64 (1000 * ia) = toInt64 (1000 * ib) ↔ ia = ib := by
      constructor
      · intro h
        rw [h, sub_self] at e
        have z : toInt64 0 = 0 := by decide
        omega
      · intro h
        rw [h]
    have k2 : toInt32 (ia - ib) = 0 ↔ ia = ib := by
      unfold toInt32
      omega
    rw [e, Int.mul_tdiv_cancel_left _ (by norm_num), k1, k2]

/-- A witness of `C10_eq_diff_usec`: second 60 of a minute and second 0 of the
next minute are the same instant. -/
theorem C10_eq_diff_usec_witness :
    diff (Env.fixed 0 0) ⟨1970, 1, 1, 0, 0, 60, 0, 0⟩ ⟨1970, 1, 1, 0, 1, 0, 0, 0⟩ .USEC = 0
    ∧ (eq (Env.fixed 0 0) ⟨1970, 1, 1, 0, 0, 60, 0, 0⟩ ⟨1970, 1, 1, 0, 1, 0, 0, 0⟩ = true ↔
        diff (Env.fixed 0 0) ⟨1970, 1, 1, 0, 0, 60, 0, 0⟩ ⟨1970, 1, 1, 0, 1, 0, 0, 0⟩ .USEC
          = 0) :=
  have H := C10_eq_diff_usec (Env.fixed 0 0) ⟨1970, 1, 1, 0, 0, 60, 0, 0⟩
    ⟨1970, 1, 1, 0, 1, 0, 0, 0⟩
  ⟨H.1 (by decide), H.2 (by decide) (by decide)⟩

end DateTime

/-! ## The decomposition of an instant -/

namespace Cpp

theorem daysInYear_ge (y : Int) : 365 ≤ daysInYear y ∧ daysInYear y ≤ 366 := by
  unfold daysInYear; split <;> omega

theorem yearLoop_range (fuel : Nat) (y d : Int) (h0 : 0 ≤ d) (hf : d < 365 * fuel) :
    0 ≤ (yearLoop fuel y d).2 ∧ (yearLoop fuel y d).2 < daysInYear (yearLoop fuel y d).1 := by
  induction fuel generalizing y d with
  | zero => omega
  | succ n ih =>
    have hy := daysInYear_ge y
    unfold yearLoop
    rw [if_neg (by omega)]
    by_cases hge : d ≥ daysInYear y
    · rw [if_pos hge]
      exact ih (y + 1) (d - daysInYear y) (by omega) (by push_cast at hf; omega)
    · rw [if_neg hge]
      exact ⟨h0, by simpa using hge⟩

theorem yearLoop_range_epoch (days : Int) (h0 : 0 ≤ days) :
    0 ≤ (yearLoop (days.natAbs / 365 + 2) 1970 days).2
    ∧ (yearLoop (days.natAbs / 365 + 2) 1970 days).2
        < daysInYear (yearLoop (days.natAbs / 365 + 2) 1970 days).1 := by
  apply yearLoop_range _ _ _ h0
  lift days to ℕ using h0
  rw [Int.natAbs_ofNat]
  push_cast
  omega

theorem monthLoop_spec (l : List Int) (m d : Int) (h0 : 0 ≤ d) (h1 : d < l.sum) :
    ∃ k : Nat, k < l.length ∧ (monthLoop l m d).1 = m + k
      ∧ 1 ≤ (monthLoop l m d).2 ∧ (monthLoop l m d).2 ≤ l.getD k 0 := by
  induction l generalizing m d with
  | nil => simp at h1; omega
  | cons len rest ih =>
    unfold monthLoop
    by_cases hlt : d < len
    · rw [if_pos hlt]
      exact ⟨0, by simp, by simp, by simp; omega, by simp; omega⟩
    · rw [if_neg hlt]
      have hs : d - len < rest.sum := by simp at h1; omega
      obtain ⟨k, hk, h2, h3, h4⟩ := ih (m + 1) (d - len) (by omega) hs
      exact ⟨k + 1, by simp; omega, by rw [h2]; push_cast; omega, h3, by simpa using h4⟩

theorem monthDays_sum (y : Int) : (monthDays y).sum = daysInYear y := by
  unfold monthDays daysInYear
  cases isLeap y <;> simp

theorem monthDays_getD (y : Int) (k : Nat) (hk : k < 12) :
    (monthDays y).getD k 0 = daysInMonth y (k + 1) := by
  unfold monthDays daysInMonth
  interval_cases k <;> cases isLeap y <;> simp

theorem monthLoop_range (y d : Int) (h0 : 0 ≤ d) (h1 : d < daysInYear y) :
    0 ≤ (monthLoop (monthDays y) 0 d).1 ∧ (monthLoop (monthDays y) 0 d).1 ≤ 11
    ∧ 1 ≤ (monthLoop (monthDays y) 0 d).2
    ∧ (monthLoop (monthDays y) 0 d).2
        ≤ daysInMonth y ((monthLoop (monthDays y) 0 d).1 + 1) := by
  obtain ⟨k, hk, h2, h3, h4⟩ := monthLoop_spec (monthDays y) 0 d h0 (by rw [monthDays_sum]; exact h1)
  have hk12 : k < 12 := by simpa [monthDays] using hk
  rw [monthDays_getD y k hk12] at h4
  rw [h2]
  refine ⟨by omega, by omega, h3, ?_⟩
  simpa using h4

end Cpp

theorem toInt32_sub_second (tp : Int) (h : 0 ≤ tp) :
    toInt32 (toInt32 (Int.tdiv tp 1000) - toInt32 (1000000 * Int.tdiv tp 1000000000))
      = tp / 1000 % 1000000 := by
  rw [tdiv_of_nonneg tp 1000 h (by norm_num), tdiv_of_nonneg tp 1000000000 h (by norm_num)]
  unfold toInt32
  omega

namespace DateTime

/-- C8: for every instant `tp` at or after the epoch (whatever the year, so in
particular before the year 2301) the value built by the `time_point`
constructor has its month in 1..12, its day in 1..days-in-month of its year and
month, its hour in 0..23, its minute and second in 0..59, and its millisecond
and microsecond in 0..999. -/
theorem C8_ofTimePoint_canonical (tp : Int) (h : 0 ≤ tp) : InRange (ofTimePoint tp) := by
  have hus := toInt32_sub_second tp h
  have htt : Int.tdiv tp 1000000000 = tp / 1000000000 :=
    tdiv_of_nonneg tp 1000000000 h (by norm_num)
  have hu0 : 0 ≤ tp / 1000 % 1000000 := Int.emod_nonneg _ (by norm_num)
  have hu1 : tp / 1000 % 1000000 < 1000000 := Int.emod_lt_of_pos _ (by norm_num)
  have hms : Int.tdiv (tp / 1000 % 1000000) 1000 = tp / 1000 % 1000000 / 1000 :=
    tdiv_of_nonneg _ 1000 hu0 (by norm_num)
  have hmu : Int.tmod (tp / 1000 % 1000000) 1000 = tp / 1000 % 1000000 % 1000 :=
    Int.tmod_eq_emod hu0 (by norm_num)
  have hdays : 0 ≤ tp / 1000000000 / 86400 := by omega
  have hy := Cpp.yearLoop_range_epoch (tp / 1000000000 / 86400) hdays
  have hm := Cpp.monthLoop_range _ _ hy.1 hy.2
  unfold InRange
  simp only [ofTimePoint, Cpp.to_time_t, Cpp.gmtime, hus, hms, hmu]
  simp only [htt]
  refine ⟨by omega, by omega, hm.2.2.1, ?_, by omega, by omega, by omega, by omega, by omega,
    by omega, by omega, by omega, by omega, by omega⟩
  have e : ∀ a : Int, a - 1900 + 1900 = a := fun a => by omega
  rw [e]
  exact hm.2.2.2

/-- A witness of `C8_ofTimePoint_canonical`: the last nanosecond of
2024-02-29. -/
theorem C8_ofTimePoint_canonical_witness :
    ofTimePoint 1709251199999999999 = ⟨2024, 2, 29, 23, 59, 59, 999, 999⟩
    ∧ InRange (ofTimePoint 1709251199999999999) :=
  ⟨by decide, C8_ofTimePoint_canonical 1709251199999999999 (by decide)⟩

end DateTime

/-! ## The calendar arithmetic of `gmtime` and `timegm` -/

namespace Cpp

theorem daysBeforeYear_succ (y : Int) :
    daysBeforeYear (y + 1) = daysBeforeYear y + daysInYear y := by
  unfold daysBeforeYear daysInYear isLeap
  by_cases h4 : y % 4 = 0 <;> by_cases h100 : y % 100 = 0 <;> by_cases h400 : y % 400 = 0 <;>
    simp [h4, h100, h400] <;> omega

theorem daysBeforeYear_mono (a b : Int) (h : a ≤ b) : daysBeforeYear a ≤ daysBeforeYear b := by
  unfold daysBeforeYear
  omega

/-- The loop of years keeps the day number and ends in the year that holds the
day, when its budget is large enough. -/
theorem yearLoop_spec (fuel : Nat) (y d : Int)
    (hf : (0 ≤ d ∧ d < 365 * fuel) ∨ (0 ≤ d ∧ d < daysInYear y ∧ 1 ≤ fuel)
      ∨ (d < 0 ∧ -d ≤ 365 * ((fuel : Int) - 1))) :
    daysBeforeYear (yearLoop fuel y d).1 + (yearLoop fuel y d).2 = daysBeforeYear y + d
    ∧ 0 ≤ (yearLoop fuel y d).2
    ∧ (yearLoop fuel y d).2 < daysInYear (yearLoop fuel y d).1 := by
  induction fuel generalizing y d with
  | zero =>
    rcases hf with h | h | h
    · omega
    · omega
    · omega
  | succ n ih =>
    have hy := daysInYear_ge y
    have hy1 := daysInYear_ge (y - 1)
    unfold yearLoop
    by_cases hneg : d < 0
    · rw [if_pos hneg]
      have hd : -d ≤ 365 * (n : Int) := by
        rcases hf with h | h | h
        · omega
        · omega
        · push_cast at h; omega
      have := ih (y - 1) (d + daysInYear (y - 1)) (by
        by_cases h0 : d + daysInYear (y - 1) < 0
        · right; right
          exact ⟨h0, by omega⟩
        · right; left
          exact ⟨by omega, by omega, by omega⟩)
      have e := daysBeforeYear_succ (y - 1)
      rw [show y - 1 + 1 = y by omega] at e
      refine ⟨by omega, this.2.1, this.2.2⟩
    · rw [if_neg hneg]
      by_cases hge : d ≥ daysInYear y
      · rw [if_pos hge]
        have hd : d < 365 * ((n : Int) + 1) := by
          rcases hf with h | h | h
          · push_cast at h; omega
          · omega
          · omega
        have := ih (y + 1) (d - daysInYear y) (Or.inl ⟨by omega, by omega⟩)
        have e := daysBeforeYear_succ y
        refine ⟨by omega, this.2.1, this.2.2⟩
      · rw [if_neg hge]
        refine ⟨rfl, ?_, ?_⟩
        · show 0 ≤ d
          omega
        · show d < daysInYear y
          omega

theorem yearLoop_gmtime (days : Int) :
    daysBeforeYear (yearLoop (days.natAbs / 365 + 2) 1970 days).1
        + (yearLoop (days.natAbs / 365 + 2) 1970 days).2 = days
    ∧ 0 ≤ (yearLoop (days.natAbs / 365 + 2) 1970 days).2
    ∧ (yearLoop (days.natAbs / 365 + 2) 1970 days).2
        < daysInYear (yearLoop (days.natAbs / 365 + 2) 1970 days).1 := by
  have h := yearLoop_spec (days.natAbs / 365 + 2) 1970 days (by
    rcases Int.natAbs_eq days with e | e
    · left
      generalize days.natAbs = n at e
      subst e
      push_cast
      omega
    · by_cases h0 : days = 0
      · left
        subst h0
        simp
      · right; right
        generalize days.natAbs = n at e
        subst e
        push_cast
        omega)
  have e0 : daysBeforeYear 1970 = 0 := by decide
  rw [e0, zero_add] at h
  exact h

/-- The loop of months keeps the day number. -/
theorem monthLoop_sum (l : List Int) (m d : Int) (h0 : 0 ≤ d) (h1 : d < l.sum) :
    ∃ k : Nat, k < l.length ∧ (monthLoop l m d).1 = m + k
      ∧ 1 ≤ (monthLoop l m d).2 ∧ (monthLoop l m d).2 ≤ l.getD k 0
      ∧ (l.take k).sum + ((monthLoop l m d).2 - 1) = d := by
  induction l generalizing m d with
  | nil => simp at h1; omega
  | cons len rest ih =>
    unfold monthLoop
    by_cases hlt : d < len
    · rw [if_pos hlt]
      exact ⟨0, by simp, by simp, by simp; omega, by simp; omega, by simp⟩
    · rw [if_neg hlt]
      have hs : d - len < rest.sum := by simp at h1; omega
      obtain ⟨k, hk, h2, h3, h4, h5⟩ := ih (m + 1) (d - len) (by omega) hs
      refine ⟨k + 1, by simp; omega, by rw [h2]; push_cast; omega, h3, by simpa using h4, ?_⟩
      simp only [List.take_succ_cons, List.sum_cons]
      omega

/-- What `timegm` computes from fields whose month is in 0..11. -/
theorem timegm_eq (tm : Tm) (k : Nat) (hk : tm.tm_mon = k) (hk12 : k < 12) :
    timegm tm = 86400 * (daysBeforeYear (tm.tm_year + 1900)
        + ((monthDays (tm.tm_year + 1900)).take k).sum + (tm.tm_mday - 1))
      + 3600 * tm.tm_hour + 60 * tm.tm_min + tm.tm_sec := by
  unfold timegm
  have h1 : tm.tm_mon / 12 = 0 := by omega
  have h2 : (tm.tm_mon % 12).toNat = k := by omega
  simp only [h1, h2, add_zero]

/-- The fields of `gmtime` are in their ranges, and `timegm` gives the count of
seconds back. -/
theorem gmtime_spec (t : Int) :
    0 ≤ (gmtime t).tm_mon ∧ (gmtime t).tm_mon ≤ 11
    ∧ 1 ≤ (gmtime t).tm_mday
    ∧ (gmtime t).tm_mday ≤ daysInMonth ((gmtime t).tm_year + 1900) ((gmtime t).tm_mon + 1)
    ∧ 0 ≤ (gmtime t).tm_hour ∧ (gmtime t).tm_hour ≤ 23
    ∧ 0 ≤ (gmtime t).tm_min ∧ (gmtime t).tm_min ≤ 59
    ∧ 0 ≤ (gmtime t).tm_sec ∧ (gmtime t).tm_sec ≤ 59
    ∧ timegm (gmtime t) = t := by
  have hy := yearLoop_gmtime (t / 86400)
  generalize hyd : yearLoop ((t / 86400).natAbs / 365 + 2) 1970 (t / 86400) = yd at hy
  obtain ⟨k, hk, h2, h3, h4, h5⟩ := monthLoop_sum (monthDays yd.1) 0 yd.2 hy.2.1
    (by rw [monthDays_sum]; exact hy.2.2)
  have hk12 : k < 12 := by simpa [monthDays] using hk
  rw [monthDays_getD yd.1 k hk12] at h4
  have hmon : (gmtime t).tm_mon = k := by
    simp only [gmtime, hyd, h2]
    omega
  have hyear : (gmtime t).tm_year + 1900 = yd.1 := by
    simp only [gmtime, hyd]
    omega
  have hday : (gmtime t).tm_mday = (monthLoop (monthDays yd.1) 0 yd.2).2 := by
    simp only [gmtime, hyd]
  have hh : (gmtime t).tm_hour = t % 86400 / 3600 := by simp only [gmtime]
  have hmi : (gmtime t).tm_min = t % 86400 % 3600 / 60 := by simp only [gmtime]
  have hs : (gmtime t).tm_sec = t % 86400 % 60 := by simp only [gmtime]
  have htg := timegm_eq (gmtime t) k hmon hk12
  rw [hyear, hday, hh, hmi, hs] at htg
  rw [hmon, hyear, hday, hh, hmi, hs]
  refine ⟨by omega, by omega, h3, h4, by omega, by omega, by omega, by omega, by omega,
    by omega, ?_⟩
  rw [htg]
  omega

end Cpp
/-! ## The instant of a value in a zone of constant offset -/

namespace DateTime

/-- In a zone of constant offset the correction of `to_time_point` cancels the
offset: the fields are read as UTC. -/
theorem instant_fixed (offset now : Int) (d : DateTime) :
    instant (Env.fixed offset now) d
      = 1000000 * Cpp.timegm ⟨d.year_ - 1900, d.mon_ - 1, d.day_, d.hour_, d.min_, d.sec_, -1⟩
        + 1000 * d.msec_ + d.usec_ := by
  have h1 := (Cpp.gmtime_spec (now + offset)).2.2.2.2.2.2.2.2.2.2
  have h2 := (Cpp.gmtime_spec now).2.2.2.2.2.2.2.2.2.2
  simp only [instant, Env.fixed, h1, h2]
  omega

theorem timegm_isdst (y mo d h mi s i j : Int) :
    Cpp.timegm ⟨y, mo, d, h, mi, s, i⟩ = Cpp.timegm ⟨y, mo, d, h, mi, s, j⟩ := rfl

/-- The sub-second count of the `time_point` constructor, computed with `int`
variables from a count `us` of microseconds, is the exact remainder of the
truncating division by one second. -/
theorem sub_second_exact (us : Int) :
    toInt32 (toInt32 us - toInt32 (1000000 * Int.tdiv us 1000000))
      = us - 1000000 * Int.tdiv us 1000000 := by
  rcases lt_or_le us 0 with h | h
  · rw [tdiv_of_neg us 1000000 h (by norm_num)]
    unfold toInt32
    omega
  · rw [tdiv_of_nonneg us 1000000 h (by norm_num)]
    unfold toInt32
    omega

/-- The fields that the `time_point` constructor builds, in terms of the count
of whole microseconds of the time point. -/
theorem ofTimePoint_fields (tp : Int) :
    ofTimePoint tp
      = ⟨(Cpp.gmtime (Int.tdiv (Int.tdiv tp 1000) 1000000)).tm_year + 1900,
         (Cpp.gmtime (Int.tdiv (Int.tdiv tp 1000) 1000000)).tm_mon + 1,
         (Cpp.gmtime (Int.tdiv (Int.tdiv tp 1000) 1000000)).tm_mday,
         (Cpp.gmtime (Int.tdiv (Int.tdiv tp 1000) 1000000)).tm_hour,
         (Cpp.gmtime (Int.tdiv (Int.tdiv tp 1000) 1000000)).tm_min,
         (Cpp.gmtime (Int.tdiv (Int.tdiv tp 1000) 1000000)).tm_sec,
         Int.tdiv (Int.tdiv tp 1000 - 1000000 * Int.tdiv (Int.tdiv tp 1000) 1000000) 1000,
         Int.tmod (Int.tdiv tp 1000 - 1000000 * Int.tdiv (Int.tdiv tp 1000) 1000000) 1000⟩ := by
  have hs := sub_second_exact (Int.tdiv tp 1000)
  rw [← tdiv_nano_micro] at hs ⊢
  simp only [ofTimePoint, Cpp.to_time_t, hs]

/-- In a zone of constant offset, the instant of the value that the
`time_point` constructor builds from a time point is the count of whole
microseconds of that time point. -/
theorem instant_ofTimePoint (offset now tp : Int) :
    instant (Env.fixed offset now) (ofTimePoint tp) = Int.tdiv tp 1000 := by
  rw [instant_fixed, ofTimePoint_fields]
  generalize Int.tdiv tp 1000 = us
  have hg := (Cpp.gmtime_spec (Int.tdiv us 1000000)).2.2.2.2.2.2.2.2.2.2
  have hdm := Int.tdiv_add_tmod (us - 1000000 * Int.tdiv us 1000000) 1000
  simp only []
  have e1 : ∀ a : Int, a + 1900 - 1900 = a := fun a => by omega
  have e2 : ∀ a : Int, a + 1 - 1 = a := fun a => by omega
  rw [e1, e2, timegm_isdst _ _ _ _ _ _ (-1) (Cpp.gmtime (Int.tdiv us 1000000)).tm_isdst, hg]
  omega

end DateTime

/-! ## The order of instants and the order of fields -/

namespace Cpp

theorem sum_take_succ_getD (l : List Int) (k : Nat) (hk : k < l.length) :
    (l.take (k + 1)).sum = (l.take k).sum + l.getD k 0 := by
  induction l generalizing k with
  | nil => simp at hk
  | cons a l ih =>
    cases k with
    | zero => simp
    | succ k =>
      have := ih k (by simpa using hk)
      simp only [List.take_succ_cons, List.sum_cons, List.getD_cons_succ] at this ⊢
      omega

theorem sum_take_mono (l : List Int) (hpos : ∀ x ∈ l, 0 ≤ x) (k j : Nat) (h : k ≤ j) :
    (l.take k).sum ≤ (l.take j).sum := by
  induction l generalizing k j with
  | nil => simp
  | cons a l ih =>
    cases k with
    | zero =>
      simp only [List.take_zero, List.sum_nil]
      exact List.sum_nonneg (fun x hx => hpos x (List.mem_of_mem_take hx))
    | succ k =>
      cases j with
      | zero => omega
      | succ j =>
        have := ih (fun x hx => hpos x (by simp [hx])) k j (by omega)
        simp only [List.take_succ_cons, List.sum_cons]
        omega

theorem monthDays_nonneg (y : Int) : ∀ x ∈ monthDays y, 0 ≤ x := by
  unfold monthDays
  cases isLeap y <;> simp

theorem monthDays_length (y : Int) : (monthDays y).length = 12 := by
  simp [monthDays]

/-- The day of the year of a day of a month lies within the year. -/
theorem dayOfYear_range (y : Int) (k : Nat) (d : Int) (hk : k < 12) (hd1 : 1 ≤ d)
    (hd2 : d ≤ daysInMonth y (k + 1)) :
    0 ≤ ((monthDays y).take k).sum + (d - 1)
    ∧ ((monthDays y).take k).sum + (d - 1) < ((monthDays y).take (k + 1)).sum
    ∧ ((monthDays y).take (k + 1)).sum ≤ daysInYear y := by
  have h0 := sum_take_mono (monthDays y) (monthDays_nonneg y) 0 k (by omega)
  have h1 := sum_take_succ_getD (monthDays y) k (by rw [monthDays_length]; exact hk)
  rw [monthDays_getD y k hk] at h1
  have h2 := sum_take_mono (monthDays y) (monthDays_nonneg y) (k + 1) 12 (by omega)
  have h3 : ((monthDays y).take 12).sum = daysInYear y := by
    rw [List.take_of_length_le (by rw [monthDays_length]), monthDays_sum]
  simp only [List.take_zero, List.sum_nil] at h0
  omega

/-- The number of the day since the epoch grows with the date. -/
theorem dayNumber_lt (y1 y2 : Int) (k1 k2 : Nat) (d1 d2 : Int)
    (hk1 : k1 < 12) (hk2 : k2 < 12)
    (ha1 : 1 ≤ d1) (ha2 : d1 ≤ daysInMonth y1 (k1 + 1))
    (hb1 : 1 ≤ d2) (hb2 : d2 ≤ daysInMonth y2 (k2 + 1))
    (h : y1 < y2 ∨ (y1 = y2 ∧ (k1 < k2 ∨ (k1 = k2 ∧ d1 < d2)))) :
    daysBeforeYear y1 + ((monthDays y1).take k1).sum + (d1 - 1)
      < daysBeforeYear y2 + ((monthDays y2).take k2).sum + (d2 - 1) := by
  have r1 := dayOfYear_range y1 k1 d1 hk1 ha1 ha2
  have r2 := dayOfYear_range y2 k2 d2 hk2 hb1 hb2
  rcases h with h | ⟨rfl, h | ⟨rfl, h⟩⟩
  · have hs := daysBeforeYear_succ y1
    have hm := daysBeforeYear_mono (y1 + 1) y2 (by omega)
    omega
  · have hm := sum_take_mono (monthDays y1) (monthDays_nonneg y1) (k1 + 1) k2 (by omega)
    omega
  · omega

end Cpp

namespace DateTime

/-- The instant of a value whose month is in 1..12, in a zone of constant
offset. -/
theorem instant_fixed_month (offset now : Int) (d : DateTime) (k : Nat)
    (hk : d.mon_ = k + 1) (hk12 : k < 12) :
    instant (Env.fixed offset now) d
      = 1000000 * (86400 * (Cpp.daysBeforeYear d.year_ + ((Cpp.monthDays d.year_).take k).sum
          + (d.day_ - 1)) + 3600 * d.hour_ + 60 * d.min_ + d.sec_)
        + 1000 * d.msec_ + d.usec_ := by
  rw [instant_fixed, Cpp.timegm_eq _ k (by simp only []; omega) hk12]
  have e : d.year_ - 1900 + 1900 = d.year_ := by omega
  simp only [e]

/-- In a zone of constant offset, the instants of two values with fields in
their ranges are in the lexicographic order of the fields. -/
theorem instant_lt (offset now : Int) (a b : DateTime) (ha : InRange a) (hb : InRange b)
    (h : lexLt a b) :
    instant (Env.fixed offset now) a < instant (Env.fixed offset now) b := by
  obtain ⟨am1, am2, ad1, ad2, ah1, ah2, ami1, ami2, as1, as2, ams1, ams2, aus1, aus2⟩ := ha
  obtain ⟨bm1, bm2, bd1, bd2, bh1, bh2, bmi1, bmi2, bs1, bs2, bms1, bms2, bus1, bus2⟩ := hb
  obtain ⟨k1, hk1⟩ : ∃ k : Nat, a.mon_ = k + 1 := ⟨(a.mon_ - 1).toNat, by omega⟩
  obtain ⟨k2, hk2⟩ : ∃ k : Nat, b.mon_ = k + 1 := ⟨(b.mon_ - 1).toNat, by omega⟩
  rw [instant_fixed_month offset now a k1 hk1 (by omega),
    instant_fixed_month offset now b k2 hk2 (by omega)]
  rw [hk1] at ad2
  rw [hk2] at bd2
  unfold lexLt at h
  by_cases hdate : a.year_ < b.year_ ∨ (a.year_ = b.year_ ∧ (k1 < k2 ∨ (k1 = k2 ∧ a.day_ < b.day_)))
  · have := Cpp.dayNumber_lt a.year_ b.year_ k1 k2 a.day_ b.day_ (by omega) (by omega)
      ad1 ad2 bd1 bd2 hdate
    omega
  · have hy : a.year_ = b.year_ := by omega
    have hk : k1 = k2 := by omega
    have hd : a.day_ = b.day_ := by omega
    rw [hy, hk, hd]
    omega

theorem lexLt_trichotomy (a b : DateTime) : lexLt a b ∨ a = b ∨ lexLt b a := by
  obtain ⟨a1, a2, a3, a4, a5, a6, a7, a8⟩ := a
  obtain ⟨b1, b2, b3, b4, b5, b6, b7, b8⟩ := b
  simp only [lexLt, DateTime.mk.injEq]
  omega

/-- In a zone of constant offset, two values with fields in their ranges and
the same instant are the same value. -/
theorem instant_injective (offset now : Int) (a b : DateTime) (ha : InRange a)
    (hb : InRange b)
    (h : instant (Env.fixed offset now) a = instant (Env.fixed offset now) b) :
    a = b := by
  rcases lexLt_trichotomy a b with h1 | h1 | h1
  · have := instant_lt offset now a b ha hb h1
    omega
  · exact h1
  · have := instant_lt offset now b a hb ha h1
    omega

/-- The fields that the `time_point` constructor builds from a time point at or
after the epoch are in their ranges. -/
theorem ofTimePoint_inRange (tp : Int) (h : 0 ≤ tp) : InRange (ofTimePoint tp) := by
  rw [ofTimePoint_fields]
  have h0 : 0 ≤ Int.tdiv tp 1000 := by
    rw [tdiv_of_nonneg tp 1000 h (by norm_num)]
    omega
  generalize Int.tdiv tp 1000 = us at h0
  have hg := Cpp.gmtime_spec (Int.tdiv us 1000000)
  have htt : Int.tdiv us 1000000 = us / 1000000 := tdiv_of_nonneg us 1000000 h0 (by norm_num)
  have hu : 0 ≤ us - 1000000 * Int.tdiv us 1000000
      ∧ us - 1000000 * Int.tdiv us 1000000 < 1000000 := by
    rw [htt]; omega
  have hms := tdiv_of_nonneg (us - 1000000 * Int.tdiv us 1000000) 1000 hu.1 (by norm_num)
  have hmu : Int.tmod (us - 1000000 * Int.tdiv us 1000000) 1000
      = (us - 1000000 * Int.tdiv us 1000000) % 1000 := Int.tmod_eq_emod hu.1 (by norm_num)
  unfold InRange
  simp only [hms, hmu]
  obtain ⟨g1, g2, g3, g4, g5, g6, g7, g8, g9, g10, -⟩ := hg
  exact ⟨by omega, by omega, g3, g4, g5, g6, g7, g8, g9, g10, by omega, by omega, by omega,
    by omega⟩

/-- The instant of a canonical value is not before the epoch, in a zone of
constant offset. -/
theorem instant_nonneg (offset now : Int) (d : DateTime) (hc : Canonical d) :
    0 ≤ instant (Env.fixed offset now) d := by
  obtain ⟨hy1, hy2, m1, m2, d1, d2, h1, h2, mi1, mi2, s1, s2, ms1, ms2, us1, us2⟩ := hc
  obtain ⟨k, hk⟩ : ∃ k : Nat, d.mon_ = k + 1 := ⟨(d.mon_ - 1).toNat, by omega⟩
  rw [instant_fixed_month offset now d k hk (by omega)]
  rw [hk] at d2
  have r := Cpp.dayOfYear_range d.year_ k d.day_ (by omega) d1 d2
  have hm := Cpp.daysBeforeYear_mono 1970 d.year_ hy1
  have e0 : Cpp.daysBeforeYear 1970 = 0 := by decide
  omega

/-- The instant of a value that is not later than the last one of the clock, in
a zone of constant offset. -/
theorem instant_le_last (offset now : Int) (d : DateTime) (hr : InRange d)
    (hle : ¬ lexLt lastOfClock d) :
    instant (Env.fixed offset now) d ≤ 9223372036854775 := by
  have hl : instant (Env.fixed offset now) lastOfClock = 9223372036854775 := by
    rw [instant_fixed]
    decide
  rcases lexLt_trichotomy d lastOfClock with h | h | h
  · have := instant_lt offset now d lastOfClock hr (by decide) h
    omega
  · rw [h, hl]
  · exact absurd h hle

/-- The clock represents the instant of a canonical value that is not later
than its last one, in a zone of constant offset. -/
theorem inClockRange_of_le_last (offset now : Int) (d : DateTime) (hc : Canonical d)
    (hle : ¬ lexLt lastOfClock d) : InClockRange (instant (Env.fixed offset now) d) := by
  have h0 := instant_nonneg offset now d hc
  have h1 := instant_le_last offset now d hc.2.2 hle
  unfold InClockRange
  omega

/-- In a zone of constant offset, the `time_point` constructor gives back a
canonical value whose instant the clock represents from its time point. -/
theorem ofTimePoint_to_time_point (offset now : Int) (d : DateTime) (hc : Canonical d)
    (hr : InClockRange (instant (Env.fixed offset now) d)) :
    ofTimePoint (to_time_point (Env.fixed offset now) d) = d := by
  have h0 := instant_nonneg offset now d hc
  rw [to_time_point_of_inClockRange _ _ hr]
  refine instant_injective offset now _ d (ofTimePoint_inRange _ (by omega)) hc.2.2 ?_
  rw [instant_ofTimePoint, Int.mul_tdiv_cancel_left _ (by norm_num)]

end DateTime

/-! ## Arithmetic and comparison -/

namespace DateTime

/-- In a zone of constant offset, `add` moves the instant by the amount when
the clock represents the instant before and after. -/
theorem instant_add (offset now : Int) (a : DateTime) (n : Int) (u : DateTimeUnit)
    (ha : InClockRange (instant (Env.fixed offset now) a))
    (hb : InClockRange (instant (Env.fixed offset now) a + n * unitLength u)) :
    instant (Env.fixed offset now) (add (Env.fixed offset now) a n u)
      = instant (Env.fixed offset now) a + n * unitLength u := by
  rw [add_eq, instant_ofTimePoint, to_time_point_of_inClockRange _ _ ha]
  have e : 1000 * instant (Env.fixed offset now) a + 1000 * (unitLength u * n)
      = 1000 * (instant (Env.fixed offset now) a + n * unitLength u) := by ring
  rw [e, toInt64_of_range _ hb.1 hb.2, Int.mul_tdiv_cancel_left _ (by norm_num)]

/-- The difference of two time points in 64-bit nanoseconds, when the instants
are less than `2^63` nanoseconds apart. -/
theorem to_time_point_sub (env : Env) (a b : DateTime)
    (hd : InClockRange (instant env a - instant env b)) :
    toInt64 (to_time_point env a - to_time_point env b)
      = 1000 * (instant env a - instant env b) := by
  rw [to_time_point_eq, to_time_point_eq]
  obtain ⟨h1, h2⟩ := hd
  generalize instant env a = ia at h1 h2 ⊢
  generalize instant env b = ib at h1 h2 ⊢
  unfold toInt64
  omega

theorem tdiv_mul_left_thousand (x n : Int) (hn : 0 < n) :
    Int.tdiv (1000 * x) (1000 * n) = Int.tdiv x n := by
  rcases lt_or_le x 0 with h | h
  · rw [tdiv_of_neg _ _ (by omega) (by omega), tdiv_of_neg _ _ h hn]
    have : -(1000 * x) = 1000 * (-x) := by ring
    rw [this, Int.mul_ediv_mul_of_pos _ _ (by norm_num)]
  · rw [tdiv_of_nonneg _ _ (by omega) (by omega), tdiv_of_nonneg _ _ h hn,
      Int.mul_ediv_mul_of_pos _ _ (by norm_num)]

set_option maxRecDepth 100000 in
/-- C11 (as stated) fails on the code in two ways. In a zone whose clocks were
one hour ahead of UTC until 2000-01-01T00:00:00Z and are on UTC since, at a
moment after the change, adding one hour to noon of 1990-06-15 and subtracting
it again gives a value that `==` tells apart from the first one. In a zone of
constant offset, -3 000 000 hours in nanoseconds do not fit the 64-bit count of
the clock: subtracting them from 2000-01-01 00:00:00 and adding them again
gives 1999-12-31 23:59:59.999999. -/
theorem C11_add_inverse_counterexample :
    eq (Env.shifted 3600 0 946684800 1700000000)
      (add (Env.shifted 3600 0 946684800 1700000000)
        (add (Env.shifted 3600 0 946684800 1700000000) ⟨1990, 6, 15, 12, 0, 0, 0, 0⟩ 1 .HOUR)
        (-1) .HOUR)
      ⟨1990, 6, 15, 12, 0, 0, 0, 0⟩ = false
    ∧ add (Env.fixed 0 0) (add (Env.fixed 0 0) ⟨2000, 1, 1, 0, 0, 0, 0, 0⟩ (-3000000) .HOUR)
        (- -3000000) .HOUR = ⟨1999, 12, 31, 23, 59, 59, 999, 999⟩
    ∧ eq (Env.fixed 0 0)
        (add (Env.fixed 0 0) (add (Env.fixed 0 0) ⟨2000, 1, 1, 0, 0, 0, 0, 0⟩ (-3000000) .HOUR)
          (- -3000000) .HOUR)
        ⟨2000, 1, 1, 0, 0, 0, 0, 0⟩ = false := by
  decide

/-- C11 (amended): in a zone of constant offset from UTC, for every instance
`a`, canonical or not, and every integer `n` such that the clock represents the
instant of `a` and that instant plus `n` hours (the count of nanoseconds fits
64 bits), `add(add(a, n, HOUR), -n, HOUR) == a` under the operator `==`. -/
theorem C11_add_inverse (offset now : Int) (a : DateTime) (n : Int)
    (ha : InClockRange (instant (Env.fixed offset now) a))
    (hb : InClockRange (instant (Env.fixed offset now) a + n * unitLength .HOUR)) :
    eq (Env.fixed offset now)
      (add (Env.fixed offset now) (add (Env.fixed offset now) a n .HOUR) (-n) .HOUR) a
      = true := by
  have h1 := instant_add offset now a n .HOUR ha hb
  have hb1 : InClockRange (instant (Env.fixed offset now) (add (Env.fixed offset now) a n .HOUR)) := by
    rw [h1]; exact hb
  have e : instant (Env.fixed offset now) (add (Env.fixed offset now) a n .HOUR)
      + -n * unitLength .HOUR = instant (Env.fixed offset now) a := by
    rw [h1]; ring
  have h2 := instant_add offset now (add (Env.fixed offset now) a n .HOUR) (-n) .HOUR hb1
    (by rw [e]; exact ha)
  rw [e] at h2
  simp only [eq, decide_eq_true_eq]
  rw [to_time_point_of_inClockRange _ _ (by rw [h2]; exact ha),
    to_time_point_of_inClockRange _ _ ha, h2]

/-- A witness of `C11_add_inverse`: 2 000 000 hours, more than 228 years, added
to noon of 2024-02-29 in a zone nine hours ahead of UTC. -/
theorem C11_add_inverse_witness :
    eq (Env.fixed 32400 1700000000)
      (add (Env.fixed 32400 1700000000)
        (add (Env.fixed 32400 1700000000) ⟨2024, 2, 29, 12, 0, 0, 0, 0⟩ 2000000 .HOUR)
        (-2000000) .HOUR)
      ⟨2024, 2, 29, 12, 0, 0, 0, 0⟩ = true :=
  C11_add_inverse 32400 1700000000 ⟨2024, 2, 29, 12, 0, 0, 0, 0⟩ 2000000
    (by rw [instant_fixed]; decide) (by rw [instant_fixed]; decide)

set_option maxRecDepth 100000 in
/-- C12 (as stated) fails on the code in two ways. In a zone whose clocks were
one hour ahead of UTC until 2000-01-01T00:00:00Z and are on UTC since, at a
moment after the change, adding one hour to noon of 1990-06-15 leaves the
instant where it was. In a zone of constant offset, 3 000 000 hours in
nanoseconds do not fit the 64-bit count of the clock: adding them to
2000-01-01 00:00:00 gives a value of the year 1757. -/
theorem C12_add_shifts_counterexample :
    instant (Env.shifted 3600 0 946684800 1700000000)
      (add (Env.shifted 3600 0 946684800 1700000000) ⟨1990, 6, 15, 12, 0, 0, 0, 0⟩ 1 .HOUR)
    ≠ instant (Env.shifted 3600 0 946684800 1700000000) ⟨1990, 6, 15, 12, 0, 0, 0, 0⟩
      + 1 * unitLength .HOUR
    ∧ add (Env.fixed 0 0) ⟨2000, 1, 1, 0, 0, 0, 0, 0⟩ 3000000 .HOUR
        = ⟨1757, 9, 7, 0, 25, 27, -709, -551⟩
    ∧ instant (Env.fixed 0 0) (add (Env.fixed 0 0) ⟨2000, 1, 1, 0, 0, 0, 0, 0⟩ 3000000 .HOUR)
      ≠ instant (Env.fixed 0 0) ⟨2000, 1, 1, 0, 0, 0, 0, 0⟩ + 3000000 * unitLength .HOUR := by
  decide

/-- C12 (amended): in a zone of constant offset from UTC, for every instance
`a`, every signed amount `n` and every unit `u` such that the clock represents
the instant of `a` and that instant plus `n` times the length of `u` (the count
of nanoseconds fits 64 bits), the instant of `add(a, n, u)` is the instant of
`a` plus `n` times the length of `u` (3 600 000 000, 60 000 000, 1 000 000,
1000 or 1 microseconds), and so is the time point that `to_time_point()`
returns for it, in nanoseconds; a negative `n` subtracts. -/
theorem C12_add_shifts (offset now : Int) (a : DateTime) (n : Int) (u : DateTimeUnit)
    (ha : InClockRange (instant (Env.fixed offset now) a))
    (hb : InClockRange (instant (Env.fixed offset now) a + n * unitLength u)) :
    instant (Env.fixed offset now) (add (Env.fixed offset now) a n u)
      = instant (Env.fixed offset now) a + n * unitLength u
    ∧ to_time_point (Env.fixed offset now) (add (Env.fixed offset now) a n u)
      = to_time_point (Env.fixed offset now) a + 1000 * (n * unitLength u)
    ∧ unitLength .HOUR = 3600000000 ∧ unitLength .MIN = 60000000
    ∧ unitLength .SEC = 1000000 ∧ unitLength .MSEC = 1000 ∧ unitLength .USEC = 1 := by
  have h1 := instant_add offset now a n u ha hb
  refine ⟨h1, ?_, rfl, rfl, rfl, rfl, rfl⟩
  rw [to_time_point_of_inClockRange _ _ (by rw [h1]; exact hb),
    to_time_point_of_inClockRange _ _ ha, h1]
  ring

/-- A witness of `C12_add_shifts`: 90 minutes subtracted from 00:30 of
2024-03-01 in a zone one hour behind UTC. -/
theorem C12_add_shifts_witness :
    add (Env.fixed (-3600) 1700000000) ⟨2024, 3, 1, 0, 30, 0, 0, 0⟩ (-90) .MIN
      = ⟨2024, 2, 29, 23, 0, 0, 0, 0⟩
    ∧ instant (Env.fixed (-3600) 1700000000)
        (add (Env.fixed (-3600) 1700000000) ⟨2024, 3, 1, 0, 30, 0, 0, 0⟩ (-90) .MIN)
      = instant (Env.fixed (-3600) 1700000000) ⟨2024, 3, 1, 0, 30, 0, 0, 0⟩
        + -90 * unitLength .MIN :=
  ⟨by decide,
    (C12_add_shifts (-3600) 1700000000 ⟨2024, 3, 1, 0, 30, 0, 0, 0⟩ (-90) .MIN
      (by rw [instant_fixed]; decide) (by rw [instant_fixed]; decide)).1⟩

set_option maxRecDepth 100000 in
/-- C13 (as stated) fails on the code: the instants of 2300-01-01 and
1970-01-01 are 2 892 720 hours apart, which fits an `int`, and `diff` in hours
returns -2 231 375, because the count of nanoseconds of the year 2300 does not
fit the 64-bit count of the clock. -/
theorem C13_diff_truncated_counterexample :
    Int.tdiv (instant (Env.fixed 0 0) ⟨2300, 1, 1, 0, 0, 0, 0, 0⟩
      - instant (Env.fixed 0 0) ⟨1970, 1, 1, 0, 0, 0, 0, 0⟩) (unitLength .HOUR) = 2892720
    ∧ diff (Env.fixed 0 0) ⟨2300, 1, 1, 0, 0, 0, 0, 0⟩ ⟨1970, 1, 1, 0, 0, 0, 0, 0⟩ .HOUR
      = -2231375 := by
  decide

/-- C13 (amended): for every `lhs` and `rhs` whose instants are less than
`2^63` nanoseconds (about 292 years) apart and every unit `u`,
`diff(lhs, rhs, u)` is the difference of the two instants divided by the length
of `u` and truncated toward zero (the quotient rounded down for a difference
that is not negative, and the negated quotient of the negated difference for a
negative one), converted to the `int` that is returned; when the truncated
quotient is in the range of `int` it is the value returned. -/
theorem C13_diff_truncated (env : Env) (lhs rhs : DateTime) (u : DateTimeUnit)
    (hd : InClockRange (instant env lhs - instant env rhs)) :
    diff env lhs rhs u
      = toInt32 (Int.tdiv (instant env lhs - instant env rhs) (unitLength u))
    ∧ (0 ≤ instant env lhs - instant env rhs →
        Int.tdiv (instant env lhs - instant env rhs) (unitLength u)
          = (instant env lhs - instant env rhs) / unitLength u)
    ∧ (instant env lhs - instant env rhs < 0 →
        Int.tdiv (instant env lhs - instant env rhs) (unitLength u)
          = -((-(instant env lhs - instant env rhs)) / unitLength u))
    ∧ (-2147483648 ≤ Int.tdiv (instant env lhs - instant env rhs) (unitLength u) →
        Int.tdiv (instant env lhs - instant env rhs) (unitLength u) ≤ 2147483647 →
        diff env lhs rhs u
          = Int.tdiv (instant env lhs - instant env rhs) (unitLength u)) := by
  have hpos : 0 < unitLength u := by cases u <;> decide
  have hdiff : diff env lhs rhs u
      = toInt32 (Int.tdiv (instant env lhs - instant env rhs) (unitLength u)) := by
    rw [diff_eq, to_time_point_sub env lhs rhs hd, tdiv_mul_left_thousand _ _ hpos]
  refine ⟨hdiff, fun h => tdiv_of_nonneg _ _ h hpos,
    fun h => tdiv_of_neg _ _ h hpos, fun h1 h2 => ?_⟩
  rw [hdiff]
  exact toInt32_small _ h1 (by omega)

/-- A witness of `C13_diff_truncated`: a difference of -1500 milliseconds gives
-1 in seconds. -/
theorem C13_diff_truncated_witness :
    instant (Env.fixed 0 0) ⟨1970, 1, 1, 0, 0, 0, 0, 0⟩
        - instant (Env.fixed 0 0) ⟨1970, 1, 1, 0, 0, 1, 500, 0⟩ = -1500000
    ∧ Int.tdiv (-1500000) 1000000 = -1
    ∧ diff (Env.fixed 0 0) ⟨1970, 1, 1, 0, 0, 0, 0, 0⟩ ⟨1970, 1, 1, 0, 0, 1, 500, 0⟩ .SEC
        = Int.tdiv (instant (Env.fixed 0 0) ⟨1970, 1, 1, 0, 0, 0, 0, 0⟩
            - instant (Env.fixed 0 0) ⟨1970, 1, 1, 0, 0, 1, 500, 0⟩) (unitLength .SEC) :=
  ⟨by decide, by decide,
   (C13_diff_truncated (Env.fixed 0 0) ⟨1970, 1, 1, 0, 0, 0, 0, 0⟩
      ⟨1970, 1, 1, 0, 0, 1, 500, 0⟩ .SEC (by decide)).2.2.2 (by decide) (by decide)⟩

/-- C17: for every time point `tp` at or after the epoch, a count of
nanoseconds, the remainder that the `time_point` constructor computes from the
count of microseconds and the count of seconds, each narrowed to `int`
(arithmetic modulo `2^32`), is the count of microseconds modulo 1 000 000; its
quotient and remainder by 1000 are the millisecond and the microsecond of the
value, so that 1000 times the millisecond plus the microsecond is that
sub-second count. -/
theorem C17_sub_second (tp : Int) (h : 0 ≤ tp) :
    subSecond tp = tp / 1000 % 1000000
    ∧ (ofTimePoint tp).msec_ = Int.tdiv (subSecond tp) 1000
    ∧ (ofTimePoint tp).usec_ = Int.tmod (subSecond tp) 1000
    ∧ 1000 * (ofTimePoint tp).msec_ + (ofTimePoint tp).usec_ = tp / 1000 % 1000000 := by
  have hs : subSecond tp = tp / 1000 % 1000000 := toInt32_sub_second tp h
  have hdm := Int.tdiv_add_tmod (subSecond tp) 1000
  refine ⟨hs, rfl, rfl, ?_⟩
  show 1000 * Int.tdiv (subSecond tp) 1000 + Int.tmod (subSecond tp) 1000 = tp / 1000 % 1000000
  omega

/-- A witness of `C17_sub_second`: a time point of the year 2024, whose count
of microseconds does not fit an `int`. -/
theorem C17_sub_second_witness :
    toInt32 (Int.tdiv 1709251199123456789 1000) ≠ Int.tdiv 1709251199123456789 1000
    ∧ subSecond 1709251199123456789 = 123456
    ∧ 1000 * (ofTimePoint 1709251199123456789).msec_ + (ofTimePoint 1709251199123456789).usec_
        = 1709251199123456789 / 1000 % 1000000 :=
  ⟨by decide, by decide, (C17_sub_second 1709251199123456789 (by decide)).2.2.2⟩

set_option maxRecDepth 100000 in
/-- C18 (as stated) fails on the code: the count of nanoseconds of a canonical
value later than 2262-04-11 23:47:16.854775 does not fit the 64-bit count of
the clock. In a zone of constant offset, the first such value comes back from
its time point as a value of the year 1677, and 2300-12-31 23:59:59.999999
comes back as a value of the year 1716. -/
theorem C18_field_instant_counterexample :
    Canonical ⟨2262, 4, 11, 23, 47, 16, 854, 776⟩
    ∧ ofTimePoint (to_time_point (Env.fixed 0 0) ⟨2262, 4, 11, 23, 47, 16, 854, 776⟩)
      = ⟨1677, 9, 21, 0, 12, 44, -854, -775⟩
    ∧ Canonical ⟨2300, 12, 31, 23, 59, 59, 999, 999⟩
    ∧ ofTimePoint (to_time_point (Env.fixed 0 0) ⟨2300, 12, 31, 23, 59, 59, 999, 999⟩)
      = ⟨1716, 6, 12, 0, 25, 27, -709, -552⟩
    ∧ add (Env.fixed 0 0) ⟨2300, 12, 31, 23, 59, 59, 999, 999⟩ 0 .SEC
      = ⟨1716, 6, 12, 0, 25, 27, -709, -552⟩ := by
  decide

/-- C18 (amended): in a zone of constant offset from UTC, for every canonical
value `d` (year from 1970, the other fields in the ranges of the data model)
that is not later than 2262-04-11 23:47:16.854775, the last value whose count
of nanoseconds fits the 64-bit count of the clock, the `time_point` constructor
applied to `to_time_point(d)` gives `d` back field for field, and
`add(d, 0, u)` leaves the eight fields unchanged for every unit `u`. -/
theorem C18_field_instant_round_trip (offset now : Int) (d : DateTime) (hc : Canonical d)
    (hle : ¬ lexLt lastOfClock d) :
    ofTimePoint (to_time_point (Env.fixed offset now) d) = d
    ∧ ∀ u : DateTimeUnit, add (Env.fixed offset now) d 0 u = d := by
  have hr := inClockRange_of_le_last offset now d hc hle
  have h := ofTimePoint_to_time_point offset now d hc hr
  refine ⟨h, fun u => ?_⟩
  have hz := toInt64_range (1000 * instant (Env.fixed offset now) d)
  rw [add_eq, mul_zero, mul_zero, add_zero, to_time_point_eq,
    toInt64_of_range _ (toInt64_range _).1 (toInt64_range _).2, ← to_time_point_eq, h]

/-- A witness of `C18_field_instant_round_trip`: the last value of the clock,
in a zone nine hours ahead of UTC. -/
theorem C18_field_instant_round_trip_witness :
    ofTimePoint (to_time_point (Env.fixed 32400 1700000000) ⟨2262, 4, 11, 23, 47, 16, 854, 775⟩)
      = ⟨2262, 4, 11, 23, 47, 16, 854, 775⟩
    ∧ ∀ u : DateTimeUnit,
        add (Env.fixed 32400 1700000000) ⟨2262, 4, 11, 23, 47, 16, 854, 775⟩ 0 u
          = ⟨2262, 4, 11, 23, 47, 16, 854, 775⟩ :=
  C18_field_instant_round_trip 32400 1700000000 ⟨2262, 4, 11, 23, 47, 16, 854, 775⟩
    (by decide) (by decide)

set_option maxRecDepth 100000 in
/-- C19 (as stated) fails on the code: 2200-01-01 and 2300-01-01 are canonical
and in the order of their fields, and `<` does not hold between them in a zone
of constant offset, because the count of nanoseconds of the year 2300 does not
fit the 64-bit count of the clock and comes out negative. -/
theorem C19_comparison_counterexample :
    Canonical ⟨2200, 1, 1, 0, 0, 0, 0, 0⟩ ∧ Canonical ⟨2300, 1, 1, 0, 0, 0, 0, 0⟩
    ∧ lexLt ⟨2200, 1, 1, 0, 0, 0, 0, 0⟩ ⟨2300, 1, 1, 0, 0, 0, 0, 0⟩
    ∧ lt (Env.fixed 0 0) ⟨2200, 1, 1, 0, 0, 0, 0, 0⟩ ⟨2300, 1, 1, 0, 0, 0, 0, 0⟩ = false
    ∧ to_time_point (Env.fixed 0 0) ⟨2300, 1, 1, 0, 0, 0, 0, 0⟩ = -8032952073709551616 := by
  decide

/-- C19 (amended): in a zone of constant offset from UTC, for every two
canonical values `a` and `b` that are not later than 2262-04-11
23:47:16.854775, the last value whose count of nanoseconds fits the 64-bit
count of the clock, `a == b` holds if and only if the eight fields are equal,
and `a < b` holds if and only if the tuple of fields of `a` is
lexicographically smaller than that of `b`. For values that are not canonical
this fails: second 60 of a minute and second 0 of the next minute have
different fields and compare equal. -/
theorem C19_comparison_field_order (offset now : Int) (a b : DateTime) (ha : Canonical a)
    (hb : Canonical b) (hla : ¬ lexLt lastOfClock a) (hlb : ¬ lexLt lastOfClock b) :
    (eq (Env.fixed offset now) a b = true ↔ a = b)
    ∧ (lt (Env.fixed offset now) a b = true ↔ lexLt a b)
    ∧ ((⟨1970, 1, 1, 0, 0, 60, 0, 0⟩ : DateTime) ≠ ⟨1970, 1, 1, 0, 1, 0, 0, 0⟩
      ∧ eq (Env.fixed offset now) ⟨1970, 1, 1, 0, 0, 60, 0, 0⟩ ⟨1970, 1, 1, 0, 1, 0, 0, 0⟩
          = true) := by
  have ra := inClockRange_of_le_last offset now a ha hla
  have rb := inClockRange_of_le_last offset now b hb hlb
  simp only [eq, lt, decide_eq_true_eq]
  rw [to_time_point_of_inClockRange _ _ ra, to_time_point_of_inClockRange _ _ rb]
  refine ⟨⟨fun h => instant_injective offset now a b ha.2.2 hb.2.2 (by omega), fun h => by rw [h]⟩,
    ⟨fun h => ?_, fun h => ?_⟩, by decide, ?_⟩
  · rcases lexLt_trichotomy a b with h1 | h1 | h1
    · exact h1
    · rw [h1] at h; omega
    · have := instant_lt offset now b a hb.2.2 ha.2.2 h1
      omega
  · have := instant_lt offset now a b ha.2.2 hb.2.2 h
    omega
  · rw [to_time_point_eq, to_time_point_eq, instant_fixed, instant_fixed]
    decide

/-- A witness of `C19_comparison_field_order`: two canonical values one
microsecond apart, across the end of a leap day. -/
theorem C19_comparison_field_order_witness :
    lt (Env.fixed 3600 0) ⟨2024, 2, 29, 23, 59, 59, 999, 999⟩ ⟨2024, 3, 1, 0, 0, 0, 0, 0⟩ = true
    ∧ lexLt ⟨2024, 2, 29, 23, 59, 59, 999, 999⟩ ⟨2024, 3, 1, 0, 0, 0, 0, 0⟩ :=
  have H := C19_comparison_field_order 3600 0 ⟨2024, 2, 29, 23, 59, 59, 999, 999⟩
    ⟨2024, 3, 1, 0, 0, 0, 0, 0⟩ (by decide) (by decide) (by decide) (by decide)
  ⟨H.2.1.mpr (by decide), by decide⟩

end DateTime

/-! ## Single stages of `to_str` -/

namespace DateTime

theorem dump_not_found {str fmt rep : Str} (h : Cpp.find str fmt 0 = none) :
    dump str fmt rep = some str := by
  unfold dump
  rw [dumpLoop_succ, h]

theorem dump_once {str fmt rep : Str} {p : Nat} (hfind : Cpp.find str fmt 0 = some p)
    (hne : 0 < fmt.length)
    (hnext : Cpp.find (str.take p ++ rep ++ str.drop (p + fmt.length)) fmt (p + rep.length)
      = none) :
    dump str fmt rep = some (str.take p ++ rep ++ str.drop (p + fmt.length)) := by
  have hb := Cpp.find_some hfind
  obtain ⟨k, hk⟩ : ∃ k, str.length = k + 1 := ⟨str.length - 1, by omega⟩
  unfold dump
  rw [hk, dumpLoop_succ, hfind]
  simp only []
  rw [dumpLoop_succ, hnext]

/-- A template without `zzz` is a template without `zzzzzz`. -/
theorem find_zzzzzz_none {format : Str} (h : Cpp.find format tok_zzz 0 = none) :
    Cpp.find format tok_zzzzzz 0 = none := by
  by_contra hne
  have h6 := (Cpp.find_ne_none_iff format tok_zzzzzz).mp hne
  have h36 : tok_zzz <:+: tok_zzzzzz := ⟨[], ['z', 'z', 'z'], rfl⟩
  exact (Cpp.find_ne_none_iff format tok_zzz).mpr (h36.trans h6) h

theorem list_length_three {l : Str} (h : l.length = 3) : ∃ a b c, l = [a, b, c] := by
  match l, h with
  | [a, b, c], _ => exact ⟨a, b, c, rfl⟩

theorem list_length_six {l : Str} (h : l.length = 6) :
    ∃ a b c d e f, l = [a, b, c, d, e, f] := by
  match l, h with
  | [a, b, c, d, e, f], _ => exact ⟨a, b, c, d, e, f, rfl⟩

/-- The value of the digits that `to_str` writes for a field. -/
theorem render_digitsVal (v : Int) (k : Nat) (h0 : 0 ≤ v) :
    (Cpp.digitsVal (zero_fill (Cpp.to_string v) (k + 1)) : Int) = v := by
  lift v to ℕ using h0
  rw [Cpp.to_string_of_nonneg _ (by omega), Int.toNat_ofNat, zero_fill_eq, digitsVal_zeros,
    Cpp.digitsVal_toDigits]

/-- The text that `to_str` yields for the template `zzzzzz-zzz`, given the two
replacements. -/
theorem to_str_zzzzzz_zzz (d : DateTime) (r6 r3 : Str)
    (h6 : zero_fill (Cpp.to_string (toInt32 (1000 * d.msec_ + d.usec_))) 6 = r6)
    (h3 : zero_fill (Cpp.to_string d.msec_) 3 = r3)
    (l6 : r6.length = 6) (g6 : ∀ c ∈ r6, Cpp.isdigit c = true) (l3 : r3.length = 3) :
    to_str d "zzzzzz-zzz".toList = some (r6 ++ '-' :: r3) := by
  obtain ⟨a1, a2, a3, a4, a5, a6, rfl⟩ := list_length_six l6
  obtain ⟨b1, b2, b3, rfl⟩ := list_length_three l3
  have hm : Masked (fun c => Cpp.isdigit c = true) ([a1, a2, a3, a4, a5, a6] ++ "-zzz".toList)
      "******-zzz".toList :=
    List.rel_append (Masked.digits_stars _ g6)
      (Masked.same (fun c => Cpp.isdigit c = true) "-zzz".toList)
  have c6 := tok_clean tok_zzzzzz_chars (by decide)
  have c3 := tok_clean tok_zzz_chars (by decide)
  have d7 : dump "zzzzzz-zzz".toList tok_zzzzzz [a1, a2, a3, a4, a5, a6]
      = some ([a1, a2, a3, a4, a5, a6] ++ "-zzz".toList) := by
    have := @dump_once "zzzzzz-zzz".toList tok_zzzzzz [a1, a2, a3, a4, a5, a6] 0 (by decide)
      (by decide) (by
        have e := find_masked tok_zzzzzz c6 hm 6
        rw [show (List.take 0 "zzzzzz-zzz".toList ++ [a1, a2, a3, a4, a5, a6]
            ++ List.drop (0 + tok_zzzzzz.length) "zzzzzz-zzz".toList)
            = [a1, a2, a3, a4, a5, a6] ++ "-zzz".toList from rfl]
        exact e.trans (by decide))
    rw [this]
    rfl
  have d8 : dump ([a1, a2, a3, a4, a5, a6] ++ "-zzz".toList) tok_zzz [b1, b2, b3]
      = some ([a1, a2, a3, a4, a5, a6] ++ '-' :: [b1, b2, b3]) := by
    have hf : Cpp.find ([a1, a2, a3, a4, a5, a6] ++ "-zzz".toList) tok_zzz 0 = some 7 :=
      (find_masked tok_zzz c3 hm 0).trans (by decide)
    have := @dump_once ([a1, a2, a3, a4, a5, a6] ++ "-zzz".toList) tok_zzz [b1, b2, b3] 7 hf
      (by decide) (by
        rw [show (List.take 7 ([a1, a2, a3, a4, a5, a6] ++ "-zzz".toList) ++ [b1, b2, b3]
            ++ List.drop (7 + tok_zzz.length) ([a1, a2, a3, a4, a5, a6] ++ "-zzz".toList))
            = [a1, a2, a3, a4, a5, a6, '-', b1, b2, b3] from rfl]
        rfl)
    rw [this]
    rfl
  have q : ∀ (fmt rep : Str), Cpp.find "zzzzzz-zzz".toList fmt 0 = none →
      dump "zzzzzz-zzz".toList fmt rep = some "zzzzzz-zzz".toList :=
    fun fmt rep h => dump_not_found h
  unfold to_str
  simp only [q tok_yyyy _ (by decide), q tok_mm _ (by decide), q tok_dd _ (by decide),
    q tok_hh _ (by decide), q tok_nn _ (by decide), q tok_ss _ (by decide), h6, h3, d7, d8,
    bind, Option.bind, pure]

end DateTime

/-! ## The sub-second tokens of `to_str`, and templates without a token -/

namespace DateTime

/-- C14: for every value whose millisecond `ms` and microsecond `us` both lie in
0..999, `to_str` on the template `zzzzzz-zzz` returns a text: six decimal digits
whose value is `1000 * ms + us`, then `-`, then three decimal digits whose value
is `ms`. The token `zzzzzz` is replaced before `zzz`, so the `zzz` inside it is
never seen as a token of its own. With `ms = 7` and `us = 8` the text is
`007008-007`, whatever the other fields hold. -/
theorem C14_token_precedence (d : DateTime) (hms : 0 ≤ d.msec_ ∧ d.msec_ ≤ 999)
    (hus : 0 ≤ d.usec_ ∧ d.usec_ ≤ 999) :
    ∃ r6 r3 : Str, to_str d "zzzzzz-zzz".toList = some (r6 ++ '-' :: r3)
      ∧ r6.length = 6 ∧ (∀ c ∈ r6, Cpp.isdigit c = true)
      ∧ (Cpp.digitsVal r6 : Int) = 1000 * d.msec_ + d.usec_
      ∧ r3.length = 3 ∧ (∀ c ∈ r3, Cpp.isdigit c = true)
      ∧ (Cpp.digitsVal r3 : Int) = d.msec_
      ∧ (d.msec_ = 7 → d.usec_ = 8
          → to_str d "zzzzzz-zzz".toList = some "007008-007".toList) := by
  have e32 : toInt32 (1000 * d.msec_ + d.usec_) = 1000 * d.msec_ + d.usec_ :=
    toInt32_small _ (by omega) (by omega)
  have s6 := render_spec (1000 * d.msec_ + d.usec_) 5 (by omega) (by norm_num; omega)
    (by norm_num)
  have s3 := render_spec d.msec_ 2 (by omega) (by norm_num; omega) (by norm_num)
  have v6 := render_digitsVal (1000 * d.msec_ + d.usec_) 5 (by omega)
  have v3 := render_digitsVal d.msec_ 2 (by omega)
  have hstr := to_str_zzzzzz_zzz d _ _ (by rw [e32]) rfl s6.1 s6.2.1 s3.1
  refine ⟨_, _, hstr, s6.1, s6.2.1, v6, s3.1, s3.2.1, v3, ?_⟩
  intro h7 h8
  rw [hstr, h7, h8]
  decide

/-- A witness of `C14_token_precedence`: 12:34:56 with millisecond 7 and
microsecond 8. -/
theorem C14_token_precedence_witness :
    to_str ⟨2024, 2, 29, 12, 34, 56, 7, 8⟩ "zzzzzz-zzz".toList = some "007008-007".toList :=
  (C14_token_precedence ⟨2024, 2, 29, 12, 34, 56, 7, 8⟩ (by decide) (by decide)).choose_spec.choose_spec.2.2.2.2.2.2.2
    rfl rfl

/-- C16: for every instance, canonical or not, and every template in which
`find` locates none of `yyyy`, `mm`, `dd`, `hh`, `nn`, `ss` and `zzz`, the token
`zzzzzz` does not occur either, and `to_str` returns the template unchanged. -/
theorem C16_token_free_unchanged (d : DateTime) (format : Str)
    (hyyyy : Cpp.find format tok_yyyy 0 = none) (hmm : Cpp.find format tok_mm 0 = none)
    (hdd : Cpp.find format tok_dd 0 = none) (hhh : Cpp.find format tok_hh 0 = none)
    (hnn : Cpp.find format tok_nn 0 = none) (hss : Cpp.find format tok_ss 0 = none)
    (hzzz : Cpp.find format tok_zzz 0 = none) :
    Cpp.find format tok_zzzzzz 0 = none ∧ to_str d format = some format := by
  have hz6 := find_zzzzzz_none hzzz
  refine ⟨hz6, ?_⟩
  unfold to_str
  simp only [dump_not_found hyyyy, dump_not_found hmm, dump_not_found hdd, dump_not_found hhh,
    dump_not_found hnn, dump_not_found hss, dump_not_found hz6, dump_not_found hzzz,
    bind, Option.bind, pure]

/-- A witness of `C16_token_free_unchanged`: a template of plain words, and an
instance whose fields are far out of range. -/
theorem C16_token_free_unchanged_witness :
    to_str ⟨-5, 99, 0, 77, -1, 60, 5000, -3⟩ "no tokens: y-m-d zz".toList
      = some "no tokens: y-m-d zz".toList :=
  (C16_token_free_unchanged ⟨-5, 99, 0, 77, -1, 60, 5000, -3⟩ "no tokens: y-m-d zz".toList
    (by decide) (by decide) (by decide) (by decide) (by decide) (by decide) (by decide)).2

end DateTime

/-! ## The last turn of a loop of `parse`, and the read of `days_of_month` -/

namespace DateTime

/-- A loop of `parse` whose turn from `s` finds an occurrence and whose next turn
finds none. -/
theorem continueFrom_last {tok : Token} {L : Locals} {upper : Int} {s t : ParseState}
    (hb : parseBody tok.fmt tok.low upper s = .ok (some t))
    (he : parseBody tok.fmt tok.low upper t = .ok none) :
    continueFrom tok L upper s = (calls tok.rest (tok.store L t)).map Locals.result := by
  have hm := parseBody_some_measure hb
  obtain ⟨k, hk⟩ : ∃ k, s.fmt_str.length = k + 1 := ⟨s.fmt_str.length - 1, by omega⟩
  unfold continueFrom
  rw [parseLoop_succ, hb]
  simp only []
  rw [hk, parseLoop_succ, he]

/-- If `from_str` returns an instance and its execution reaches a turn of a loop
of `parse` that reads `v` at the last occurrence of the token, then `v` is within
the bounds of the token and the instance is the one that the calls after this
one make from `v`. -/
theorem continueFrom_accept {date_time_str format : Str} {tok : Token} {L : Locals}
    {upper : Int} {s : ParseState} {p : Nat} {sub fs : Str} {v : Int} {r : DateTime}
    (hat : AtLoopHead date_time_str format tok L upper s)
    (hfind : Cpp.find s.fmt_str tok.fmt s.pos = some p)
    (hsub : Cpp.substr s.dt_str p tok.fmt.length = .ok sub)
    (hval : Cpp.stol sub = .ok v)
    (hfs : Cpp.replace s.fmt_str p tok.fmt.length tok.fmt.length '*' = .ok fs)
    (hlast : Cpp.find fs tok.fmt (p + tok.fmt.length) = none)
    (hok : from_str date_time_str format = .ok r) :
    tok.low ≤ v ∧ v ≤ upper
    ∧ ∃ t : ParseState, t.val = v
        ∧ (calls tok.rest (tok.store L t)).map Locals.result = .ok r := by
  obtain ⟨hp, rfl⟩ := substr_ok hsub
  have hlen : ((s.dt_str.drop p).take tok.fmt.length).length ≤ 6 := by
    rw [List.length_take]
    exact le_trans (Nat.min_le_left _ _) tok.fmt_length_le
  have h32 := Cpp.toInt32_of_stol hval hlen
  have htry := from_str_ok hok
  rw [atLoopHead_continue hat] at htry
  have hfound := @parseBody_found tok.fmt tok.low upper s p hfind hp
  rw [hval] at hfound
  simp only [h32] at hfound
  by_cases hout : v < tok.low ∨ v > upper
  · rw [if_pos hout] at hfound
    rw [continueFrom_error hfound] at htry
    simp at htry
  · rw [if_neg hout] at hfound
    have hfs1 : fs = s.fmt_str.take p ++ List.replicate tok.fmt.length '*'
        ++ s.fmt_str.drop (p + tok.fmt.length) := by
      unfold Cpp.replace at hfs
      split at hfs
      · simp at hfs
      · simp only [Except.ok.injEq] at hfs
        exact hfs.symm
    have hnone := @parseBody_not_found tok.fmt tok.low upper
      ⟨s.dt_str.take p ++ List.replicate tok.fmt.length '*' ++ s.dt_str.drop (p + tok.fmt.length),
        s.fmt_str.take p ++ List.replicate tok.fmt.length '*' ++ s.fmt_str.drop (p + tok.fmt.length),
        p + tok.fmt.length, v⟩ (by rw [← hfs1]; exact hlast)
    rw [continueFrom_last hfound hnone] at htry
    exact ⟨by omega, by omega, _, rfl, htry⟩

/-- The call of `parse` for `zzz` leaves the microsecond variable as it is. -/
theorem call_zzz_usec {L L1 : Locals} (h : call .zzz L = .ok L1) : L1.usec = L.usec := by
  unfold call at h
  simp only [Token.upper, bind, Except.bind, pure, Except.pure] at h
  cases hp : parse L.dt_str L.fmt_str Token.zzz.fmt (Token.zzz.val L) Token.zzz.low 999 with
  | error e => rw [hp] at h; simp at h
  | ok s =>
    rw [hp] at h
    simp only [Except.ok.injEq] at h
    rw [← h]
    rfl

/-- An error of a call of `parse` is not an out-of-bounds read. -/
theorem parseLoop_ne_bad_index (fmt : Str) (lo hi : Int) (fuel : Nat) (s : ParseState) :
    parseLoop fmt lo hi fuel s ≠ .error .bad_index := by
  induction fuel generalizing s with
  | zero => simp [parseLoop]
  | succ n ih =>
    rw [parseLoop_succ]
    cases hb : parseBody fmt lo hi s with
    | error e =>
      rcases parseBody_error hb with rfl | ⟨w, rfl⟩ <;> simp
    | ok o =>
      cases o with
      | none => simp
      | some s1 => exact ih s1

/-- The month variable of `from_str` after a call of `parse`, when it was in
1..12 before: it still is. -/
theorem call_mon_range {tok : Token} {L L1 : Locals} (h : call tok L = .ok L1)
    (hm : 1 ≤ L.mon ∧ L.mon ≤ 12) : 1 ≤ L1.mon ∧ L1.mon ≤ 12 := by
  unfold call at h
  cases hu : tok.upper L with
  | error e => rw [hu] at h; simp [bind, Except.bind] at h
  | ok upper =>
    rw [hu] at h
    simp only [bind, Except.bind, pure, Except.pure] at h
    cases hp : parse L.dt_str L.fmt_str tok.fmt (tok.val L) tok.low upper with
    | error e => rw [hp] at h; simp at h
    | ok s =>
      rw [hp] at h
      simp only [Except.ok.injEq] at h
      subst h
      cases tok <;> try exact hm
      have hv := parse_val hp
      simp only [Token.upper, Except.ok.injEq] at hu
      subst hu
      simp only [Token.store, Token.val, Token.low] at hv ⊢
      omega

/-- No call of `parse` made with the month variable in 1..12 reads
`days_of_month` out of bounds. -/
theorem call_ne_bad_index {tok : Token} {L : Locals} (hm : 1 ≤ L.mon ∧ L.mon ≤ 12) :
    call tok L ≠ .error .bad_index := by
  unfold call
  cases hu : tok.upper L with
  | error e =>
    exfalso
    cases tok <;> simp only [Token.upper] at hu <;> try exact absurd hu (by simp)
    rw [index_days_of_month_eq L.year L.mon hm.1 hm.2] at hu
    exact absurd hu (by simp)
  | ok upper =>
    simp only [bind, Except.bind, pure, Except.pure]
    cases hp : parse L.dt_str L.fmt_str tok.fmt (tok.val L) tok.low upper with
    | error e =>
      intro h
      simp only [Except.error.injEq] at h
      subst h
      exact parseLoop_ne_bad_index _ _ _ _ _ hp
    | ok s => simp

theorem calls_ne_bad_index (toks : List Token) (L : Locals) (hm : 1 ≤ L.mon ∧ L.mon ≤ 12) :
    calls toks L ≠ .error .bad_index := by
  induction toks generalizing L with
  | nil => simp [calls]
  | cons tok rest ih =>
    unfold calls
    cases hc : call tok L with
    | ok L1 => exact ih L1 (call_mon_range hc hm)
    | error e =>
      intro h
      simp only [Except.error.injEq] at h
      subst h
      exact call_ne_bad_index hm hc

end DateTime

/-! ## The two sub-second tokens of `from_str`, and the read of `days_of_month` -/

namespace DateTime

/-- C15: let `from_str(date_time_str, format)` return the instance `r`, and let
its execution reach a turn of the loop of `parse` for `zzzzzz` that reads the
integer `v6` at the last occurrence of `zzzzzz` (after it is overwritten, `find`
yields no further one), and a turn of the loop of `parse` for `zzz` that reads
the integer `v3` at the last occurrence of `zzz`. An occurrence that the scan
for `zzz` reaches is separate from those of `zzzzzz`, which are overwritten by
then. Then the millisecond of `r` is `v3`, not `v6 / 1000`, and the microsecond
of `r` is `v6 mod 1000`; both integers lie within the bounds of their token. -/
theorem C15_zzz_overrides (date_time_str format : Str) (r : DateTime)
    (L6 : Locals) (u6 : Int) (s6 : ParseState) (p6 : Nat) (sub6 fs6 : Str) (v6 : Int)
    (L3 : Locals) (u3 : Int) (s3 : ParseState) (p3 : Nat) (sub3 fs3 : Str) (v3 : Int)
    (hok : from_str date_time_str format = .ok r)
    (hat6 : AtLoopHead date_time_str format .zzzzzz L6 u6 s6)
    (hfind6 : Cpp.find s6.fmt_str tok_zzzzzz s6.pos = some p6)
    (hsub6 : Cpp.substr s6.dt_str p6 6 = .ok sub6)
    (hval6 : Cpp.stol sub6 = .ok v6)
    (hfs6 : Cpp.replace s6.fmt_str p6 6 6 '*' = .ok fs6)
    (hlast6 : Cpp.find fs6 tok_zzzzzz (p6 + 6) = none)
    (hat3 : AtLoopHead date_time_str format .zzz L3 u3 s3)
    (hfind3 : Cpp.find s3.fmt_str tok_zzz s3.pos = some p3)
    (hsub3 : Cpp.substr s3.dt_str p3 3 = .ok sub3)
    (hval3 : Cpp.stol sub3 = .ok v3)
    (hfs3 : Cpp.replace s3.fmt_str p3 3 3 '*' = .ok fs3)
    (hlast3 : Cpp.find fs3 tok_zzz (p3 + 3) = none) :
    r.msec_ = v3 ∧ r.usec_ = v6 % 1000
    ∧ (0 ≤ v6 ∧ v6 ≤ 999999) ∧ (0 ≤ v3 ∧ v3 ≤ 999) := by
  obtain ⟨hlo6, hhi6, t6, ht6, hr6⟩ :=
    @continueFrom_accept date_time_str format .zzzzzz L6 u6 s6 p6 sub6 fs6 v6 r
      hat6 hfind6 hsub6 hval6 hfs6 hlast6 hok
  obtain ⟨hlo3, hhi3, t3, ht3, hr3⟩ :=
    @continueFrom_accept date_time_str format .zzz L3 u3 s3 p3 sub3 fs3 v3 r
      hat3 hfind3 hsub3 hval3 hfs3 hlast3 hok
  have hu6 := atLoopHead_upper hat6
  have hu3 := atLoopHead_upper hat3
  simp only [Token.upper, Except.ok.injEq] at hu6 hu3
  simp only [Token.low] at hlo6 hlo3
  subst hu6 hu3
  have hms : r.msec_ = v3 := by
    simp only [Token.rest, calls, Except.map, Except.ok.injEq] at hr3
    rw [← hr3, ← ht3]
    rfl
  have hus : r.usec_ = Int.tmod v6 1000 := by
    simp only [Token.rest, calls] at hr6
    cases hc : call .zzz (Token.zzzzzz.store L6 t6) with
    | error e => rw [hc] at hr6; simp [Except.map] at hr6
    | ok L1 =>
      rw [hc] at hr6
      simp only [Except.map, Except.ok.injEq] at hr6
      have hu := call_zzz_usec hc
      rw [← hr6, ← ht6]
      exact hu
  refine ⟨hms, ?_, ⟨hlo6, hhi6⟩, ⟨hlo3, hhi3⟩⟩
  rw [hus]
  rw [Int.tmod_eq_emod hlo6 (by norm_num)]

/-- A witness of `C15_zzz_overrides`: the text `123456 789` against the template
`zzzzzz zzz` gives millisecond 789 and microsecond 456. -/
theorem C15_zzz_overrides_witness :
    from_str "123456 789".toList "zzzzzz zzz".toList = .ok ⟨1970, 1, 0, 0, 0, 0, 789, 456⟩
    ∧ (789 : Int) = 789 ∧ (456 : Int) = 123456 % 1000
    ∧ ((0 : Int) ≤ 123456 ∧ (123456 : Int) ≤ 999999) ∧ ((0 : Int) ≤ 789 ∧ (789 : Int) ≤ 999) :=
  have h6 : AtLoopHead "123456 789".toList "zzzzzz zzz".toList .zzzzzz
      ⟨"123456 789".toList, "zzzzzz zzz".toList, 1970, 1, 0, 0, 0, 0, 0, 0⟩ 999999
      ⟨"123456 789".toList, "zzzzzz zzz".toList, 0, 0⟩ :=
    AtLoopHead.next (AtLoopHead.next (AtLoopHead.next (AtLoopHead.next (AtLoopHead.next
      (AtLoopHead.next AtLoopHead.start (by decide) rfl rfl) (by decide) rfl rfl)
      (by decide) rfl rfl) (by decide) rfl rfl) (by decide) rfl rfl) (by decide) rfl rfl
  have h6a : AtLoopHead "123456 789".toList "zzzzzz zzz".toList .zzzzzz
      ⟨"123456 789".toList, "zzzzzz zzz".toList, 1970, 1, 0, 0, 0, 0, 0, 0⟩ 999999
      ⟨"****** 789".toList, "****** zzz".toList, 6, 123456⟩ :=
    AtLoopHead.turn h6 (by decide)
  have h3 : AtLoopHead "123456 789".toList "zzzzzz zzz".toList .zzz
      ⟨"****** 789".toList, "****** zzz".toList, 1970, 1, 0, 0, 0, 0, 123, 456⟩ 999
      ⟨"****** 789".toList, "****** zzz".toList, 0, 123⟩ :=
    AtLoopHead.next h6a (by decide) rfl rfl
  ⟨by decide,
    C15_zzz_overrides "123456 789".toList "zzzzzz zzz".toList ⟨1970, 1, 0, 0, 0, 0, 789, 456⟩
      _ 999999 _ 0 "123456".toList "****** zzz".toList 123456
      _ 999 _ 7 "789".toList "****** ***".toList 789
      (by decide) h6 (by decide) (by decide) (by decide) (by decide) (by decide)
      h3 (by decide) (by decide) (by decide) (by decide) (by decide)⟩

/-- C20: for every text and template, when the two calls of `parse` that precede
the read `days_of_month[mon - 1]` in `from_str` have returned, the month
variable holds its default 1 or a value that passed the check against 1..12, so
the index `mon - 1` lies in 0..11, the table has 12 entries, and the read
yields the number of days of that month in the year read before. The `try`
block and `from_str` never end in the out-of-bounds read. -/
theorem C20_day_bound_in_bounds (date_time_str format : Str) :
    (∀ s1 s2 : ParseState,
        parse date_time_str format tok_yyyy 1970 1970 2300 = .ok s1 →
        parse s1.dt_str s1.fmt_str tok_mm 1 1 12 = .ok s2 →
        (s2.val = 1 ∨ (1 ≤ s2.val ∧ s2.val ≤ 12))
          ∧ (0 ≤ s2.val - 1 ∧ s2.val - 1 ≤ 11)
          ∧ (days_of_month s1.val).length = 12
          ∧ index (days_of_month s1.val) (s2.val - 1) = .ok (daysInMonth s1.val s2.val))
    ∧ from_str_try date_time_str format ≠ .error .bad_index
    ∧ from_str date_time_str format ≠ .error .bad_index := by
  have htry : from_str_try date_time_str format ≠ .error .bad_index := by
    rw [from_str_try_eq_calls]
    intro h
    cases hc : calls (.yyyy :: Token.yyyy.rest) (Locals.init date_time_str format) with
    | ok L => rw [hc] at h; simp [Except.map] at h
    | error e =>
      rw [hc] at h
      simp only [Except.map, Except.error.injEq] at h
      subst h
      exact calls_ne_bad_index _ _ ⟨le_refl (1 : Int), by norm_num [Locals.init]⟩ hc
  refine ⟨?_, htry, ?_⟩
  · intro s1 s2 _ h2
    have hv := parse_val h2
    have hr : 1 ≤ s2.val ∧ s2.val ≤ 12 := by omega
    exact ⟨hv, by omega, rfl, index_days_of_month_eq s1.val s2.val hr.1 hr.2⟩
  · intro h
    unfold from_str at h
    split at h
    · simp at h
    · exact htry h

/-- A witness of `C20_day_bound_in_bounds`: for the text `2024-02-30` against
`yyyy-mm-dd` the read is `days_of_month[1]`, which yields 29. -/
theorem C20_day_bound_in_bounds_witness :
    index (days_of_month 2024) (2 - 1) = .ok (daysInMonth 2024 2) :=
  ((C20_day_bound_in_bounds "2024-02-30".toList "yyyy-mm-dd".toList).1
    ⟨"****-02-30".toList, "****-mm-dd".toList, 4, 2024⟩
    ⟨"****-**-30".toList, "****-**-dd".toList, 7, 2⟩ (by decide) (by decide)).2.2.2

end DateTime
